import Mathlib

/-!
Verification of the entity-resolution and relationship-graph engine
(`app/crud.py`, `app/services_graph.py`) against its specification.

The Python code is shallowly embedded below.  Conventions used throughout:

* SQLAlchemy tables are lists of rows inside one `DB` structure; autoincrement
  primary keys are modelled by per-table `next_*` counters (starting at 1, as
  SQLite row ids do).  Timestamp columns (`created_at`, `last_updated`) are
  omitted: the engine never reads them.
* `raw_json` is omitted from the `Work` row: the engine writes the raw payload
  but never reads it back.
* The surrogate primary key of `work_affiliations` is omitted: no query ever
  uses it (deletion and reassignment go through `work_id` / `author_id`).
* Python string falsiness (`None` and `""` are falsy) is modelled by `pyStr`;
  `x or d` on optional strings is `orElseStr`.
* Python float weights are exact here: edge weights are the `Nat` counts that
  `float(w)` is applied to, keyword weights and the alias confidence `0.9` are
  exact rationals.
* Python `sorted` is a stable sort; it is modelled by `List.insertionSort`
  (stable for reflexive total orders).  Python compares strings by code point,
  modelled by the executable `strLe`.
* Python dicts used as counters (`pairs[key] = pairs.get(key, 0) + 1`) keep
  insertion order; they are modelled by association lists and `bump`.
* The ORM session appends link rows while looping over authorships/concepts;
  since nothing inside those loops reads a link table, the embedding collects
  the rows and appends them once.
-/

namespace Relatenta

/-- Truthiness of an optional Python string: `None` and `""` are falsy. -/
def pyStr : Option String → Bool
  | none => false
  | some s => s ≠ ""

/-- Python `s or d` for an optional string `s` and a default `d`. -/
def orElseStr (s : Option String) (d : String) : String :=
  match s with
  | some t => if t = "" then d else t
  | none => d

/-- ASCII lower-casing of one character (the case mapping Python applies to
the ASCII names handled here; kernel-reducible, unlike `String.toLower`). -/
def chLower (c : Char) : Char :=
  if 65 ≤ c.toNat ∧ c.toNat ≤ 90 then Char.ofNat (c.toNat + 32) else c

/-- Python `s.lower()`. -/
def pyLower (s : String) : String := ⟨s.data.map chLower⟩

/-- ASCII upper-casing of one character. -/
def chUpper (c : Char) : Char :=
  if 97 ≤ c.toNat ∧ c.toNat ≤ 122 then Char.ofNat (c.toNat - 32) else c

/-- Python `s.upper()`. -/
def pyUpper (s : String) : String := ⟨s.data.map chUpper⟩

/-- Python whitespace (as stripped by `str.strip()`). -/
def isPyWsp (c : Char) : Bool :=
  decide (c.toNat = 32 ∨ c.toNat = 9 ∨ c.toNat = 10 ∨ c.toNat = 13 ∨ c.toNat = 11 ∨ c.toNat = 12)

/-- Python `s.strip()`. -/
def pyStrip (s : String) : String :=
  ⟨((s.data.dropWhile isPyWsp).reverse.dropWhile isPyWsp).reverse⟩

/-- Code-point comparison of characters, as Python compares strings. -/
def chLt (c d : Char) : Bool := decide (c.toNat < d.toNat)

/-- Helper for `strLe`: lexicographic comparison of character lists. -/
def strLeGo : List Char → List Char → Bool
  | [], _ => true
  | _ :: _, [] => false
  | c :: cs, d :: ds => if chLt c d then true else if chLt d c then false else strLeGo cs ds

/-- Python `a <= b` on strings: lexicographic by code point (kernel-reducible,
unlike the builtin `String` order). -/
def strLe (a b : String) : Bool := strLeGo a.data b.data

/-! ## Table rows (`app/models.py`) -/

structure Author where
  id : Nat
  display_name : String
  normalized_name : String
  orcid : Option String
deriving DecidableEq, Repr

structure AuthorAlias where
  author_id : Nat
  raw_name : String
  source : String
  confidence : ℚ
deriving DecidableEq, Repr

structure Organization where
  id : Nat
  name : String
  country_code : Option String
  city : Option String
deriving DecidableEq, Repr

structure Venue where
  id : Nat
  name : String
  vtype : Option String
  issn : Option String
  publisher : Option String
deriving DecidableEq, Repr

structure Keyword where
  id : Nat
  term_norm : String
  term_display : String
  vocabulary : Option String
deriving DecidableEq, Repr

structure Work where
  id : Nat
  doi : Option String
  source_uid : Option String
  title : String
  abstract : Option String
  year : Option Int
  venue_id : Option Nat
  url : Option String
  wtype : Option String
  language : Option String
  source : Option String
deriving DecidableEq, Repr

structure WorkAuthor where
  work_id : Nat
  author_id : Nat
  position : Nat
  corresponding : Bool
deriving DecidableEq, Repr

structure WorkAffiliation where
  work_id : Nat
  author_id : Option Nat
  org_id : Option Nat
  org_label_raw : Option String
  year : Option Int
  country_code : Option String
deriving DecidableEq, Repr

structure WorkKeyword where
  work_id : Nat
  keyword_id : Nat
  weight : ℚ
  extractor : Option String
deriving DecidableEq, Repr

structure CoauthorEdge where
  a_id : Nat
  b_id : Nat
  weight : Nat
  evidence_count : Nat
deriving DecidableEq, Repr

structure OrgEdge where
  org1_id : Nat
  org2_id : Nat
  weight : Nat
deriving DecidableEq, Repr

structure NationEdge where
  n1 : String
  n2 : String
  weight : Nat
deriving DecidableEq, Repr

structure MergeLog where
  entity_type : String
  kept_id : String
  removed_id : String
  reason : Option String
  user : Option String
deriving DecidableEq, Repr

/-- The whole storage instance: all tables plus autoincrement counters. -/
structure DB where
  authors : List Author
  author_aliases : List AuthorAlias
  organizations : List Organization
  venues : List Venue
  keywords : List Keyword
  works : List Work
  work_authors : List WorkAuthor
  work_affiliations : List WorkAffiliation
  work_keywords : List WorkKeyword
  coauthor_edges : List CoauthorEdge
  org_edges : List OrgEdge
  nation_edges : List NationEdge
  merge_log : List MergeLog
  next_author_id : Nat
  next_org_id : Nat
  next_venue_id : Nat
  next_keyword_id : Nat
  next_work_id : Nat
deriving DecidableEq, Repr

def emptyDB : DB :=
  ⟨[], [], [], [], [], [], [], [], [], [], [], [], [], 1, 1, 1, 1, 1⟩

/-! ## External (OpenAlex) record shape, as accessed by `crud.py` -/

structure OAAuthor where
  display_name : Option String
  orcid : Option String
deriving DecidableEq, Repr

structure OAInstitution where
  display_name : Option String
  country_code : Option String
deriving DecidableEq, Repr

structure OAAuthorship where
  author : Option OAAuthor
  institutions : Option (List OAInstitution)
deriving DecidableEq, Repr

structure OAConcept where
  display_name : Option String
  score : Option ℚ
deriving DecidableEq, Repr

structure OAHostVenue where
  display_name : Option String
  issn : Option (List String)
  vtype : Option String
  publisher : Option String
deriving DecidableEq, Repr

structure OASource where
  url : Option String
deriving DecidableEq, Repr

/-- A location object; `primary_location` carries a nested `source` with a
`url`, `best_oa_location` carries a `url` directly. -/
structure OALocation where
  source : Option OASource
  url : Option String
deriving DecidableEq, Repr

/-- One external bibliographic record.  `none` covers both an absent key and a
JSON `null`/falsy-empty value wherever the code treats those alike.  The
inverted abstract index is a term-to-positions mapping (dict modelled as an
association list). -/
structure OAWork where
  id : Option String
  doi : Option String
  title : Option String
  abstract : Option String
  abstract_inverted_index : Option (List (String × List Nat))
  publication_year : Option Int
  host_venue : Option OAHostVenue
  primary_location : Option OALocation
  best_oa_location : Option OALocation
  authorships : Option (List OAAuthorship)
  concepts : Option (List OAConcept)
  wtype : Option String
  language : Option String
deriving DecidableEq, Repr

/-- An empty record: every field absent. -/
def emptyOAWork : OAWork :=
  ⟨none, none, none, none, none, none, none, none, none, none, none, none, none⟩

/-! ## Entity store (`get_or_create_*`, crud.py lines 7-46) -/

/-- The alias confidence `0.9` as an exact rational. -/
def ingestConfidence : ℚ := ⟨9, 10, by decide, by decide⟩

def get_or_create_venue (db : DB) (name : Option String)
    (vtype issn publisher : Option String) : DB × Option Venue :=
  if pyStr name = false then (db, none)
  else
    let nm := name.getD ""
    match db.venues.find? (fun v => decide (v.name = nm)) with
    | some v => (db, some v)
    | none =>
      let v : Venue := ⟨db.next_venue_id, nm, vtype, issn, publisher⟩
      ({ db with venues := db.venues ++ [v], next_venue_id := db.next_venue_id + 1 }, some v)

/-- Identity key of an author: `(normalized_name or display_name).strip().lower()`. -/
def authorNorm (display_name : String) (normalized_name : Option String) : String :=
  pyLower (pyStrip (orElseStr normalized_name display_name))

def get_or_create_author (db : DB) (display_name : String)
    (normalized_name : Option String) (orcid : Option String) : DB × Author :=
  let norm := authorNorm display_name normalized_name
  match db.authors.find? (fun a => decide (a.normalized_name = norm)) with
  | some a => (db, a)
  | none =>
    let a : Author := ⟨db.next_author_id, display_name, norm, orcid⟩
    let al : AuthorAlias := ⟨a.id, display_name, "ingest", ingestConfidence⟩
    ({ db with authors := db.authors ++ [a], author_aliases := db.author_aliases ++ [al],
               next_author_id := db.next_author_id + 1 }, a)

def get_or_create_keyword (db : DB) (term : String)
    (display : Option String) (vocab : Option String) : DB × Keyword :=
  let norm := pyLower (pyStrip term)
  match db.keywords.find? (fun k => decide (k.term_norm = norm)) with
  | some k => (db, k)
  | none =>
    let k : Keyword := ⟨db.next_keyword_id, norm, orElseStr display term, vocab⟩
    ({ db with keywords := db.keywords ++ [k], next_keyword_id := db.next_keyword_id + 1 }, k)

def get_or_create_org (db : DB) (name : String)
    (country : Option String) (city : Option String) : DB × Organization :=
  match db.organizations.find? (fun o => decide (o.name = name)) with
  | some o => (db, o)
  | none =>
    let o : Organization := ⟨db.next_org_id, name, country, city⟩
    ({ db with organizations := db.organizations ++ [o], next_org_id := db.next_org_id + 1 }, o)

/-! ## Record upsert (`upsert_work_from_openalex`, crud.py lines 48-176) -/

/-- All `(position, word)` pairs collected from an inverted index
(`[(pos, word) for word, poss in inv.items() for pos in poss]`). -/
def invPairs (inv : List (String × List Nat)) : List (Nat × String) :=
  inv.flatMap (fun wp => wp.2.map (fun pos => (pos, wp.1)))

/-- The token list, sorted ascending by position
(`sorted(..., key=lambda x: x[0])`). -/
def invTokens (inv : List (String × List Nat)) : List (Nat × String) :=
  List.insertionSort (fun p q => p.1 ≤ q.1) (invPairs inv)

/-- The abstract stored for a record: a plain-text abstract verbatim, else the
reconstruction from the inverted index, else nothing. -/
def abstractOf (w : OAWork) : Option String :=
  match w.abstract with
  | some s => some s
  | none =>
    match w.abstract_inverted_index with
    | some inv =>
      let tokens := invTokens inv
      if tokens.isEmpty then none else some (String.intercalate " " (tokens.map (fun t => t.2)))
    | none => none

/-- The year stored for a record (`if w.get("publication_year")`: `0` is falsy). -/
def yearOf (w : OAWork) : Option Int :=
  match w.publication_year with
  | some y => if y = 0 then none else some y
  | none => none

/-- The normalized doi (`(w.get("doi") or "").lower() if w.get("doi") else None`). -/
def doiOf (w : OAWork) : Option String :=
  if pyStr w.doi then some (pyLower (w.doi.getD "")) else none

/-- Host-venue fields `(display_name, type, issn, publisher)`; a non-empty issn
list contributes its first element. -/
def hostVenueFields (w : OAWork) :
    Option String × Option String × Option String × Option String :=
  match w.host_venue with
  | some hv =>
    let issn1 : Option String :=
      match hv.issn with
      | some (x :: _) => some x
      | some [] => none
      | none => none
    (hv.display_name, hv.vtype, issn1, hv.publisher)
  | none => (none, none, none, none)

/-- URL extraction: `primary_location.source.url`, falling back to
`best_oa_location.url` when the former is falsy. -/
def urlOf (w : OAWork) : Option String :=
  let url0 : Option String :=
    match w.primary_location with
    | some pl =>
      match pl.source with
      | some src => src.url
      | none => none
    | none => none
  if pyStr url0 then url0
  else
    match w.best_oa_location with
    | some b => b.url
    | none => url0

/-- Inner affiliation loop of the authorship pass (crud.py lines 120-131 /
157-168): one `WorkAffiliation` row per institution entry. -/
def addAffiliations (db : DB) (work_id author_id : Nat) (year : Option Int) :
    List OAInstitution → DB × List WorkAffiliation
  | [] => (db, [])
  | inst :: rest =>
    let org_name := inst.display_name
    let country := inst.country_code.getD ""
    let stepOrg : DB × Option Organization :=
      if pyStr org_name then
        let p := get_or_create_org db (org_name.getD "") (some country) none
        (p.1, some p.2)
      else (db, none)
    let aff : WorkAffiliation :=
      ⟨work_id, some author_id, stepOrg.2.map (fun o => o.id), org_name, year,
       if country = "" then none else some country⟩
    let tail := addAffiliations stepOrg.1 work_id author_id year rest
    (tail.1, aff :: tail.2)

/-- Authorship loop (crud.py lines 114-131 / 151-168): one `WorkAuthor` row per
entry, anonymous authors default to display name `"Unknown"`. -/
def addAuthorships (db : DB) (work_id : Nat) (year : Option Int) (idx : Nat) :
    List OAAuthorship → DB × List WorkAuthor × List WorkAffiliation
  | [] => (db, [], [])
  | auth :: rest =>
    let a_display := orElseStr (auth.author.bind (fun a => a.display_name)) "Unknown"
    let a_orcid := auth.author.bind (fun a => a.orcid)
    let step := get_or_create_author db a_display none a_orcid
    let wa : WorkAuthor := ⟨work_id, step.2.id, idx, false⟩
    let insts := auth.institutions.getD []
    let affStep := addAffiliations step.1 work_id step.2.id year insts
    let tail := addAuthorships affStep.1 work_id year (idx + 1) rest
    (tail.1, wa :: tail.2.1, affStep.2 ++ tail.2.2)

/-- Concept loop (crud.py lines 134-137 / 171-174): one `WorkKeyword` row per
concept, weight `float(score or 1.0)`. -/
def addConcepts (db : DB) (work_id : Nat) : List OAConcept → DB × List WorkKeyword
  | [] => (db, [])
  | c :: rest =>
    let step := get_or_create_keyword db (c.display_name.getD "") c.display_name
      (some "openalex_concept")
    let weight : ℚ :=
      match c.score with
      | some s => if s = 0 then 1 else s
      | none => 1
    let wk : WorkKeyword := ⟨work_id, step.2.id, weight, some "openalex"⟩
    let tail := addConcepts step.1 work_id rest
    (tail.1, wk :: tail.2)

/-- The `check existing` step (crud.py lines 89-94): prefer a doi match, then
fall back to the `(source_uid, "OpenAlex")` pair when the uid is truthy. -/
def findExistingWork (db : DB) (w : OAWork) : Option Work :=
  let existing0 : Option Work :=
    match doiOf w with
    | some d => db.works.find? (fun wk => decide (wk.doi = some d))
    | none => none
  match existing0 with
  | some e => some e
  | none =>
    if pyStr w.id then
      db.works.find? (fun wk => decide (wk.source_uid = w.id ∧ wk.source = some "OpenAlex"))
    else none

/-- `upsert_work_from_openalex`: returns the updated store and the id of the
created-or-updated `Work`. -/
def upsert_work_from_openalex (db : DB) (w : OAWork) : DB × Nat :=
  let doi := doiOf w
  let source_uid := w.id
  let title := orElseStr w.title "(untitled)"
  let abstract := abstractOf w
  let year := yearOf w
  let hv := hostVenueFields w
  let venueStep : DB × Option Venue :=
    if pyStr hv.1 then get_or_create_venue db hv.1 hv.2.1 hv.2.2.1 hv.2.2.2
    else (db, none)
  let db := venueStep.1
  let venue := venueStep.2
  let url := urlOf w
  match findExistingWork db w with
  | some e =>
    let e' : Work :=
      { e with title := title, abstract := abstract, year := year,
               venue_id := venue.map (fun v => v.id), url := url,
               wtype := w.wtype, language := w.language }
    let db := { db with
      works := db.works.map (fun wk => if wk.id = e.id then e' else wk),
      work_authors := db.work_authors.filter (fun l => decide (l.work_id ≠ e.id)),
      work_affiliations := db.work_affiliations.filter (fun l => decide (l.work_id ≠ e.id)),
      work_keywords := db.work_keywords.filter (fun l => decide (l.work_id ≠ e.id)) }
    let aStep := addAuthorships db e.id year 0 (w.authorships.getD [])
    let db := { aStep.1 with
      work_authors := aStep.1.work_authors ++ aStep.2.1,
      work_affiliations := aStep.1.work_affiliations ++ aStep.2.2 }
    let cStep := addConcepts db e.id (w.concepts.getD [])
    let db := { cStep.1 with work_keywords := cStep.1.work_keywords ++ cStep.2 }
    (db, e.id)
  | none =>
    let wk : Work :=
      ⟨db.next_work_id, doi, source_uid, title, abstract, year,
       venue.map (fun v => v.id), url, w.wtype, w.language, some "OpenAlex"⟩
    let db := { db with works := db.works ++ [wk], next_work_id := db.next_work_id + 1 }
    let aStep := addAuthorships db wk.id year 0 (w.authorships.getD [])
    let db := { aStep.1 with
      work_authors := aStep.1.work_authors ++ aStep.2.1,
      work_affiliations := aStep.1.work_affiliations ++ aStep.2.2 }
    let cStep := addConcepts db wk.id (w.concepts.getD [])
    let db := { cStep.1 with work_keywords := cStep.1.work_keywords ++ cStep.2 }
    (db, wk.id)

/-! ## Edge aggregator (`recompute_*_edges`, crud.py lines 178-246) -/

/-- Ascending sort of entity ids (`sorted`). -/
def sortNat (l : List Nat) : List Nat := List.insertionSort (fun a b => a ≤ b) l

/-- Ascending sort of country codes (`sorted` on Python strings). -/
def sortStr (l : List String) : List String :=
  List.insertionSort (fun a b => strLe a b = true) l

/-- All pairs `(l[i], l[j])` with `i < j`, in the nested-loop /
`itertools.combinations` order. -/
def ltPairs {α : Type} : List α → List (α × α)
  | [] => []
  | a :: rest => rest.map (fun b => (a, b)) ++ ltPairs rest

/-- `pairs[key] = pairs.get(key, 0) + 1` on an insertion-ordered dict. -/
def bump {κ : Type} [DecidableEq κ] : List (κ × Nat) → κ → List (κ × Nat)
  | [], k => [(k, 1)]
  | (k', c) :: rest, k =>
    if k' = k then (k', c + 1) :: rest else (k', c) :: bump rest k

/-- `tuple(sorted([a, b]))` for ids. -/
def minmaxN (a b : Nat) : Nat × Nat := if a ≤ b then (a, b) else (b, a)

/-- `tuple(sorted([a, b]))` for country codes. -/
def minmaxS (a b : String) : String × String := if strLe a b then (a, b) else (b, a)

/-- The author ids linked to one Work. -/
def workAuthorIds (db : DB) (wid : Nat) : List Nat :=
  (db.work_authors.filter (fun wa => decide (wa.work_id = wid))).map (fun wa => wa.author_id)

/-- The (non-null) organization ids on one Work's affiliations. -/
def workOrgIds (db : DB) (wid : Nat) : List Nat :=
  (db.work_affiliations.filter
    (fun wa => decide (wa.work_id = wid ∧ wa.org_id ≠ none))).filterMap (fun wa => wa.org_id)

/-- The (non-null) country codes on one Work's affiliations. -/
def workNations (db : DB) (wid : Nat) : List String :=
  (db.work_affiliations.filter
    (fun wa => decide (wa.work_id = wid ∧ wa.country_code ≠ none))).filterMap
      (fun wa => wa.country_code)

/-- Per-Work i<j pair keys for the co-author relation:
`auth_ids = sorted(set(auth_ids))`, then all `(auth_ids[i], auth_ids[j])`. -/
def coauthorWorkKeys (db : DB) (wid : Nat) : List (Nat × Nat) :=
  ltPairs (sortNat (workAuthorIds db wid).dedup)

/-- The accumulated pair-counter dict after the co-author scan of all Works. -/
def coauthorPairs (db : DB) : List ((Nat × Nat) × Nat) :=
  (db.works.map (fun wk => wk.id)).foldl
    (fun pairs wid => (coauthorWorkKeys db wid).foldl bump pairs) []

def recompute_coauthor_edges (db : DB) : DB :=
  { db with coauthor_edges := (coauthorPairs db).map (fun pc => ⟨pc.1.1, pc.1.2, pc.2, pc.2⟩) }

/-- Per-Work pair keys for the organization relation: falsy ids are dropped
(`[o for o in orgs if o]`), pairs are re-canonicalized by `tuple(sorted(...))`. -/
def orgWorkKeys (db : DB) (wid : Nat) : List (Nat × Nat) :=
  (ltPairs (sortNat ((workOrgIds db wid).filter (fun o => decide (o ≠ 0))).dedup)).map
    (fun p => minmaxN p.1 p.2)

/-- The accumulated pair-counter dict after the organization scan. -/
def orgPairs (db : DB) : List ((Nat × Nat) × Nat) :=
  (db.works.map (fun wk => wk.id)).foldl
    (fun pairs wid => (orgWorkKeys db wid).foldl bump pairs) []

def recompute_org_edges (db : DB) : DB :=
  { db with org_edges := (orgPairs db).map (fun pc => ⟨pc.1.1, pc.1.2, pc.2⟩) }

/-- Per-Work pair keys for the nation relation. -/
def nationWorkKeys (db : DB) (wid : Nat) : List (String × String) :=
  (ltPairs (sortStr ((workNations db wid).filter (fun n => decide (n ≠ ""))).dedup)).map
    (fun p => minmaxS p.1 p.2)

/-- The accumulated pair-counter dict after the nation scan. -/
def nationPairs (db : DB) : List ((String × String) × Nat) :=
  (db.works.map (fun wk => wk.id)).foldl
    (fun pairs wid => (nationWorkKeys db wid).foldl bump pairs) []

def recompute_nation_edges (db : DB) : DB :=
  { db with nation_edges := (nationPairs db).map (fun pc => ⟨pc.1.1, pc.1.2, pc.2⟩) }

/-! ## Merge service (`merge_authors`, crud.py lines 248-263) -/

/-- Link/alias reassignment, author deletion and audit logging of a merge
(crud.py lines 250-259). -/
def mergeReassign (db : DB) (kept_id removed_id : Nat)
    (reason user : Option String) : DB :=
  { db with
    work_authors := db.work_authors.map (fun wa =>
      if wa.author_id = removed_id then { wa with author_id := kept_id } else wa),
    work_affiliations := db.work_affiliations.map (fun wa =>
      if wa.author_id = some removed_id then { wa with author_id := some kept_id } else wa),
    author_aliases := db.author_aliases.map (fun al =>
      if al.author_id = removed_id then { al with author_id := kept_id } else al),
    authors := db.authors.filter (fun a => decide (a.id ≠ removed_id)),
    merge_log := db.merge_log ++
      [⟨"author", toString kept_id, toString removed_id, reason, user⟩] }

/-- `merge_authors`: reassign links and aliases, delete the removed author,
log, recompute all three edge tables.  The bulk `UPDATE` of `work_authors`
violates that table's composite primary key `(work_id, author_id)` whenever
some Work links both authors (and they differ), so the storage layer raises
there; this is modelled by `Except.error`. -/
def merge_authors (db : DB) (kept_id removed_id : Nat)
    (reason user : Option String) : Except String DB :=
  if kept_id ≠ removed_id ∧
      (db.work_authors.any (fun wa => decide (wa.author_id = removed_id) &&
        db.work_authors.any (fun wb =>
          decide (wb.work_id = wa.work_id ∧ wb.author_id = kept_id)))) = true then
    Except.error "UNIQUE constraint failed: work_authors"
  else
    Except.ok (recompute_nation_edges (recompute_org_edges (recompute_coauthor_edges
      (mergeReassign db kept_id removed_id reason user))))

/-! ## Graph view builder (`build_graph`, services_graph.py) -/

/-- A focus identifier as supplied by callers: an entity id or a country code. -/
inductive FocusId where
  | nat (n : Nat)
  | str (s : String)
deriving DecidableEq, Repr

/-- A node of the returned graph.  `count` is only present on keyword nodes,
`country` only on organization nodes (heterogeneous Python dicts). -/
structure GNode where
  id : String
  label : String
  ntype : String
  focus : Bool
  count : Option Nat
  country : Option (Option String)
deriving DecidableEq, Repr

structure GEdge where
  source : String
  target : String
  weight : ℚ
deriving DecidableEq, Repr

structure Graph where
  nodes : List GNode
  edges : List GEdge
deriving DecidableEq, Repr

/-- SQL year-range condition on `Work.year` (a NULL year fails any bound). -/
def yearOkB (ymin ymax : Option Int) (y : Option Int) : Bool :=
  (match ymin, y with
   | some m, some yv => decide (m ≤ yv)
   | some _, none => false
   | none, _ => true) &&
  (match ymax, y with
   | some m, some yv => decide (yv ≤ m)
   | some _, none => false
   | none, _ => true)

/-- `WorkAuthor/WorkAffiliation ⋈ Work` year condition for a link's Work. -/
def workYearOk (db : DB) (ymin ymax : Option Int) (wid : Nat) : Bool :=
  match db.works.find? (fun wk => decide (wk.id = wid)) with
  | some wk => yearOkB ymin ymax wk.year
  | none => false

/-- Focus ids that resolve to an existing author (`db.get(models.Author, _)`;
a non-integer key finds no row on the SQLite backend). -/
def validAuthorFocus (db : DB) (l : List FocusId) : List Nat :=
  l.filterMap (fun f =>
    match f with
    | .nat n => if db.authors.any (fun a => decide (a.id = n)) then some n else none
    | .str _ => none)

/-- Focus ids that resolve to an existing keyword. -/
def validKeywordFocus (db : DB) (l : List FocusId) : List Nat :=
  l.filterMap (fun f =>
    match f with
    | .nat n => if db.keywords.any (fun k => decide (k.id = n)) then some n else none
    | .str _ => none)

/-- Focus ids that resolve to an existing organization. -/
def validOrgFocus (db : DB) (l : List FocusId) : List Nat :=
  l.filterMap (fun f =>
    match f with
    | .nat n => if db.organizations.any (fun o => decide (o.id = n)) then some n else none
    | .str _ => none)

/-- Nation focus codes: two-character strings, uppercased — the nations layer
validates by format only, never against stored data. -/
def validNationFocus (l : List FocusId) : List String :=
  l.filterMap (fun f =>
    match f with
    | .str s => if s.length = 2 then some (pyUpper s) else none
    | .nat _ => none)

/-- Author ids of works passing the year filter. -/
def yearAuthorIds (db : DB) (ymin ymax : Option Int) : List Nat :=
  (db.work_authors.filter (fun wa => workYearOk db ymin ymax wa.work_id)).map
    (fun wa => wa.author_id)

/-- Same, restricted to a given id set (`author_id.in_(author_ids)`). -/
def yearAuthorIdsWithin (db : DB) (ymin ymax : Option Int) (s : List Nat) : List Nat :=
  (db.work_authors.filter (fun wa =>
    decide (wa.author_id ∈ s) && workYearOk db ymin ymax wa.work_id)).map
    (fun wa => wa.author_id)

/-- Node construction for the author layer (focus flags consult the raw
caller-supplied focus list). -/
def mkAuthorNode (db : DB) (fl : List FocusId) (a_id : Nat) : Option GNode :=
  (db.authors.find? (fun a => decide (a.id = a_id))).map (fun a =>
    { id := "A" ++ toString a.id, label := a.display_name,
      ntype := if fl ≠ [] ∧ FocusId.nat a_id ∈ fl then "focus_author" else "author",
      focus := FocusId.nat a_id ∈ fl, count := none, country := none })

/-- The `authors` branch of `build_graph` (services_graph.py lines 9-100). -/
def buildAuthors (db : DB) (ymin ymax : Option Int) (emw : ℚ)
    (fl : List FocusId) (focus_only : Bool) : Graph :=
  let ids : Option (List Nat) :=
    if fl ≠ [] then
      let valid := validAuthorFocus db fl
      if valid = [] then none
      else if focus_only then
        let coIds := valid.foldl (fun acc fid =>
          acc ++ (db.coauthor_edges.filter (fun e =>
                    decide (e.a_id = fid) && decide (emw ≤ (e.weight : ℚ)))).map (fun e => e.b_id)
              ++ (db.coauthor_edges.filter (fun e =>
                    decide (e.b_id = fid) && decide (emw ≤ (e.weight : ℚ)))).map (fun e => e.a_id)) []
        let s := (valid ++ coIds).dedup
        if ymin.isSome || ymax.isSome then
          some ((yearAuthorIdsWithin db ymin ymax s ++ valid).dedup)
        else some s
      else
        some ((yearAuthorIds db ymin ymax ++ valid).dedup)
    else some (yearAuthorIds db ymin ymax).dedup
  match ids with
  | none => ⟨[], []⟩
  | some author_ids =>
    let nodes := author_ids.filterMap (mkAuthorNode db fl)
    let added := author_ids.filter (fun a => db.authors.any (fun au => decide (au.id = a)))
    let edges := (db.coauthor_edges.filter (fun e =>
        decide (emw ≤ (e.weight : ℚ)) && decide (e.a_id ∈ added) && decide (e.b_id ∈ added))).map
      (fun e => { source := "A" ++ toString e.a_id, target := "A" ++ toString e.b_id,
                  weight := (e.weight : ℚ) })
    ⟨nodes, edges⟩

/-- The keyword ids linked to one Work. -/
def workKwIds (db : DB) (wid : Nat) : List Nat :=
  (db.work_keywords.filter (fun l => decide (l.work_id = wid))).map (fun l => l.keyword_id)

/-- Accumulator of the keyword layer: occurrence counts, co-occurrence edge
counts, and the id set seen so far. -/
structure KwAcc where
  counts : List (Nat × Nat)
  emap : List ((Nat × Nat) × Nat)
  added : List Nat
deriving Repr

/-- Keyword-layer per-Work step in full-network mode (deduplicate, count,
collect, pair up). -/
def kwStepAll (db : DB) (acc : KwAcc) (wid : Nat) : KwAcc :=
  let kws := sortNat (workKwIds db wid).dedup
  { counts := kws.foldl bump acc.counts,
    emap := (ltPairs kws).foldl bump acc.emap,
    added := (acc.added ++ kws).dedup }

/-- Keyword-layer per-Work step in focus-only mode: a Work contributes only
when it carries a focus keyword, and then contributes its raw keyword list. -/
def kwStepFocus (db : DB) (valid : List Nat) (acc : KwAcc) (wid : Nat) : KwAcc :=
  let kws := workKwIds db wid
  if kws.any (fun k => decide (k ∈ valid)) then
    { counts := kws.foldl bump acc.counts,
      emap := (ltPairs (sortNat kws)).foldl bump acc.emap,
      added := (acc.added ++ kws.dedup).dedup }
  else acc

/-- Node construction for the keyword layer. -/
def mkKeywordNode (db : DB) (fl : List FocusId) (counts : List (Nat × Nat))
    (kid : Nat) : Option GNode :=
  (db.keywords.find? (fun k => decide (k.id = kid))).map (fun k =>
    { id := "K" ++ toString kid, label := k.term_display,
      ntype := if fl ≠ [] ∧ FocusId.nat kid ∈ fl then "focus_keyword" else "keyword",
      focus := FocusId.nat kid ∈ fl,
      count := some ((List.lookup kid counts).getD 0), country := none })

/-- The `keywords` branch of `build_graph` (services_graph.py lines 102-184);
the co-occurrence graph is recomputed live from the year-filtered Work set. -/
def buildKeywords (db : DB) (ymin ymax : Option Int) (emw : ℚ)
    (fl : List FocusId) (focus_only : Bool) : Graph :=
  let work_ids := (db.works.filter (fun wk => yearOkB ymin ymax wk.year)).map (fun wk => wk.id)
  let acc : Option KwAcc :=
    if fl ≠ [] then
      let valid := validKeywordFocus db fl
      if valid = [] then none
      else if focus_only then
        some (work_ids.foldl (kwStepFocus db valid) ⟨[], [], valid.dedup⟩)
      else
        some (work_ids.foldl (kwStepAll db) ⟨[], [], []⟩)
    else some (work_ids.foldl (kwStepAll db) ⟨[], [], []⟩)
  match acc with
  | none => ⟨[], []⟩
  | some acc =>
    let nodes := acc.added.filterMap (mkKeywordNode db fl acc.counts)
    let edges := acc.emap.filterMap (fun pc =>
      if decide (emw ≤ (pc.2 : ℚ)) && decide (pc.1.1 ∈ acc.added) && decide (pc.1.2 ∈ acc.added) then
        some { source := "K" ++ toString pc.1.1, target := "K" ++ toString pc.1.2,
               weight := (pc.2 : ℚ) }
      else none)
    ⟨nodes, edges⟩

/-- Organization ids of year-filtered affiliations (non-null only). -/
def yearOrgIds (db : DB) (ymin ymax : Option Int) : List Nat :=
  (db.work_affiliations.filter (fun wa =>
    decide (wa.org_id ≠ none) && workYearOk db ymin ymax wa.work_id)).filterMap
    (fun wa => wa.org_id)

/-- Node construction for the organization layer. -/
def mkOrgNode (db : DB) (fl : List FocusId) (oid : Nat) : Option GNode :=
  (db.organizations.find? (fun o => decide (o.id = oid))).map (fun o =>
    { id := "O" ++ toString oid, label := o.name,
      ntype := if fl ≠ [] ∧ FocusId.nat oid ∈ fl then "focus_org" else "org",
      focus := FocusId.nat oid ∈ fl, count := none, country := some o.country_code })

/-- The `orgs` branch of `build_graph` (services_graph.py lines 186-252). -/
def buildOrgs (db : DB) (ymin ymax : Option Int) (emw : ℚ)
    (fl : List FocusId) (focus_only : Bool) : Graph :=
  let ids : Option (List Nat) :=
    if fl ≠ [] then
      let valid := validOrgFocus db fl
      if valid = [] then none
      else if focus_only then
        some ((valid ++ (db.org_edges.filter (fun e => decide (emw ≤ (e.weight : ℚ)))).foldl
          (fun (acc : List Nat) (e : OrgEdge) =>
            acc ++ (if e.org1_id ∈ valid then [e.org2_id] else [])
                ++ (if e.org2_id ∈ valid then [e.org1_id] else [])) []).dedup)
      else
        some ((yearOrgIds db ymin ymax ++ valid).dedup)
    else some (yearOrgIds db ymin ymax).dedup
  match ids with
  | none => ⟨[], []⟩
  | some org_ids =>
    let sortedIds := sortNat org_ids.dedup
    let nodes := sortedIds.filterMap (mkOrgNode db fl)
    let added := sortedIds.filter (fun o => db.organizations.any (fun og => decide (og.id = o)))
    let edges := (db.org_edges.filter (fun e =>
        decide (emw ≤ (e.weight : ℚ)) && decide (e.org1_id ∈ added) && decide (e.org2_id ∈ added))).map
      (fun e => { source := "O" ++ toString e.org1_id, target := "O" ++ toString e.org2_id,
                  weight := (e.weight : ℚ) })
    ⟨nodes, edges⟩

/-- Country codes of year-filtered affiliations (non-null only). -/
def yearNations (db : DB) (ymin ymax : Option Int) : List String :=
  (db.work_affiliations.filter (fun wa =>
    decide (wa.country_code ≠ none) && workYearOk db ymin ymax wa.work_id)).filterMap
    (fun wa => wa.country_code)

/-- Node construction for the nation layer (no existence check at all; the
focus flag compares against the raw focus strings, not the uppercased codes). -/
def mkNationNode (fl : List FocusId) (n : String) : GNode :=
  let isf := fl ≠ [] ∧ FocusId.str n ∈ fl
  { id := "N" ++ n, label := n, ntype := if isf then "focus_nation" else "nation",
    focus := isf, count := none, country := none }

/-- The `nations` branch of `build_graph` (services_graph.py lines 254-315). -/
def buildNations (db : DB) (ymin ymax : Option Int) (emw : ℚ)
    (fl : List FocusId) (focus_only : Bool) : Graph :=
  let ns : Option (List String) :=
    if fl ≠ [] then
      let valid := validNationFocus fl
      if valid = [] then none
      else if focus_only then
        some ((valid ++ (db.nation_edges.filter (fun e => decide (emw ≤ (e.weight : ℚ)))).foldl
          (fun (acc : List String) (e : NationEdge) =>
            acc ++ (if e.n1 ∈ valid then [e.n2] else [])
                ++ (if e.n2 ∈ valid then [e.n1] else [])) []).dedup)
      else
        some ((yearNations db ymin ymax ++ valid).dedup)
    else some (yearNations db ymin ymax).dedup
  match ns with
  | none => ⟨[], []⟩
  | some nations =>
    let sortedN := sortStr nations.dedup
    let nodes := sortedN.map (mkNationNode fl)
    let edges := (db.nation_edges.filter (fun e =>
        decide (emw ≤ (e.weight : ℚ)) && decide (e.n1 ∈ nations) && decide (e.n2 ∈ nations))).map
      (fun e => { source := "N" ++ e.n1, target := "N" ++ e.n2, weight := (e.weight : ℚ) })
    ⟨nodes, edges⟩

/-- `build_graph(db, layer, year_min, year_max, edge_min_weight, focus_ids,
focus_only)`.  An empty focus list is falsy, i.e. the same as no focus. -/
def build_graph (db : DB) (layer : String) (ymin ymax : Option Int) (emw : ℚ)
    (focus_ids : Option (List FocusId)) (focus_only : Bool) : Graph :=
  let fl := focus_ids.getD []
  if layer = "authors" then buildAuthors db ymin ymax emw fl focus_only
  else if layer = "keywords" then buildKeywords db ymin ymax emw fl focus_only
  else if layer = "orgs" then buildOrgs db ymin ymax emw fl focus_only
  else if layer = "nations" then buildNations db ymin ymax emw fl focus_only
  else ⟨[], []⟩

/-! ## Derived definitions used by the statements -/

/-- Total count stored for a key in an association-list counter. -/
def keyCount {κ : Type} [DecidableEq κ] (l : List (κ × Nat)) (k : κ) : Nat :=
  ((l.filter (fun p => decide (p.1 = k))).map (fun p => p.2)).sum

/-- Number of Works linking both given authors (the intended weight of a
co-author edge). -/
def coWorksCount (db : DB) (a b : Nat) : Nat :=
  (db.works.filter (fun wk =>
    decide (a ∈ workAuthorIds db wk.id ∧ b ∈ workAuthorIds db wk.id))).length

/-- Total weight the co-author edge table stores for an unordered author pair. -/
def coTableWeight (db : DB) (x y : Nat) : Nat :=
  ((db.coauthor_edges.filter (fun e =>
    decide ((e.a_id = x ∧ e.b_id = y) ∨ (e.a_id = y ∧ e.b_id = x)))).map
      (fun e => e.weight)).sum

/-- Two ordered pairs denote the same unordered pair. -/
def unordPairEq {α : Type} (p q : α × α) : Prop :=
  (p.1 = q.1 ∧ p.2 = q.2) ∨ (p.1 = q.2 ∧ p.2 = q.1)

/-- An authorship entry whose author object is missing or lacks a (truthy)
display name. -/
def anonAuthorship (auth : OAAuthorship) : Prop :=
  match auth.author with
  | none => True
  | some a => a.display_name = none ∨ a.display_name = some ""

/-- At most one Work row per non-null doi. -/
def DoiUnique (db : DB) : Prop :=
  List.Pairwise (fun w1 w2 => ∀ d, w1.doi = some d → w2.doi ≠ some d) db.works

/-- At most one Work row per (source_uid, source) pair with a truthy uid. -/
def UidUnique (db : DB) : Prop :=
  List.Pairwise (fun w1 w2 => ∀ u s, u ≠ "" → w1.source_uid = some u → w1.source = some s →
    ¬(w2.source_uid = some u ∧ w2.source = some s)) db.works

/-- Well-formedness of a store: identity keys are unique, autoincrement
counters dominate all allocated ids, and link rows reference existing rows
(the schema's unique and foreign-key constraints). -/
structure WF (db : DB) : Prop where
  authors_norms : (db.authors.map (fun a => a.normalized_name)).Nodup
  authors_fresh : ∀ a ∈ db.authors, a.id < db.next_author_id
  orgs_names : (db.organizations.map (fun o => o.name)).Nodup
  orgs_fresh : ∀ o ∈ db.organizations, o.id < db.next_org_id
  keywords_norms : (db.keywords.map (fun k => k.term_norm)).Nodup
  keywords_fresh : ∀ k ∈ db.keywords, k.id < db.next_keyword_id
  venues_names : (db.venues.map (fun v => v.name)).Nodup
  venues_fresh : ∀ v ∈ db.venues, v.id < db.next_venue_id
  works_ids : (db.works.map (fun wk => wk.id)).Nodup
  works_fresh : ∀ wk ∈ db.works, wk.id < db.next_work_id
  wa_work_ref : ∀ l ∈ db.work_authors, ∃ wk ∈ db.works, wk.id = l.work_id
  waff_work_ref : ∀ l ∈ db.work_affiliations, ∃ wk ∈ db.works, wk.id = l.work_id
  wk_work_ref : ∀ l ∈ db.work_keywords, ∃ wk ∈ db.works, wk.id = l.work_id
  wa_author_ref : ∀ l ∈ db.work_authors, ∃ a ∈ db.authors, a.id = l.author_id
  waff_org_ref : ∀ l ∈ db.work_affiliations, ∀ oid, l.org_id = some oid →
    ∃ o ∈ db.organizations, o.id = oid
  wk_kw_ref : ∀ l ∈ db.work_keywords, ∃ k ∈ db.keywords, k.id = l.keyword_id

/-- A record whose only abstract is a two-word inverted index. -/
def recInv : OAWork :=
  { emptyOAWork with
    id := some "https://openalex.org/W9",
    abstract_inverted_index := some [("world", [1]), ("hello", [0])] }

/-- A record carrying an empty inverted index and no plain abstract. -/
def recInvEmpty : OAWork :=
  { emptyOAWork with
    id := some "https://openalex.org/W8",
    abstract_inverted_index := some [] }

/-- A store with one Work matched by doi and another matched by source id. -/
def dbC8 : DB :=
  { emptyDB with
    works := [⟨1, some "10.1/x", some "https://openalex.org/WA", "t1", none, none, none,
                none, none, none, some "OpenAlex"⟩,
              ⟨2, none, some "https://openalex.org/WB", "t2", none, none, none,
                none, none, none, some "OpenAlex"⟩],
    next_work_id := 3 }

/-- A record whose doi matches Work 1 of `dbC8` while its source id matches
Work 2. -/
def recC8 : OAWork :=
  { emptyOAWork with
    doi := some "10.1/X",
    id := some "https://openalex.org/WB",
    title := some "t1 updated" }

/-- A store holding one keyword and no works at all. -/
def dbC4 : DB :=
  { emptyDB with keywords := [⟨1, "ml", "ML", none⟩], next_keyword_id := 2 }

/-- A store holding one author and no works at all. -/
def dbC4w : DB :=
  { emptyDB with authors := [⟨1, "Ada", "ada", none⟩], next_author_id := 2 }

/-- A record whose only author is displayed "UNKNOWN" (normalizing to
"unknown"). -/
def recU1 : OAWork :=
  { emptyOAWork with
    id := some "https://openalex.org/WU1",
    authorships := some [{ author := some { display_name := some "UNKNOWN", orcid := none },
                           institutions := none }] }

/-- A record with a single anonymous authorship entry. -/
def recU2 : OAWork :=
  { emptyOAWork with
    id := some "https://openalex.org/WU2",
    authorships := some [{ author := none, institutions := none }] }

/-- A minimal record with a truthy source id. -/
def recC3 : OAWork :=
  { emptyOAWork with
    id := some "https://openalex.org/W1",
    title := some "T1" }

/-! ## Structured view of the upsert pipeline (the same code, staged) -/

/-- The venue step at the head of `upsert_work_from_openalex`. -/
def upsertVenueStep (db : DB) (w : OAWork) : DB × Option Venue :=
  if pyStr (hostVenueFields w).1 then
    get_or_create_venue db (hostVenueFields w).1 (hostVenueFields w).2.1
      (hostVenueFields w).2.2.1 (hostVenueFields w).2.2.2
  else (db, none)

/-- Scalar update of a matched Work and the link-table clearing
(crud.py lines 96-111). -/
def updateBase (db : DB) (w : OAWork) (ven : Option Venue) (e : Work) : DB :=
  { db with
    works := db.works.map (fun x => if x.id = e.id then
      { e with title := orElseStr w.title "(untitled)", abstract := abstractOf w,
               year := yearOf w, venue_id := ven.map (fun v => v.id), url := urlOf w,
               wtype := w.wtype, language := w.language } else x),
    work_authors := db.work_authors.filter (fun l => decide (l.work_id ≠ e.id)),
    work_affiliations := db.work_affiliations.filter (fun l => decide (l.work_id ≠ e.id)),
    work_keywords := db.work_keywords.filter (fun l => decide (l.work_id ≠ e.id)) }

/-- The fresh-Work insertion (crud.py lines 141-148). -/
def insertBase (db : DB) (w : OAWork) (ven : Option Venue) : DB × Work :=
  let wk : Work := ⟨db.next_work_id, doiOf w, w.id, orElseStr w.title "(untitled)",
    abstractOf w, yearOf w, ven.map (fun v => v.id), urlOf w, w.wtype, w.language,
    some "OpenAlex"⟩
  ({ db with works := db.works ++ [wk], next_work_id := db.next_work_id + 1 }, wk)

/-- The authorship pass for one Work. -/
def authStep (db : DB) (wid : Nat) (w : OAWork) :
    DB × List WorkAuthor × List WorkAffiliation :=
  addAuthorships db wid (yearOf w) 0 (w.authorships.getD [])

/-- The state holding the flushed authorship rows. -/
def midDB (db : DB) (wid : Nat) (w : OAWork) : DB :=
  { (authStep db wid w).1 with
    work_authors := (authStep db wid w).1.work_authors ++ (authStep db wid w).2.1,
    work_affiliations := (authStep db wid w).1.work_affiliations ++ (authStep db wid w).2.2 }

/-- The concept pass. -/
def kwStep (db : DB) (wid : Nat) (w : OAWork) : DB × List WorkKeyword :=
  addConcepts (midDB db wid w) wid (w.concepts.getD [])

/-- The link-table tail shared by both upsert branches. -/
def mkFinal (db : DB) (wid : Nat) (w : OAWork) : DB :=
  { (kwStep db wid w).1 with
    work_keywords := (kwStep db wid w).1.work_keywords ++ (kwStep db wid w).2 }

/-! ## Association-counter lemmas -/

lemma keyCount_nil {κ : Type} [DecidableEq κ] (k : κ) :
    keyCount ([] : List (κ × Nat)) k = 0 := rfl

lemma keyCount_cons {κ : Type} [DecidableEq κ] (a : κ) (n : Nat) (t : List (κ × Nat)) (k : κ) :
    keyCount ((a, n) :: t) k = (if a = k then n else 0) + keyCount t k := by
  by_cases h : a = k <;> simp [keyCount, List.filter_cons, h]

lemma keyCount_bump {κ : Type} [DecidableEq κ] (l : List (κ × Nat)) (k k' : κ) :
    keyCount (bump l k') k = keyCount l k + (if k' = k then 1 else 0) := by
  induction l with
  | nil =>
    show keyCount [(k', 1)] k = _
    by_cases h : k' = k <;> simp [keyCount_cons, keyCount_nil, h]
  | cons p t ih =>
    obtain ⟨a, n⟩ := p
    show keyCount (if a = k' then (a, n + 1) :: t else (a, n) :: bump t k') k = _
    by_cases ha : a = k'
    · subst ha
      rw [if_pos rfl, keyCount_cons, keyCount_cons]
      by_cases hk : a = k
      · subst hk; simp; omega
      · simp [hk]
    · rw [if_neg ha, keyCount_cons, keyCount_cons, ih]
      omega

/-- Occurrence count with an explicit decidable predicate (avoids `BEq`
instance mismatches between `DecidableEq`-derived and product instances). -/
def cnt {κ : Type} [DecidableEq κ] (l : List κ) (k : κ) : Nat :=
  l.countP (fun x => decide (x = k))

lemma cnt_nil {κ : Type} [DecidableEq κ] (k : κ) : cnt ([] : List κ) k = 0 := rfl

lemma cnt_cons {κ : Type} [DecidableEq κ] (a : κ) (t : List κ) (k : κ) :
    cnt (a :: t) k = cnt t k + (if a = k then 1 else 0) := by
  unfold cnt
  rw [List.countP_cons]
  by_cases h : a = k <;> simp [h]

lemma cnt_append {κ : Type} [DecidableEq κ] (l1 l2 : List κ) (k : κ) :
    cnt (l1 ++ l2) k = cnt l1 k + cnt l2 k := List.countP_append _ _ _

lemma cnt_pos_iff {κ : Type} [DecidableEq κ] (l : List κ) (k : κ) :
    0 < cnt l k ↔ k ∈ l := by
  unfold cnt
  rw [List.countP_pos_iff]
  simp

lemma cnt_eq_zero_of_not_mem {κ : Type} [DecidableEq κ] {l : List κ} {k : κ} (h : k ∉ l) :
    cnt l k = 0 := by
  unfold cnt
  rw [List.countP_eq_zero]
  intro x hx
  simp only [decide_eq_true_eq]
  rintro rfl
  exact h hx

lemma cnt_eq_one_of_nodup_mem {κ : Type} [DecidableEq κ] {l : List κ} {k : κ}
    (hnd : l.Nodup) (hm : k ∈ l) : cnt l k = 1 := by
  induction l with
  | nil => cases hm
  | cons a t ih =>
    rw [List.nodup_cons] at hnd
    rcases List.mem_cons.mp hm with rfl | hm'
    · rw [cnt_cons, if_pos rfl, cnt_eq_zero_of_not_mem hnd.1]
    · have hak : ¬ a = k := fun hh => hnd.1 (hh ▸ hm')
      rw [cnt_cons, if_neg hak, ih hnd.2 hm']

lemma cnt_flatMap {α κ : Type} [DecidableEq κ] (l : List α) (f : α → List κ) (k : κ) :
    cnt (l.flatMap f) k = (l.map (fun x => cnt (f x) k)).sum := by
  induction l with
  | nil => rfl
  | cons a t ih => rw [List.flatMap_cons, cnt_append, ih, List.map_cons, List.sum_cons]

lemma keyCount_foldl_bump {κ : Type} [DecidableEq κ] (ks : List κ) (l : List (κ × Nat)) (k : κ) :
    keyCount (ks.foldl bump l) k = keyCount l k + cnt ks k := by
  induction ks generalizing l with
  | nil => simp [cnt_nil]
  | cons a t ih =>
    rw [List.foldl_cons, ih, keyCount_bump, cnt_cons]
    omega

lemma mem_bump_fst {κ : Type} [DecidableEq κ] (l : List (κ × Nat)) (k x : κ) :
    x ∈ (bump l k).map (fun p => p.1) ↔ x ∈ l.map (fun p => p.1) ∨ x = k := by
  induction l with
  | nil => simp [bump]
  | cons p t ih =>
    obtain ⟨a, n⟩ := p
    show x ∈ (if a = k then (a, n + 1) :: t else (a, n) :: bump t k).map (fun p => p.1) ↔ _
    by_cases h : a = k
    · subst h
      rw [if_pos rfl]
      simp [List.mem_cons]
      tauto
    · rw [if_neg h]
      simp [ih]
      tauto

lemma nodup_bump_fst {κ : Type} [DecidableEq κ] (l : List (κ × Nat)) (k : κ)
    (h : (l.map (fun p => p.1)).Nodup) : ((bump l k).map (fun p => p.1)).Nodup := by
  induction l with
  | nil => simp [bump]
  | cons p t ih =>
    obtain ⟨a, n⟩ := p
    show ((if a = k then (a, n + 1) :: t else (a, n) :: bump t k).map (fun p => p.1)).Nodup
    by_cases hak : a = k
    · rw [if_pos hak]; simpa using h
    · rw [if_neg hak]
      simp only [List.map_cons, List.nodup_cons] at h ⊢
      refine ⟨?_, ih h.2⟩
      rw [mem_bump_fst]
      rintro (hm | rfl)
      · exact h.1 hm
      · exact hak rfl

lemma mem_foldl_bump_fst {κ : Type} [DecidableEq κ] (ks : List κ) (l : List (κ × Nat)) (x : κ) :
    x ∈ ((ks.foldl bump l).map (fun p => p.1)) ↔ x ∈ l.map (fun p => p.1) ∨ x ∈ ks := by
  induction ks generalizing l with
  | nil => simp
  | cons a t ih => rw [List.foldl_cons, ih, mem_bump_fst]; simp; tauto

lemma nodup_foldl_bump_fst {κ : Type} [DecidableEq κ] (ks : List κ) (l : List (κ × Nat))
    (h : (l.map (fun p => p.1)).Nodup) : (((ks.foldl bump l)).map (fun p => p.1)).Nodup := by
  induction ks generalizing l with
  | nil => exact h
  | cons a t ih => exact ih _ (nodup_bump_fst _ _ h)

lemma filter_key_of_nodup {κ : Type} [DecidableEq κ] (l : List (κ × Nat)) (k : κ)
    (h : (l.map (fun p => p.1)).Nodup) :
    l.filter (fun p => decide (p.1 = k)) =
      if k ∈ l.map (fun p => p.1) then [(k, keyCount l k)] else [] := by
  induction l with
  | nil => simp
  | cons p t ih =>
    obtain ⟨a, n⟩ := p
    simp only [List.map_cons, List.nodup_cons] at h
    by_cases hak : a = k
    · subst hak
      have hft : t.filter (fun p => decide (p.1 = a)) = [] := by
        rw [ih h.2, if_neg h.1]
      have hkc : keyCount t a = 0 := by
        unfold keyCount; rw [hft]; rfl
      simp [List.filter_cons, hft, keyCount_cons, hkc, List.mem_cons]
    · have hka : ¬ k = a := fun hh => hak hh.symm
      have hkc : keyCount ((a, n) :: t) k = keyCount t k := by
        simp [keyCount_cons, hak]
      rw [hkc]
      simp only [List.filter_cons, decide_eq_true_eq, hak, if_false, ih h.2, List.map_cons]
      by_cases hm : k ∈ List.map (fun p => p.1) t
      · rw [if_pos hm, if_pos (List.mem_cons_of_mem _ hm)]
      · rw [if_neg hm, if_neg (by simp [List.mem_cons, hka, hm])]

/-! ## Pair-generation lemmas (`ltPairs`, sorting, canonical order) -/

lemma ltPairs_fst_snd_mem {α : Type} (l : List α) :
    ∀ p ∈ ltPairs l, p.1 ∈ l ∧ p.2 ∈ l := by
  induction l with
  | nil => simp [ltPairs]
  | cons a t ih =>
    intro p hp
    rcases List.mem_append.mp hp with hm | hm
    · obtain ⟨b, hb, rfl⟩ := List.mem_map.mp hm
      exact ⟨List.mem_cons_self _ _, List.mem_cons_of_mem _ hb⟩
    · obtain ⟨h1, h2⟩ := ih p hm
      exact ⟨List.mem_cons_of_mem _ h1, List.mem_cons_of_mem _ h2⟩

lemma ltPairs_forall_rel {α : Type} {R : α → α → Prop} :
    ∀ {l : List α}, l.Pairwise R → ∀ p ∈ ltPairs l, R p.1 p.2 := by
  intro l
  induction l with
  | nil => simp [ltPairs]
  | cons a t ih =>
    intro h p hp
    rw [List.pairwise_cons] at h
    rcases List.mem_append.mp hp with hm | hm
    · obtain ⟨b, hb, rfl⟩ := List.mem_map.mp hm
      exact h.1 b hb
    · exact ih h.2 p hm

lemma ltPairs_nodup {α : Type} {l : List α} (h : l.Nodup) : (ltPairs l).Nodup := by
  induction l with
  | nil => simp [ltPairs]
  | cons a t ih =>
    rw [List.nodup_cons] at h
    refine List.nodup_append.mpr ⟨?_, ih h.2, ?_⟩
    · exact h.2.map (fun hxy => by simpa using congrArg Prod.snd hxy)
    · intro p hp hp'
      obtain ⟨b, _, rfl⟩ := List.mem_map.mp hp
      exact h.1 ((ltPairs_fst_snd_mem t _ hp').1)

lemma mem_ltPairs_sorted {l : List Nat} (h : l.Pairwise (· < ·)) (x y : Nat) :
    (x, y) ∈ ltPairs l ↔ x ∈ l ∧ y ∈ l ∧ x < y := by
  induction l with
  | nil => simp [ltPairs]
  | cons a t ih =>
    rw [List.pairwise_cons] at h
    constructor
    · intro hp
      rcases List.mem_append.mp hp with hm | hm
      · obtain ⟨b, hb, heq⟩ := List.mem_map.mp hm
        have h1 : a = x := congrArg Prod.fst heq
        have h2 : b = y := congrArg Prod.snd heq
        subst h1; subst h2
        exact ⟨List.mem_cons_self _ _, List.mem_cons_of_mem _ hb, h.1 _ hb⟩
      · obtain ⟨h1, h2, h3⟩ := (ih h.2).mp hm
        exact ⟨List.mem_cons_of_mem _ h1, List.mem_cons_of_mem _ h2, h3⟩
    · rintro ⟨hx, hy, hxy⟩
      rcases List.mem_cons.mp hx with hxa | hx'
      · rcases List.mem_cons.mp hy with hya | hy'
        · rw [hxa, hya] at hxy
          exact absurd hxy (Nat.lt_irrefl a)
        · refine List.mem_append.mpr (Or.inl (List.mem_map.mpr ⟨y, hy', ?_⟩))
          rw [hxa]
      · rcases List.mem_cons.mp hy with hya | hy'
        · have hax : a < x := h.1 x hx'
          rw [hya] at hxy
          exact absurd hxy (by omega)
        · exact List.mem_append.mpr (Or.inr ((ih h.2).mpr ⟨hx', hy', hxy⟩))

lemma sortNat_pairwise_lt {l : List Nat} (h : l.Nodup) :
    (sortNat l).Pairwise (· < ·) := by
  have hperm := List.perm_insertionSort (fun a b => a ≤ b) l
  have hs : (sortNat l).Pairwise (fun a b => a ≤ b) :=
    List.sorted_insertionSort (fun a b => a ≤ b) l
  have hn : (sortNat l).Nodup := (hperm.nodup_iff).mpr h
  exact (hs.and hn).imp (fun hab => Nat.lt_of_le_of_ne hab.1 hab.2)

lemma mem_sortNat {l : List Nat} {x : Nat} : x ∈ sortNat l ↔ x ∈ l :=
  (List.perm_insertionSort (fun a b => a ≤ b) l).mem_iff

lemma sortStr_nodup {l : List String} (h : l.Nodup) : (sortStr l).Nodup :=
  ((List.perm_insertionSort (fun a b => strLe a b = true) l).nodup_iff).mpr h

/-! ## The code-point string order: totality and antisymmetry -/

lemma strLeGo_total (xs ys : List Char) : strLeGo xs ys = true ∨ strLeGo ys xs = true := by
  induction xs generalizing ys with
  | nil => left; rfl
  | cons c cs ih =>
    cases ys with
    | nil => right; rfl
    | cons d ds =>
      by_cases h1 : chLt c d
      · left; simp [strLeGo, h1]
      · by_cases h2 : chLt d c
        · right; simp [strLeGo, h2]
        · rcases ih ds with h | h
          · left; simpa [strLeGo, h1, h2] using h
          · right; simpa [strLeGo, h1, h2] using h

lemma strLeGo_antisymm : ∀ (xs ys : List Char),
    strLeGo xs ys = true → strLeGo ys xs = true → xs = ys
  | [], [], _, _ => rfl
  | [], _ :: _, _, h2 => by simp [strLeGo] at h2
  | _ :: _, [], h1, _ => by simp [strLeGo] at h1
  | c :: cs, d :: ds, h1, h2 => by
    by_cases hcd : chLt c d
    · have hnd : ¬ chLt d c = true := by
        simp only [chLt, decide_eq_true_eq] at hcd ⊢; omega
      simp [strLeGo, hnd, hcd] at h2
    · by_cases hdc : chLt d c
      · simp [strLeGo, hcd, hdc] at h1
      · have hc : c = d := by
          simp only [chLt, decide_eq_true_eq] at hcd hdc
          have h3 : c.toNat = d.toNat := by omega
          exact Char.ext (UInt32.toNat.inj h3)
        subst hc
        simp only [strLeGo, if_neg hcd] at h1 h2
        rw [strLeGo_antisymm cs ds h1 h2]

lemma strLe_total (a b : String) : strLe a b = true ∨ strLe b a = true :=
  strLeGo_total a.data b.data

lemma strLe_antisymm {a b : String} (h1 : strLe a b = true) (h2 : strLe b a = true) : a = b :=
  String.ext (strLeGo_antisymm a.data b.data h1 h2)

lemma minmaxS_canonical {a b : String} (h : a ≠ b) :
    strLe (minmaxS a b).1 (minmaxS a b).2 = true ∧ (minmaxS a b).1 ≠ (minmaxS a b).2 := by
  unfold minmaxS
  by_cases hab : strLe a b = true
  · simp [hab, h]
  · rcases strLe_total a b with h1 | h1
    · exact absurd h1 hab
    · rw [if_neg hab]
      exact ⟨h1, fun e => h e.symm⟩

lemma minmaxN_canonical {a b : Nat} (h : a ≠ b) :
    (minmaxN a b).1 < (minmaxN a b).2 := by
  unfold minmaxN
  by_cases hab : a ≤ b
  · simpa [hab] using Nat.lt_of_le_of_ne hab h
  · simp only [if_neg hab]
    simpa using by omega

/-! ## Canonical shape of the per-Work pair keys -/

lemma coauthorWorkKeys_lt (db : DB) (wid : Nat) :
    ∀ p ∈ coauthorWorkKeys db wid, p.1 < p.2 := by
  intro p hp
  exact ltPairs_forall_rel (sortNat_pairwise_lt (List.nodup_dedup _)) p hp

lemma orgWorkKeys_lt (db : DB) (wid : Nat) :
    ∀ p ∈ orgWorkKeys db wid, p.1 < p.2 := by
  intro p hp
  obtain ⟨q, hq, rfl⟩ := List.mem_map.mp hp
  have hnd : (sortNat ((workOrgIds db wid).filter (fun o => decide (o ≠ 0))).dedup).Nodup :=
    ((List.perm_insertionSort (fun a b => a ≤ b) _).nodup_iff).mpr (List.nodup_dedup _)
  have hne : q.1 ≠ q.2 := ltPairs_forall_rel (R := (· ≠ ·)) hnd q hq
  exact minmaxN_canonical hne

lemma nationWorkKeys_canon (db : DB) (wid : Nat) :
    ∀ p ∈ nationWorkKeys db wid, strLe p.1 p.2 = true ∧ p.1 ≠ p.2 := by
  intro p hp
  obtain ⟨q, hq, rfl⟩ := List.mem_map.mp hp
  have hnd : (sortStr ((workNations db wid).filter (fun n => decide (n ≠ ""))).dedup).Nodup :=
    sortStr_nodup (List.nodup_dedup _)
  have hne : q.1 ≠ q.2 := ltPairs_forall_rel (R := (· ≠ ·)) hnd q hq
  exact minmaxS_canonical hne

/-! ## The accumulated pair dicts -/

lemma foldl_bump_nested {κ : Type} [DecidableEq κ] (ws : List Nat) (g : Nat → List κ)
    (l : List (κ × Nat)) :
    ws.foldl (fun pairs wid => (g wid).foldl bump pairs) l = (ws.flatMap g).foldl bump l := by
  induction ws generalizing l with
  | nil => simp
  | cons a t ih => simp [List.flatMap_cons, List.foldl_append, ih]

lemma mem_pairKeys {κ : Type} [DecidableEq κ] (ws : List Nat) (g : Nat → List κ) (x : κ) :
    x ∈ ((ws.foldl (fun pairs wid => (g wid).foldl bump pairs) []).map (fun p => p.1)) ↔
      ∃ wid ∈ ws, x ∈ g wid := by
  rw [foldl_bump_nested, mem_foldl_bump_fst]
  simp [List.mem_flatMap]

lemma nodup_pairKeys {κ : Type} [DecidableEq κ] (ws : List Nat) (g : Nat → List κ) :
    (((ws.foldl (fun pairs wid => (g wid).foldl bump pairs) []).map (fun p => p.1))).Nodup := by
  rw [foldl_bump_nested]
  exact nodup_foldl_bump_fst _ _ (by simp)

lemma mem_pairKeys_iff_pos {κ : Type} [DecidableEq κ] (ws : List Nat) (g : Nat → List κ)
    (x : κ) :
    x ∈ ((ws.foldl (fun pairs wid => (g wid).foldl bump pairs) []).map (fun p => p.1)) ↔
      0 < keyCount (ws.foldl (fun pairs wid => (g wid).foldl bump pairs) []) x := by
  rw [foldl_bump_nested, mem_foldl_bump_fst, keyCount_foldl_bump, keyCount_nil, Nat.zero_add,
    cnt_pos_iff]
  simp

lemma pairwise_not_unord_of_lt {l : List ((Nat × Nat) × Nat)}
    (hnd : (l.map (fun p => p.1)).Nodup)
    (hcan : ∀ q ∈ l.map (fun p => p.1), q.1 < q.2) :
    l.Pairwise (fun p q => ¬ unordPairEq p.1 q.1) := by
  have h1 : l.Pairwise (fun p q => p.1 ≠ q.1) := List.pairwise_map.mp hnd
  refine h1.imp_of_mem ?_
  intro p q hp hq hne hu
  rcases hu with ⟨e1, e2⟩ | ⟨e1, e2⟩
  · exact hne (Prod.ext e1 e2)
  · have hp1 := hcan p.1 (List.mem_map_of_mem _ hp)
    have hq1 := hcan q.1 (List.mem_map_of_mem _ hq)
    omega

lemma pairwise_not_unord_of_strLe {l : List ((String × String) × Nat)}
    (hnd : (l.map (fun p => p.1)).Nodup)
    (hcan : ∀ q ∈ l.map (fun p => p.1), strLe q.1 q.2 = true ∧ q.1 ≠ q.2) :
    l.Pairwise (fun p q => ¬ unordPairEq p.1 q.1) := by
  have h1 : l.Pairwise (fun p q => p.1 ≠ q.1) := List.pairwise_map.mp hnd
  refine h1.imp_of_mem ?_
  intro p q hp hq hne hu
  rcases hu with ⟨e1, e2⟩ | ⟨e1, e2⟩
  · exact hne (Prod.ext e1 e2)
  · obtain ⟨hple, hpne⟩ := hcan p.1 (List.mem_map_of_mem _ hp)
    obtain ⟨hqle, _⟩ := hcan q.1 (List.mem_map_of_mem _ hq)
    apply hpne
    apply strLe_antisymm hple
    rw [← e1, ← e2] at hqle
    exact hqle

/-- C6: after any recompute of a co-author, organization or nation edge table,
every edge row has two distinct endpoints stored in canonical order (smaller id
or lexicographically smaller code first), and there is at most one row per
unordered endpoint pair — even when an entity appears more than once on a
single Work. -/
theorem recompute_edges_canonical (db : DB) :
    ((∀ e ∈ (recompute_coauthor_edges db).coauthor_edges, e.a_id < e.b_id) ∧
      (recompute_coauthor_edges db).coauthor_edges.Pairwise
        (fun e1 e2 => ¬ unordPairEq (e1.a_id, e1.b_id) (e2.a_id, e2.b_id))) ∧
    ((∀ e ∈ (recompute_org_edges db).org_edges, e.org1_id < e.org2_id) ∧
      (recompute_org_edges db).org_edges.Pairwise
        (fun e1 e2 => ¬ unordPairEq (e1.org1_id, e1.org2_id) (e2.org1_id, e2.org2_id))) ∧
    ((∀ e ∈ (recompute_nation_edges db).nation_edges,
        strLe e.n1 e.n2 = true ∧ e.n1 ≠ e.n2) ∧
      (recompute_nation_edges db).nation_edges.Pairwise
        (fun e1 e2 => ¬ unordPairEq (e1.n1, e1.n2) (e2.n1, e2.n2))) := by
  refine ⟨⟨?_, ?_⟩, ⟨?_, ?_⟩, ⟨?_, ?_⟩⟩
  · intro e he
    simp only [recompute_coauthor_edges] at he
    obtain ⟨pc, hpc, rfl⟩ := List.mem_map.mp he
    have := (mem_pairKeys _ (coauthorWorkKeys db) pc.1).mp (List.mem_map_of_mem _ hpc)
    obtain ⟨wid, _, hk⟩ := this
    exact coauthorWorkKeys_lt db wid pc.1 hk
  · simp only [recompute_coauthor_edges]
    rw [List.pairwise_map]
    refine (pairwise_not_unord_of_lt (nodup_pairKeys _ _) ?_).imp (fun h => h)
    intro q hq
    obtain ⟨wid, _, hk⟩ := (mem_pairKeys _ (coauthorWorkKeys db) q).mp hq
    exact coauthorWorkKeys_lt db wid q hk
  · intro e he
    simp only [recompute_org_edges] at he
    obtain ⟨pc, hpc, rfl⟩ := List.mem_map.mp he
    obtain ⟨wid, _, hk⟩ := (mem_pairKeys _ (orgWorkKeys db) pc.1).mp (List.mem_map_of_mem _ hpc)
    exact orgWorkKeys_lt db wid pc.1 hk
  · simp only [recompute_org_edges]
    rw [List.pairwise_map]
    refine (pairwise_not_unord_of_lt (nodup_pairKeys _ _) ?_).imp (fun h => h)
    intro q hq
    obtain ⟨wid, _, hk⟩ := (mem_pairKeys _ (orgWorkKeys db) q).mp hq
    exact orgWorkKeys_lt db wid q hk
  · intro e he
    simp only [recompute_nation_edges] at he
    obtain ⟨pc, hpc, rfl⟩ := List.mem_map.mp he
    obtain ⟨wid, _, hk⟩ :=
      (mem_pairKeys _ (nationWorkKeys db) pc.1).mp (List.mem_map_of_mem _ hpc)
    exact nationWorkKeys_canon db wid pc.1 hk
  · simp only [recompute_nation_edges]
    rw [List.pairwise_map]
    refine (pairwise_not_unord_of_strLe (nodup_pairKeys _ _) ?_).imp (fun h => h)
    intro q hq
    obtain ⟨wid, _, hk⟩ := (mem_pairKeys _ (nationWorkKeys db) q).mp hq
    exact nationWorkKeys_canon db wid q hk

/-! ## Exact counting for the co-author recompute (C1) -/

lemma sum_map_ite_length {α : Type} (l : List α) (p : α → Prop) [DecidablePred p] :
    (l.map (fun x => if p x then 1 else 0)).sum = (l.filter (fun x => decide (p x))).length := by
  induction l with
  | nil => rfl
  | cons a t ih =>
    by_cases h : p a
    · simp [h, ih]; omega
    · simp [h, ih]

lemma cnt_coauthorWorkKeys (db : DB) (wid : Nat) (a b : Nat) (hab : a < b) :
    cnt (coauthorWorkKeys db wid) (a, b) =
      if a ∈ workAuthorIds db wid ∧ b ∈ workAuthorIds db wid then 1 else 0 := by
  have hpw : (sortNat (workAuthorIds db wid).dedup).Pairwise (· < ·) :=
    sortNat_pairwise_lt (List.nodup_dedup _)
  have hnd : (coauthorWorkKeys db wid).Nodup :=
    ltPairs_nodup (hpw.imp (fun hlt => Nat.ne_of_lt hlt))
  have hmem : (a, b) ∈ coauthorWorkKeys db wid ↔
      a ∈ workAuthorIds db wid ∧ b ∈ workAuthorIds db wid := by
    unfold coauthorWorkKeys
    rw [mem_ltPairs_sorted hpw, mem_sortNat, mem_sortNat, List.mem_dedup, List.mem_dedup]
    constructor
    · rintro ⟨h1, h2, _⟩; exact ⟨h1, h2⟩
    · rintro ⟨h1, h2⟩; exact ⟨h1, h2, hab⟩
  by_cases hm : (a, b) ∈ coauthorWorkKeys db wid
  · rw [cnt_eq_one_of_nodup_mem hnd hm, if_pos (hmem.mp hm)]
  · rw [cnt_eq_zero_of_not_mem hm, if_neg (fun hc => hm (hmem.mpr hc))]

lemma keyCount_coauthorPairs (db : DB) (a b : Nat) (hab : a < b) :
    keyCount (coauthorPairs db) (a, b) = coWorksCount db a b := by
  unfold coauthorPairs
  rw [foldl_bump_nested, keyCount_foldl_bump, keyCount_nil, Nat.zero_add, cnt_flatMap,
    List.map_map]
  have hcongr : (db.works.map ((fun x => cnt (coauthorWorkKeys db x) (a, b)) ∘ fun wk => wk.id)) =
      db.works.map (fun wk =>
        if a ∈ workAuthorIds db wk.id ∧ b ∈ workAuthorIds db wk.id then 1 else 0) := by
    apply List.map_congr_left
    intro wk _
    exact cnt_coauthorWorkKeys db wk.id a b hab
  rw [hcongr, sum_map_ite_length]
  rfl

/-- C1: immediately after `recompute_coauthor_edges`, the co-author edge table
has exactly one row per unordered pair of distinct authors that co-occur on at
least one Work, with weight equal to the number of Works on which both
co-occur, stored in canonical `(smaller, larger)` order — so there is never a
reversed `(larger, smaller)` row. -/
theorem coauthor_recompute_exact (db : DB) (a b : Nat) (hab : a < b) :
    (((recompute_coauthor_edges db).coauthor_edges.filter
        (fun e => decide (e.a_id = a ∧ e.b_id = b))).map (fun e => e.weight)
      = if coWorksCount db a b = 0 then [] else [coWorksCount db a b]) ∧
    ∀ e ∈ (recompute_coauthor_edges db).coauthor_edges, e.a_id < e.b_id := by
  constructor
  · simp only [recompute_coauthor_edges]
    rw [List.filter_map]
    have hpred : ∀ pc ∈ coauthorPairs db,
        ((fun e : CoauthorEdge => decide (e.a_id = a ∧ e.b_id = b)) ∘
          (fun pc : (Nat × Nat) × Nat => (⟨pc.1.1, pc.1.2, pc.2, pc.2⟩ : CoauthorEdge))) pc
          = decide (pc.1 = (a, b)) := by
      intro pc _
      simp only [Function.comp_apply, decide_eq_decide]
      constructor
      · rintro ⟨h1, h2⟩; exact Prod.ext h1 h2
      · intro h; exact ⟨congrArg Prod.fst h, congrArg Prod.snd h⟩
    rw [List.filter_congr hpred]
    have hnd : ((coauthorPairs db).map (fun p => p.1)).Nodup := by
      unfold coauthorPairs; exact nodup_pairKeys _ _
    rw [filter_key_of_nodup _ _ hnd]
    have hpos : ((a, b) ∈ (coauthorPairs db).map (fun p => p.1)) ↔
        0 < coWorksCount db a b := by
      rw [← keyCount_coauthorPairs db a b hab]
      unfold coauthorPairs
      exact mem_pairKeys_iff_pos _ _ _
    by_cases hz : coWorksCount db a b = 0
    · rw [if_neg (fun hm => absurd (hpos.mp hm) (by omega)), if_pos hz]
      rfl
    · rw [if_pos (hpos.mpr (by omega)), if_neg hz]
      simp [keyCount_coauthorPairs db a b hab]
  · intro e he
    simp only [recompute_coauthor_edges] at he
    obtain ⟨pc, hpc, rfl⟩ := List.mem_map.mp he
    obtain ⟨wid, _, hk⟩ := (mem_pairKeys _ (coauthorWorkKeys db) pc.1).mp
      (by unfold coauthorPairs at hpc; exact List.mem_map_of_mem _ hpc)
    exact coauthorWorkKeys_lt db wid pc.1 hk

/-! ## Merge conservation (C2) -/

lemma coTableWeight_symm (db : DB) (x y : Nat) :
    coTableWeight db x y = coTableWeight db y x := by
  unfold coTableWeight
  have : db.coauthor_edges.filter
      (fun e => decide ((e.a_id = x ∧ e.b_id = y) ∨ (e.a_id = y ∧ e.b_id = x))) =
    db.coauthor_edges.filter
      (fun e => decide ((e.a_id = y ∧ e.b_id = x) ∨ (e.a_id = x ∧ e.b_id = y))) := by
    apply List.filter_congr
    intro e _
    rw [decide_eq_decide]
    tauto
  rw [this]

lemma coWorksCount_symm (db : DB) (x y : Nat) :
    coWorksCount db x y = coWorksCount db y x := by
  unfold coWorksCount
  have : db.works.filter
      (fun wk => decide (x ∈ workAuthorIds db wk.id ∧ y ∈ workAuthorIds db wk.id)) =
    db.works.filter
      (fun wk => decide (y ∈ workAuthorIds db wk.id ∧ x ∈ workAuthorIds db wk.id)) := by
    apply List.filter_congr
    intro wk _
    rw [decide_eq_decide]
    tauto
  rw [this]

lemma coauthorPairs_keys_lt (db : DB) : ∀ pc ∈ coauthorPairs db, pc.1.1 < pc.1.2 := by
  intro pc hpc
  obtain ⟨wid, _, hk⟩ := (mem_pairKeys _ (coauthorWorkKeys db) pc.1).mp
    (by unfold coauthorPairs at hpc; exact List.mem_map_of_mem _ hpc)
  exact coauthorWorkKeys_lt db wid pc.1 hk

lemma coTableWeight_recompute (db : DB) {x y : Nat} (hxy : x < y) :
    coTableWeight (recompute_coauthor_edges db) x y = coWorksCount db x y := by
  unfold coTableWeight
  simp only [recompute_coauthor_edges]
  rw [List.filter_map]
  have hpred : ∀ pc ∈ coauthorPairs db,
      ((fun e : CoauthorEdge => decide ((e.a_id = x ∧ e.b_id = y) ∨ (e.a_id = y ∧ e.b_id = x))) ∘
        (fun pc : (Nat × Nat) × Nat => (⟨pc.1.1, pc.1.2, pc.2, pc.2⟩ : CoauthorEdge))) pc
        = decide (pc.1 = (x, y)) := by
    intro pc hpc
    have hc := coauthorPairs_keys_lt db pc hpc
    simp only [Function.comp_apply, decide_eq_decide]
    constructor
    · rintro (⟨h1, h2⟩ | ⟨h1, h2⟩)
      · exact Prod.ext h1 h2
      · omega
    · intro h
      exact Or.inl ⟨congrArg Prod.fst h, congrArg Prod.snd h⟩
  rw [List.filter_congr hpred]
  have hnd : ((coauthorPairs db).map (fun p => p.1)).Nodup := by
    unfold coauthorPairs; exact nodup_pairKeys _ _
  rw [filter_key_of_nodup _ _ hnd, ← keyCount_coauthorPairs db x y hxy]
  by_cases hm : (x, y) ∈ (coauthorPairs db).map (fun p => p.1)
  · rw [if_pos hm]
    simp
  · rw [if_neg hm]
    have h0 : ¬ 0 < keyCount (coauthorPairs db) (x, y) := by
      intro hpos
      exact hm (by
        unfold coauthorPairs at hpos ⊢
        exact (mem_pairKeys_iff_pos _ _ _).mpr hpos)
    simp
    omega

lemma coTableWeight_recompute_ne (db : DB) {x y : Nat} (hxy : x ≠ y) :
    coTableWeight (recompute_coauthor_edges db) x y = coWorksCount db x y := by
  rcases Nat.lt_or_gt_of_ne hxy with h | h
  · exact coTableWeight_recompute db h
  · rw [coTableWeight_symm, coTableWeight_recompute db h, coWorksCount_symm]

lemma mergeReassign_works (db : DB) (A B : Nat) (r u : Option String) :
    (mergeReassign db A B r u).works = db.works := rfl

lemma workAuthorIds_mergeReassign (db : DB) (A B : Nat) (r u : Option String) (wid : Nat) :
    workAuthorIds (mergeReassign db A B r u) wid =
      (workAuthorIds db wid).map (fun x => if x = B then A else x) := by
  unfold workAuthorIds mergeReassign
  simp only
  rw [List.filter_map, List.map_map]
  have h1 : ∀ wa ∈ db.work_authors,
      ((fun wa : WorkAuthor => decide (wa.work_id = wid)) ∘
        (fun wa => if wa.author_id = B then { wa with author_id := A } else wa)) wa =
      decide (wa.work_id = wid) := by
    intro wa _
    by_cases h : wa.author_id = B <;> simp [h]
  rw [List.filter_congr h1, List.map_map]
  apply List.map_congr_left
  intro wa _
  by_cases h : wa.author_id = B <;> simp [h]

lemma mem_subst_kept {l : List Nat} {A B : Nat} :
    A ∈ l.map (fun i => if i = B then A else i) ↔ A ∈ l ∨ B ∈ l := by
  simp only [List.mem_map]
  constructor
  · rintro ⟨i, hi, hs⟩
    by_cases h : i = B
    · exact Or.inr (h ▸ hi)
    · rw [if_neg h] at hs
      exact Or.inl (hs ▸ hi)
  · rintro (h | h)
    · by_cases hb : A = B
      · exact ⟨A, h, by rw [if_pos hb]⟩
      · exact ⟨A, h, by rw [if_neg hb]⟩
    · exact ⟨B, h, by rw [if_pos rfl]⟩

lemma mem_subst_other {l : List Nat} {A B C : Nat} (hCA : C ≠ A) (hCB : C ≠ B) :
    C ∈ l.map (fun i => if i = B then A else i) ↔ C ∈ l := by
  simp only [List.mem_map]
  constructor
  · rintro ⟨i, hi, hs⟩
    by_cases h : i = B
    · rw [if_pos h] at hs
      exact absurd hs.symm hCA
    · rw [if_neg h] at hs
      exact hs ▸ hi
  · intro h
    exact ⟨C, h, by rw [if_neg hCB]⟩

lemma subst_ne_removed {l : List Nat} {A B x : Nat} (hAB : A ≠ B)
    (hx : x ∈ l.map (fun i => if i = B then A else i)) : x ≠ B := by
  obtain ⟨i, _, hs⟩ := List.mem_map.mp hx
  by_cases h : i = B
  · rw [if_pos h] at hs
    exact hs ▸ hAB
  · rw [if_neg h] at hs
    exact hs ▸ h

lemma length_filter_or {α : Type} (l : List α) (p q : α → Prop)
    [DecidablePred p] [DecidablePred q] (h : ∀ x ∈ l, ¬(p x ∧ q x)) :
    (l.filter (fun x => decide (p x ∨ q x))).length =
      (l.filter (fun x => decide (p x))).length + (l.filter (fun x => decide (q x))).length := by
  induction l with
  | nil => rfl
  | cons a t ih =>
    have ha := h a (List.mem_cons_self _ _)
    have ht : ∀ x ∈ t, ¬(p x ∧ q x) := fun x hx => h x (List.mem_cons_of_mem _ hx)
    rw [List.filter_cons, List.filter_cons, List.filter_cons]
    by_cases hp : p a
    · have hq : ¬ q a := fun hq => ha ⟨hp, hq⟩
      rw [if_pos (by simp [hp]), if_pos (by simp [hp]), if_neg (by simp [hq])]
      simp only [List.length_cons]
      rw [ih ht]
      omega
    · by_cases hq : q a
      · rw [if_pos (by simp [hp, hq]), if_neg (by simp [hp]), if_pos (by simp [hq])]
        simp only [List.length_cons]
        rw [ih ht]
        omega
      · rw [if_neg (by simp [hp, hq]), if_neg (by simp [hp]), if_neg (by simp [hq])]
        exact ih ht

lemma mem_workAuthorIds (db : DB) (wid x : Nat) :
    x ∈ workAuthorIds db wid ↔
      ∃ wa ∈ db.work_authors, wa.work_id = wid ∧ wa.author_id = x := by
  unfold workAuthorIds
  simp only [List.mem_map, List.mem_filter, decide_eq_true_eq]
  constructor
  · rintro ⟨wa, ⟨hm, hw⟩, ha⟩
    exact ⟨wa, hm, hw, ha⟩
  · rintro ⟨wa, hm, hw, ha⟩
    exact ⟨wa, ⟨hm, hw⟩, ha⟩

lemma coWorksCount_merged (db : DB) (A B C : Nat) (r u : Option String)
    (hCA : C ≠ A) (hCB : C ≠ B)
    (hdisj : ∀ wid, ¬(A ∈ workAuthorIds db wid ∧ B ∈ workAuthorIds db wid)) :
    coWorksCount (mergeReassign db A B r u) A C =
      coWorksCount db A C + coWorksCount db B C := by
  unfold coWorksCount
  rw [mergeReassign_works]
  have hcong : ∀ wk ∈ db.works,
      (decide (A ∈ workAuthorIds (mergeReassign db A B r u) wk.id ∧
               C ∈ workAuthorIds (mergeReassign db A B r u) wk.id))
      = decide ((A ∈ workAuthorIds db wk.id ∧ C ∈ workAuthorIds db wk.id) ∨
                (B ∈ workAuthorIds db wk.id ∧ C ∈ workAuthorIds db wk.id)) := by
    intro wk _
    rw [decide_eq_decide, workAuthorIds_mergeReassign, mem_subst_kept,
      mem_subst_other hCA hCB]
    tauto
  rw [List.filter_congr hcong]
  exact length_filter_or db.works _ _ (fun wk _ hpq => hdisj wk.id ⟨hpq.1.1, hpq.2.1⟩)

/-- C2 (amended): merging author B into A and recomputing conserves weights,
`weight(A,C) = weight(A,C) + weight(B,C)`, and leaves no reference to B —
provided no Work links both A and B.  (When some Work links both, the bulk
`UPDATE` of `work_authors` violates that table's composite primary key and the
merge errors out; and the claimed sum would in any case double-count such
Works, see `merge_conservation_cex`.) -/
theorem merge_conservation (db : DB) (A B C : Nat) (reason user : Option String)
    (hAB : A ≠ B) (hCA : C ≠ A) (hCB : C ≠ B)
    (hfresh : db.coauthor_edges = (recompute_coauthor_edges db).coauthor_edges)
    (hrows : ∀ wa ∈ db.work_authors, wa.author_id = A →
      ∀ wb ∈ db.work_authors, wb.work_id = wa.work_id → wb.author_id ≠ B) :
    ∃ db', merge_authors db A B reason user = Except.ok db' ∧
      coTableWeight db' A C = coTableWeight db A C + coTableWeight db B C ∧
      (∀ wa ∈ db'.work_authors, wa.author_id ≠ B) ∧
      (∀ wf ∈ db'.work_affiliations, wf.author_id ≠ some B) ∧
      (∀ al ∈ db'.author_aliases, al.author_id ≠ B) ∧
      (∀ a ∈ db'.authors, a.id ≠ B) ∧
      (∀ e ∈ db'.coauthor_edges, e.a_id ≠ B ∧ e.b_id ≠ B) := by
  have hdisj : ∀ wid, ¬(A ∈ workAuthorIds db wid ∧ B ∈ workAuthorIds db wid) := by
    intro wid ⟨hA, hB⟩
    obtain ⟨wa, hwa, hwaW, hwaA⟩ := (mem_workAuthorIds db wid A).mp hA
    obtain ⟨wb, hwb, hwbW, hwbA⟩ := (mem_workAuthorIds db wid B).mp hB
    exact hrows wa hwa hwaA wb hwb (hwbW.trans hwaW.symm) hwbA
  have hguard : ¬(A ≠ B ∧
      (db.work_authors.any (fun wa => decide (wa.author_id = B) &&
        db.work_authors.any (fun wb =>
          decide (wb.work_id = wa.work_id ∧ wb.author_id = A)))) = true) := by
    rintro ⟨-, hany⟩
    obtain ⟨wa, hwa, hfa⟩ := List.any_eq_true.mp hany
    rw [Bool.and_eq_true] at hfa
    obtain ⟨wb, hwb, hfb⟩ := List.any_eq_true.mp hfa.2
    rw [decide_eq_true_eq] at hfb
    have hB : wa.author_id = B := by
      have := hfa.1; rwa [decide_eq_true_eq] at this
    refine hdisj wa.work_id ⟨?_, ?_⟩
    · exact (mem_workAuthorIds db _ A).mpr ⟨wb, hwb, hfb.1, hfb.2⟩
    · exact (mem_workAuthorIds db _ B).mpr ⟨wa, hwa, rfl, hB⟩
  have hmerge : merge_authors db A B reason user = Except.ok
      (recompute_nation_edges (recompute_org_edges (recompute_coauthor_edges
        (mergeReassign db A B reason user)))) := by
    unfold merge_authors
    rw [if_neg hguard]
  set db1 := mergeReassign db A B reason user with hdb1
  refine ⟨_, hmerge, ?_, ?_, ?_, ?_, ?_, ?_⟩
  · have h1 : coTableWeight (recompute_nation_edges (recompute_org_edges
        (recompute_coauthor_edges db1))) A C =
      coTableWeight (recompute_coauthor_edges db1) A C := rfl
    rw [h1, coTableWeight_recompute_ne db1 (fun h => hCA h.symm)]
    have h2 : coTableWeight db A C = coWorksCount db A C := by
      have := coTableWeight_recompute_ne db (x := A) (y := C) (fun h => hCA h.symm)
      unfold coTableWeight at this ⊢
      rw [hfresh]
      exact this
    have h3 : coTableWeight db B C = coWorksCount db B C := by
      have := coTableWeight_recompute_ne db (x := B) (y := C) (fun h => hCB h.symm)
      unfold coTableWeight at this ⊢
      rw [hfresh]
      exact this
    rw [h2, h3]
    exact coWorksCount_merged db A B C reason user hCA hCB hdisj
  · intro wa hwa
    obtain ⟨wb, _, hs⟩ := List.mem_map.mp hwa
    by_cases h : wb.author_id = B
    · rw [if_pos h] at hs
      rw [← hs]
      exact hAB
    · rw [if_neg h] at hs
      rw [← hs]
      exact h
  · intro wf hwf
    obtain ⟨wg, _, hs⟩ := List.mem_map.mp hwf
    by_cases h : wg.author_id = some B
    · rw [if_pos h] at hs
      rw [← hs]
      intro hcon
      exact hAB (Option.some.inj hcon)
    · rw [if_neg h] at hs
      rw [← hs]
      exact h
  · intro al hal
    obtain ⟨am, _, hs⟩ := List.mem_map.mp hal
    by_cases h : am.author_id = B
    · rw [if_pos h] at hs
      rw [← hs]
      exact hAB
    · rw [if_neg h] at hs
      rw [← hs]
      exact h
  · intro a ha
    have := (List.mem_filter.mp ha).2
    rwa [decide_eq_true_eq] at this
  · intro e he
    have he' : e ∈ (recompute_coauthor_edges db1).coauthor_edges := he
    simp only [recompute_coauthor_edges] at he'
    obtain ⟨pc, hpc, rfl⟩ := List.mem_map.mp he'
    obtain ⟨wid, _, hk⟩ := (mem_pairKeys _ (coauthorWorkKeys db1) pc.1).mp
      (by unfold coauthorPairs at hpc; exact List.mem_map_of_mem _ hpc)
    have hmem := ltPairs_fst_snd_mem _ _ hk
    have hm1 : pc.1.1 ∈ workAuthorIds db1 wid := by
      have := hmem.1
      rw [mem_sortNat, List.mem_dedup] at this
      exact this
    have hm2 : pc.1.2 ∈ workAuthorIds db1 wid := by
      have := hmem.2
      rw [mem_sortNat, List.mem_dedup] at this
      exact this
    rw [hdb1, workAuthorIds_mergeReassign] at hm1 hm2
    exact ⟨subst_ne_removed hAB hm1, subst_ne_removed hAB hm2⟩

/-- Equality of everything the entity-store operations never touch: the loops
over authorships/institutions/concepts only create entity rows (the link rows
they produce are returned separately and appended by the caller). -/
structure NonEntEq (d1 d2 : DB) : Prop where
  works : d2.works = d1.works
  work_authors : d2.work_authors = d1.work_authors
  work_affiliations : d2.work_affiliations = d1.work_affiliations
  work_keywords : d2.work_keywords = d1.work_keywords
  coauthor_edges : d2.coauthor_edges = d1.coauthor_edges
  org_edges : d2.org_edges = d1.org_edges
  nation_edges : d2.nation_edges = d1.nation_edges
  merge_log : d2.merge_log = d1.merge_log
  next_work_id : d2.next_work_id = d1.next_work_id

/-- The entity tables only ever grow by appending rows. -/
structure EntExt (d1 d2 : DB) : Prop where
  authors : d1.authors <+: d2.authors
  organizations : d1.organizations <+: d2.organizations
  keywords : d1.keywords <+: d2.keywords
  venues : d1.venues <+: d2.venues

instance : IsTotal (Nat × String) (fun p q => p.1 ≤ q.1) :=
  ⟨fun a b => Nat.le_total a.1 b.1⟩

instance : IsTrans (Nat × String) (fun p q => p.1 ≤ q.1) :=
  ⟨fun _ _ _ => Nat.le_trans⟩

instance : IsAntisymm (Nat × String) (fun p q => p.1 < q.1) :=
  ⟨fun a _ h1 h2 => absurd (h1.trans h2) (Nat.lt_irrefl a.1)⟩

/-! ## Concrete stores and records used to instantiate the results -/

/-- Two Works, each linking exactly authors 1 and 2. -/
def dbPair : DB :=
  { emptyDB with
    authors := [⟨1, "A", "a", none⟩, ⟨2, "B", "b", none⟩],
    works := [⟨1, none, none, "w1", none, none, none, none, none, none, some "OpenAlex"⟩,
              ⟨2, none, none, "w2", none, none, none, none, none, none, some "OpenAlex"⟩],
    work_authors := [⟨1, 1, 0, false⟩, ⟨1, 2, 1, false⟩, ⟨2, 2, 0, false⟩, ⟨2, 1, 1, false⟩],
    next_author_id := 3, next_work_id := 3 }

/-- Authors 1, 2, 3 with Works {1,3} and {2,3}, edge table freshly recomputed. -/
def dbTriF : DB :=
  recompute_coauthor_edges
    { emptyDB with
      authors := [⟨1, "A", "a", none⟩, ⟨2, "B", "b", none⟩, ⟨3, "C", "c", none⟩],
      works := [⟨1, none, none, "w1", none, none, none, none, none, none, some "OpenAlex"⟩,
                ⟨2, none, none, "w2", none, none, none, none, none, none, some "OpenAlex"⟩],
      work_authors := [⟨1, 1, 0, false⟩, ⟨1, 3, 1, false⟩, ⟨2, 2, 0, false⟩, ⟨2, 3, 1, false⟩],
      next_author_id := 4, next_work_id := 3 }

/-- One Work linking all three of authors 1, 2, 3. -/
def dbShared : DB :=
  { emptyDB with
    authors := [⟨1, "A", "a", none⟩, ⟨2, "B", "b", none⟩, ⟨3, "C", "c", none⟩],
    works := [⟨1, none, none, "w1", none, none, none, none, none, none, some "OpenAlex"⟩],
    work_authors := [⟨1, 1, 0, false⟩, ⟨1, 2, 1, false⟩, ⟨1, 3, 2, false⟩],
    next_author_id := 4, next_work_id := 2 }


/-- Witness for C1: in `dbPair` (two Works, both linking authors 1 and 2) the
recomputed table has the single canonical row `(1, 2)` with weight 2. -/
theorem coauthor_recompute_exact_witness :
    (1 : Nat) < 2 ∧
    ((((recompute_coauthor_edges dbPair).coauthor_edges.filter
        (fun e => decide (e.a_id = 1 ∧ e.b_id = 2))).map (fun e => e.weight)
      = if coWorksCount dbPair 1 2 = 0 then [] else [coWorksCount dbPair 1 2]) ∧
    ∀ e ∈ (recompute_coauthor_edges dbPair).coauthor_edges, e.a_id < e.b_id) :=
  ⟨by decide, coauthor_recompute_exact dbPair 1 2 (by decide)⟩

/-- Counterexample for C2 as stated: when one Work links authors 1, 2 and 3,
merging 2 into 1 does not yield any recomputed store at all — the bulk update
of `work_authors` hits the composite primary key and the merge errors out
(were the links substituted anyway, the pair (1,3) would get weight 1, not
`1 + 1`, because the per-Work author set is deduplicated). -/
theorem merge_conservation_cex :
    merge_authors dbShared 1 2 none none =
      Except.error "UNIQUE constraint failed: work_authors" ∧
    (merge_authors dbShared 1 2 none none).isOk = false :=
  ⟨by rfl, by decide⟩

/-- Witness for C2 (amended): authors 1 and 2 share no Work in `dbTriF`, and
the merge then conserves the co-author weight towards author 3. -/
theorem merge_conservation_witness :
    ((1 : Nat) ≠ 2 ∧ (3 : Nat) ≠ 1 ∧ (3 : Nat) ≠ 2 ∧
      dbTriF.coauthor_edges = (recompute_coauthor_edges dbTriF).coauthor_edges ∧
      (∀ wa ∈ dbTriF.work_authors, wa.author_id = 1 →
        ∀ wb ∈ dbTriF.work_authors, wb.work_id = wa.work_id → wb.author_id ≠ 2)) ∧
    (∃ db', merge_authors dbTriF 1 2 none none = Except.ok db' ∧
      coTableWeight db' 1 3 = coTableWeight dbTriF 1 3 + coTableWeight dbTriF 2 3 ∧
      (∀ wa ∈ db'.work_authors, wa.author_id ≠ 2) ∧
      (∀ wf ∈ db'.work_affiliations, wf.author_id ≠ some 2) ∧
      (∀ al ∈ db'.author_aliases, al.author_id ≠ 2) ∧
      (∀ a ∈ db'.authors, a.id ≠ 2) ∧
      (∀ e ∈ db'.coauthor_edges, e.a_id ≠ 2 ∧ e.b_id ≠ 2)) :=
  ⟨⟨by decide, by decide, by decide, by decide, by decide⟩,
    merge_conservation dbTriF 1 2 3 none none (by decide) (by decide) (by decide)
      (by decide) (by decide)⟩

/-! ## Identity uniqueness of the entity store (C7) -/

lemma length_filter_le_one {α β : Type} [DecidableEq β] (l : List α) (f : α → β) (b : β)
    (h : (l.map f).Nodup) : (l.filter (fun x => decide (f x = b))).length ≤ 1 := by
  induction l with
  | nil => simp
  | cons a t ih =>
    simp only [List.map_cons, List.nodup_cons] at h
    rw [List.filter_cons]
    by_cases hab : f a = b
    · rw [if_pos (by simp [hab])]
      have hnil : t.filter (fun x => decide (f x = b)) = [] := by
        rw [List.filter_eq_nil_iff]
        intro x hx
        simp only [decide_eq_true_eq]
        intro hxb
        exact h.1 (by rw [← hab] at hxb; exact hxb ▸ List.mem_map_of_mem f hx)
      simp [hnil]
    · rw [if_neg (by simp [hab])]
      exact ih h.2

lemma get_or_create_author_found {db : DB} {d : String} {n o : Option String} {a0 : Author}
    (h : db.authors.find? (fun a => decide (a.normalized_name = authorNorm d n)) = some a0) :
    get_or_create_author db d n o = (db, a0) := by
  simp only [get_or_create_author, h]

lemma get_or_create_author_created {db : DB} {d : String} {n o : Option String}
    (h : db.authors.find? (fun a => decide (a.normalized_name = authorNorm d n)) = none) :
    (get_or_create_author db d n o).1.authors
        = db.authors ++ [⟨db.next_author_id, d, authorNorm d n, o⟩] ∧
    (get_or_create_author db d n o).1.author_aliases
        = db.author_aliases ++ [⟨db.next_author_id, d, "ingest", ingestConfidence⟩] ∧
    (get_or_create_author db d n o).2 = ⟨db.next_author_id, d, authorNorm d n, o⟩ := by
  simp only [get_or_create_author, h]
  exact ⟨trivial, trivial, trivial⟩

lemma get_or_create_author_step {db : DB} {d : String} {n o : Option String} {n0 : String}
    (hn : authorNorm d n = n0)
    (hwf : (db.authors.map (fun a => a.normalized_name)).Nodup) :
    (((get_or_create_author db d n o).1.authors.filter
        (fun a => decide (a.normalized_name = n0))).length = 1) ∧
    ((get_or_create_author db d n o).1.authors.map (fun a => a.normalized_name)).Nodup := by
  cases hfind : db.authors.find? (fun a => decide (a.normalized_name = authorNorm d n)) with
  | some a0 =>
    rw [get_or_create_author_found hfind]
    have hmem : a0 ∈ db.authors := List.mem_of_find?_eq_some hfind
    have hpa : a0.normalized_name = n0 := by
      have := List.find?_some hfind
      rw [decide_eq_true_eq] at this
      rw [this, hn]
    have hge : a0 ∈ db.authors.filter (fun a => decide (a.normalized_name = n0)) :=
      List.mem_filter.mpr ⟨hmem, by simp [hpa]⟩
    have h1 : 1 ≤ (db.authors.filter (fun a => decide (a.normalized_name = n0))).length :=
      List.length_pos.mpr (fun hnil => by rw [hnil] at hge; cases hge)
    have h2 : (db.authors.filter (fun a => decide (a.normalized_name = n0))).length ≤ 1 :=
      length_filter_le_one db.authors (fun a => a.normalized_name) n0 hwf
    refine ⟨?_, hwf⟩
    show (db.authors.filter (fun a => decide (a.normalized_name = n0))).length = 1
    omega
  | none =>
    obtain ⟨hA, -, -⟩ := get_or_create_author_created (o := o) hfind
    constructor
    · rw [hA, List.filter_append]
      have hnil : db.authors.filter (fun a => decide (a.normalized_name = n0)) = [] := by
        rw [List.filter_eq_nil_iff]
        intro a ha
        have := List.find?_eq_none.mp hfind a ha
        simpa [hn] using this
      rw [hnil]
      simp [hn]
    · rw [hA, List.map_append]
      rw [List.nodup_append]
      refine ⟨hwf, by simp, ?_⟩
      intro x hx
      simp only [List.map_cons, List.map_nil, List.mem_singleton]
      rintro rfl
      obtain ⟨a, ha, hax⟩ := List.mem_map.mp hx
      have := List.find?_eq_none.mp hfind a ha
      rw [decide_eq_true_eq] at this
      exact this hax

lemma get_or_create_author_stable {db : DB} {d : String} {n o : Option String} {n0 : String}
    (hn : authorNorm d n = n0)
    (hcount : (db.authors.filter (fun a => decide (a.normalized_name = n0))).length = 1) :
    (get_or_create_author db d n o).1 = db := by
  obtain ⟨a0, ha0⟩ := List.length_eq_one.mp hcount
  have hmem : a0 ∈ db.authors.filter (fun a => decide (a.normalized_name = n0)) := by
    rw [ha0]; exact List.mem_cons_self _ _
  have ⟨hm, hp⟩ := List.mem_filter.mp hmem
  cases hfind : db.authors.find? (fun a => decide (a.normalized_name = authorNorm d n)) with
  | some a1 => rw [get_or_create_author_found hfind]
  | none =>
    exact absurd (List.find?_eq_none.mp hfind a0 hm) (by simp_all [hn])

lemma get_or_create_author_foldl_stable {n0 : String} :
    ∀ (rest : List (String × Option String × Option String)) (db1 : DB),
    (∀ j ∈ rest, authorNorm j.1 j.2.1 = n0) →
    ((db1.authors.filter (fun a => decide (a.normalized_name = n0))).length = 1) →
    (((rest.foldl (fun d i => (get_or_create_author d i.1 i.2.1 i.2.2).1) db1).authors.filter
        (fun a => decide (a.normalized_name = n0))).length = 1)
  | [], _, _, hcount => hcount
  | j :: tl, db1, hrest, hcount => by
    rw [List.foldl_cons,
      get_or_create_author_stable (hrest j (List.mem_cons_self _ _)) hcount]
    exact get_or_create_author_foldl_stable tl db1
      (fun k hk => hrest k (List.mem_cons_of_mem _ hk)) hcount

/-- C7: repeated `get_or_create_author` calls whose display/normalized names
share one lowercased, trimmed form produce exactly one stored Author; a call
that finds an existing Author returns the store unchanged together with that
row, and a call that creates one appends exactly one `AuthorAlias` with source
"ingest" and confidence 0.9 for the supplied raw display name. -/
theorem get_or_create_author_identity
    (db0 : DB) (inputs : List (String × Option String × Option String)) (n0 : String)
    (hne : inputs ≠ [])
    (hsame : ∀ i ∈ inputs, authorNorm i.1 i.2.1 = n0)
    (hwf : (db0.authors.map (fun a => a.normalized_name)).Nodup) :
    (((inputs.foldl (fun d i => (get_or_create_author d i.1 i.2.1 i.2.2).1) db0).authors.filter
        (fun a => decide (a.normalized_name = n0))).length = 1) ∧
    (∀ (db : DB) (d : String) (n o : Option String) (a0 : Author),
        db.authors.find? (fun a => decide (a.normalized_name = authorNorm d n)) = some a0 →
        get_or_create_author db d n o = (db, a0)) ∧
    (∀ (db : DB) (d : String) (n o : Option String),
        db.authors.find? (fun a => decide (a.normalized_name = authorNorm d n)) = none →
        (get_or_create_author db d n o).1.authors
            = db.authors ++ [⟨db.next_author_id, d, authorNorm d n, o⟩] ∧
        (get_or_create_author db d n o).1.author_aliases
            = db.author_aliases ++ [⟨db.next_author_id, d, "ingest", ingestConfidence⟩]) := by
  refine ⟨?_, ?_, ?_⟩
  · cases inputs with
    | nil => exact absurd rfl hne
    | cons i rest =>
      have hstep := get_or_create_author_step (o := i.2.2)
        (hsame i (List.mem_cons_self _ _)) hwf
      rw [List.foldl_cons]
      exact get_or_create_author_foldl_stable rest _
        (fun j hj => hsame j (List.mem_cons_of_mem _ hj)) hstep.1
  · intro db d n o a0 h
    exact get_or_create_author_found h
  · intro db d n o h
    obtain ⟨h1, h2, -⟩ := get_or_create_author_created (o := o) h
    exact ⟨h1, h2⟩

/-- Witness for C7: three equivalent spellings of one author name, folded into
an empty store, leave exactly one stored Author. -/
theorem get_or_create_author_identity_witness :
    (([("Alice", (none : Option String), (none : Option String)),
       ("  ALICE ", none, none), ("alice", some "Alice", none)] : List _) ≠ [] ∧
      (∀ i ∈ ([("Alice", (none : Option String), (none : Option String)),
       ("  ALICE ", none, none), ("alice", some "Alice", none)] : List _),
        authorNorm i.1 i.2.1 = "alice") ∧
      (emptyDB.authors.map (fun a => a.normalized_name)).Nodup) ∧
    ((([("Alice", (none : Option String), (none : Option String)),
       ("  ALICE ", none, none), ("alice", some "Alice", none)] : List _).foldl
        (fun d i => (get_or_create_author d i.1 i.2.1 i.2.2).1) emptyDB).authors.filter
        (fun a => decide (a.normalized_name = "alice"))).length = 1 :=
  ⟨⟨by decide, by decide, by decide⟩,
    (get_or_create_author_identity emptyDB
      [("Alice", none, none), ("  ALICE ", none, none), ("alice", some "Alice", none)]
      "alice" (by decide) (by decide) (by decide)).1⟩

/-! ## Frame lemmas: the entity-store operations leave works/links untouched -/

lemma nonEntEq_self {d : DB} : NonEntEq d d :=
  ⟨rfl, rfl, rfl, rfl, rfl, rfl, rfl, rfl, rfl⟩

lemma NonEntEq.trans {d1 d2 d3 : DB} (h1 : NonEntEq d1 d2) (h2 : NonEntEq d2 d3) :
    NonEntEq d1 d3 :=
  ⟨h2.works.trans h1.works, h2.work_authors.trans h1.work_authors,
   h2.work_affiliations.trans h1.work_affiliations,
   h2.work_keywords.trans h1.work_keywords,
   h2.coauthor_edges.trans h1.coauthor_edges, h2.org_edges.trans h1.org_edges,
   h2.nation_edges.trans h1.nation_edges, h2.merge_log.trans h1.merge_log,
   h2.next_work_id.trans h1.next_work_id⟩

lemma get_or_create_venue_nonent (db : DB) (n v i p : Option String) :
    NonEntEq db (get_or_create_venue db n v i p).1 := by
  simp only [get_or_create_venue]
  split
  · exact nonEntEq_self
  · split
    · exact nonEntEq_self
    · exact ⟨rfl, rfl, rfl, rfl, rfl, rfl, rfl, rfl, rfl⟩

lemma get_or_create_author_nonent (db : DB) (d : String) (n o : Option String) :
    NonEntEq db (get_or_create_author db d n o).1 := by
  simp only [get_or_create_author]
  split
  · exact nonEntEq_self
  · exact ⟨rfl, rfl, rfl, rfl, rfl, rfl, rfl, rfl, rfl⟩

lemma get_or_create_org_nonent (db : DB) (n : String) (c ci : Option String) :
    NonEntEq db (get_or_create_org db n c ci).1 := by
  simp only [get_or_create_org]
  split
  · exact nonEntEq_self
  · exact ⟨rfl, rfl, rfl, rfl, rfl, rfl, rfl, rfl, rfl⟩

lemma get_or_create_keyword_nonent (db : DB) (t : String) (d v : Option String) :
    NonEntEq db (get_or_create_keyword db t d v).1 := by
  simp only [get_or_create_keyword]
  split
  · exact nonEntEq_self
  · exact ⟨rfl, rfl, rfl, rfl, rfl, rfl, rfl, rfl, rfl⟩

lemma addAffiliations_nonent :
    ∀ (insts : List OAInstitution) (db : DB) (wid aid : Nat) (yr : Option Int),
    NonEntEq db (addAffiliations db wid aid yr insts).1
  | [], _, _, _, _ => nonEntEq_self
  | inst :: rest, db, wid, aid, yr => by
    simp only [addAffiliations]
    split
    · exact NonEntEq.trans (get_or_create_org_nonent db _ _ _)
        (addAffiliations_nonent rest _ wid aid yr)
    · exact addAffiliations_nonent rest _ wid aid yr

lemma addAuthorships_nonent :
    ∀ (entries : List OAAuthorship) (db : DB) (wid : Nat) (yr : Option Int) (idx : Nat),
    NonEntEq db (addAuthorships db wid yr idx entries).1
  | [], _, _, _, _ => nonEntEq_self
  | auth :: rest, db, wid, yr, idx => by
    simp only [addAuthorships]
    exact NonEntEq.trans
      (NonEntEq.trans (get_or_create_author_nonent db _ _ _) (addAffiliations_nonent _ _ _ _ _))
      (addAuthorships_nonent rest _ wid yr (idx + 1))

lemma addConcepts_nonent :
    ∀ (cs : List OAConcept) (db : DB) (wid : Nat),
    NonEntEq db (addConcepts db wid cs).1
  | [], _, _ => nonEntEq_self
  | c :: rest, db, wid => by
    simp only [addConcepts]
    exact NonEntEq.trans (get_or_create_keyword_nonent db _ _ _)
      (addConcepts_nonent rest _ wid)

/-! ## The stored abstract (C9) -/

lemma mem_of_findExistingWork {db : DB} {w : OAWork} {e : Work}
    (h : findExistingWork db w = some e) : e ∈ db.works := by
  unfold findExistingWork at h
  rcases hd : doiOf w with - | d
  · rw [hd] at h
    simp only at h
    split at h
    · exact List.mem_of_find?_eq_some h
    · cases h
  · rw [hd] at h
    simp only at h
    rcases hf : db.works.find? (fun wk => decide (wk.doi = some d)) with - | e0
    · rw [hf] at h
      simp only at h
      split at h
      · exact List.mem_of_find?_eq_some h
      · cases h
    · rw [hf] at h
      simp only at h
      cases h
      exact List.mem_of_find?_eq_some hf

lemma upsert_stores_abstract (db : DB) (w : OAWork) :
    ∃ wk ∈ (upsert_work_from_openalex db w).1.works,
      wk.id = (upsert_work_from_openalex db w).2 ∧ wk.abstract = abstractOf w := by
  unfold upsert_work_from_openalex
  simp only
  set dbv := (if pyStr (hostVenueFields w).1 = true then
      get_or_create_venue db (hostVenueFields w).1 (hostVenueFields w).2.1
        (hostVenueFields w).2.2.1 (hostVenueFields w).2.2.2
    else (db, none)) with hdbv
  split
  · next e heq =>
    have hmem := mem_of_findExistingWork heq
    refine ⟨{ e with
                title := orElseStr w.title "(untitled)",
                abstract := abstractOf w,
                year := yearOf w,
                venue_id := Option.map (fun v => v.id) dbv.2,
                url := urlOf w,
                wtype := w.wtype,
                language := w.language }, ?_, rfl, rfl⟩
    rw [(addConcepts_nonent _ _ _).works, (addAuthorships_nonent _ _ _ _ _).works]
    exact List.mem_map.mpr ⟨e, hmem, by rw [if_pos rfl]⟩
  · next heq =>
    refine ⟨⟨dbv.1.next_work_id, doiOf w, w.id, orElseStr w.title "(untitled)",
        abstractOf w, yearOf w, Option.map (fun v => v.id) dbv.2, urlOf w,
        w.wtype, w.language, some "OpenAlex"⟩, ?_, rfl, rfl⟩
    rw [(addConcepts_nonent _ _ _).works, (addAuthorships_nonent _ _ _ _ _).works]
    exact List.mem_append.mpr (Or.inr (List.mem_cons_self _ _))

lemma abstractOf_inverted {w : OAWork} {inv : List (String × List Nat)}
    (habs : w.abstract = none) (hinv : w.abstract_inverted_index = some inv) :
    abstractOf w = if invPairs inv = [] then none
      else some (String.intercalate " " ((invTokens inv).map (fun t => t.2))) := by
  unfold abstractOf invTokens
  rw [habs, hinv]
  simp only
  have hperm := List.perm_insertionSort (fun p q : Nat × String => p.1 ≤ q.1) (invPairs inv)
  by_cases hp : invPairs inv = []
  · rw [if_pos hp]
    have hlen : (List.insertionSort (fun p q : Nat × String => p.1 ≤ q.1)
        (invPairs inv)).length = 0 := by
      rw [hperm.length_eq, hp]
      rfl
    rw [List.length_eq_zero.mp hlen]
    rfl
  · rw [if_neg hp]
    have hne : List.insertionSort (fun p q : Nat × String => p.1 ≤ q.1) (invPairs inv) ≠ [] := by
      intro h
      apply hp
      have hlen := hperm.length_eq
      rw [h] at hlen
      exact List.length_eq_zero.mp hlen.symm
    cases ht : List.insertionSort (fun p q : Nat × String => p.1 ≤ q.1) (invPairs inv) with
    | nil => exact absurd ht hne
    | cons a t => rfl

lemma invTokens_eq_of_sorted {inv : List (String × List Nat)} {l : List (Nat × String)}
    (hnd : ((invPairs inv).map (fun p => p.1)).Nodup)
    (hperm : l.Perm (invPairs inv))
    (hsort : l.Pairwise (fun p q => p.1 ≤ q.1)) :
    invTokens inv = l := by
  have hptok : (invTokens inv).Perm (invPairs inv) := List.perm_insertionSort _ _
  have hsort2 : (invTokens inv).Pairwise (fun p q => p.1 ≤ q.1) :=
    List.sorted_insertionSort _ _
  have hnd1 : (l.map (fun p => p.1)).Nodup :=
    ((hperm.map (fun p => p.1)).nodup_iff).mpr hnd
  have hnd2 : ((invTokens inv).map (fun p => p.1)).Nodup :=
    ((hptok.map (fun p => p.1)).nodup_iff).mpr hnd
  have hs1 : l.Pairwise (fun p q => p.1 < q.1) :=
    (hsort.and (List.pairwise_map.mp hnd1)).imp
      (fun h => Nat.lt_of_le_of_ne h.1 h.2)
  have hs2 : (invTokens inv).Pairwise (fun p q => p.1 < q.1) :=
    (hsort2.and (List.pairwise_map.mp hnd2)).imp
      (fun h => Nat.lt_of_le_of_ne h.1 h.2)
  exact List.eq_of_perm_of_sorted (hptok.trans hperm.symm) hs2 hs1

/-- C9 (amended): when a record has no plain-text abstract but carries an
inverted index whose positions are pairwise distinct, upsert stores as the
Work's abstract the words of the collected `(position, word)` pairs sorted
ascending by position and joined by single spaces — provided at least one pair
was collected; when the collected pair list is empty the stored abstract is
null, not the empty string (see `abstract_reconstruction_cex`). -/
theorem abstract_reconstruction (db : DB) (w : OAWork)
    (inv : List (String × List Nat)) (l : List (Nat × String))
    (habs : w.abstract = none) (hinv : w.abstract_inverted_index = some inv)
    (hnd : ((invPairs inv).map (fun p => p.1)).Nodup)
    (hperm : l.Perm (invPairs inv))
    (hsort : l.Pairwise (fun p q => p.1 ≤ q.1)) :
    (invPairs inv ≠ [] →
      ∃ wk ∈ (upsert_work_from_openalex db w).1.works,
        wk.id = (upsert_work_from_openalex db w).2 ∧
        wk.abstract = some (String.intercalate " " (l.map (fun t => t.2)))) ∧
    (invPairs inv = [] →
      ∃ wk ∈ (upsert_work_from_openalex db w).1.works,
        wk.id = (upsert_work_from_openalex db w).2 ∧ wk.abstract = none) := by
  obtain ⟨wk, hwk, hid, habs'⟩ := upsert_stores_abstract db w
  rw [abstractOf_inverted habs hinv] at habs'
  constructor
  · intro hne
    rw [if_neg hne, invTokens_eq_of_sorted hnd hperm hsort] at habs'
    exact ⟨wk, hwk, hid, habs'⟩
  · intro hez
    rw [if_pos hez] at habs'
    exact ⟨wk, hwk, hid, habs'⟩

/-- Counterexample for C9 as stated: for a record carrying an empty inverted
index (each term mapped to a list of positions, vacuously), the code stores a
null abstract where the claim's "text obtained by joining" is the empty
string. -/
theorem abstract_reconstruction_cex :
    ((upsert_work_from_openalex emptyDB recInvEmpty).1.works.map (fun wk => wk.abstract))
      = [none] ∧ (none : Option String) ≠ some "" :=
  ⟨by decide, by decide⟩

/-- Witness for C9 (amended): the two-word inverted index `{world: [1],
hello: [0]}` is stored as "hello world". -/
theorem abstract_reconstruction_witness :
    (recInv.abstract = none ∧
      recInv.abstract_inverted_index = some [("world", [1]), ("hello", [0])] ∧
      (((invPairs [("world", [1]), ("hello", [0])]).map (fun p => p.1)).Nodup) ∧
      ([(0, "hello"), (1, "world")] : List (Nat × String)).Perm
        (invPairs [("world", [1]), ("hello", [0])]) ∧
      ([(0, "hello"), (1, "world")] : List (Nat × String)).Pairwise
        (fun p q => p.1 ≤ q.1) ∧
      invPairs [("world", [1]), ("hello", [0])] ≠ []) ∧
    ∃ wk ∈ (upsert_work_from_openalex emptyDB recInv).1.works,
      wk.id = (upsert_work_from_openalex emptyDB recInv).2 ∧
      wk.abstract = some (String.intercalate " "
        (([(0, "hello"), (1, "world")] : List (Nat × String)).map (fun t => t.2))) :=
  ⟨⟨by decide, by decide, by decide, by decide, by decide, by decide⟩,
    (abstract_reconstruction emptyDB recInv [("world", [1]), ("hello", [0])]
      [(0, "hello"), (1, "world")] (by decide) (by decide) (by decide) (by decide)
      (by decide)).1 (by decide)⟩

/-! ## Match-key resolution and per-key uniqueness (C8) -/

lemma upsert_venue_step_works (db : DB) (w : OAWork) :
    (if pyStr (hostVenueFields w).1 = true then
        get_or_create_venue db (hostVenueFields w).1 (hostVenueFields w).2.1
          (hostVenueFields w).2.2.1 (hostVenueFields w).2.2.2
      else (db, none)).1.works = db.works := by
  split
  · exact (get_or_create_venue_nonent _ _ _ _ _).works
  · rfl

lemma findExistingWork_some_of_doi {db : DB} {w : OAWork} {d : String} {e : Work}
    (hd : doiOf w = some d)
    (hfind : db.works.find? (fun wk => decide (wk.doi = some d)) = some e) :
    findExistingWork db w = some e := by
  unfold findExistingWork
  rw [hd]
  simp only
  rw [hfind]

lemma findExistingWork_none_doi {db : DB} {w : OAWork}
    (h : findExistingWork db w = none) :
    ∀ d, doiOf w = some d → ∀ wk ∈ db.works, wk.doi ≠ some d := by
  intro d hd wk hwk
  unfold findExistingWork at h
  rw [hd] at h
  simp only at h
  rcases hf : db.works.find? (fun wk => decide (wk.doi = some d)) with - | e0
  · have := List.find?_eq_none.mp hf wk hwk
    rwa [decide_eq_true_eq] at this
  · rw [hf] at h
    simp only at h
    cases h

lemma findExistingWork_none_uid {db : DB} {w : OAWork}
    (h : findExistingWork db w = none) (hu : pyStr w.id = true) :
    ∀ wk ∈ db.works, ¬(wk.source_uid = w.id ∧ wk.source = some "OpenAlex") := by
  intro wk hwk
  unfold findExistingWork at h
  rcases hd : doiOf w with - | d
  · rw [hd] at h
    simp only at h
    rw [if_pos hu] at h
    have := List.find?_eq_none.mp h wk hwk
    rwa [decide_eq_true_eq] at this
  · rw [hd] at h
    simp only at h
    rcases hf : db.works.find? (fun wk => decide (wk.doi = some d)) with - | e0
    · rw [hf] at h
      simp only at h
      rw [if_pos hu] at h
      have := List.find?_eq_none.mp h wk hwk
      rwa [decide_eq_true_eq] at this
    · rw [hf] at h
      simp only at h
      cases h

lemma findExistingWork_congr {d1 d2 : DB} (w : OAWork) (h : d1.works = d2.works) :
    findExistingWork d1 w = findExistingWork d2 w := by
  unfold findExistingWork
  rw [h]

lemma eq_of_mem_id_nodup {l : List Work} (h : (l.map (fun wk => wk.id)).Nodup)
    {e wk : Work} (he : e ∈ l) (hwk : wk ∈ l) (hid : wk.id = e.id) : wk = e := by
  induction l with
  | nil => cases he
  | cons a t ih =>
    simp only [List.map_cons, List.nodup_cons] at h
    rcases List.mem_cons.mp he with rfl | he'
    · rcases List.mem_cons.mp hwk with rfl | hwk'
      · rfl
      · exact absurd (hid ▸ List.mem_map_of_mem (fun x => x.id) hwk') h.1
    · rcases List.mem_cons.mp hwk with rfl | hwk'
      · exact absurd (hid ▸ List.mem_map_of_mem (fun x => x.id) he') (fun hc => h.1 hc)
      · exact ih h.2 he' hwk'

/-- C8 (amended): the upsert match key prefers the doi — whenever the record's
(lowercased) doi matches an existing Work, that Work is the one updated,
regardless of any `(source_uid, source)` match — and upsert preserves
uniqueness of Works per non-null doi and per `(source_uid, source)` pair with
a truthy (non-null, non-empty) source id.  (Records whose source id is null or
empty are exempt: re-upserting such a record inserts a second Work with the
same null pair, see `upsert_match_key_cex`.) -/
theorem upsert_match_key (db : DB) (w : OAWork)
    (hids : (db.works.map (fun wk => wk.id)).Nodup) :
    (∀ d e, doiOf w = some d →
      db.works.find? (fun wk => decide (wk.doi = some d)) = some e →
      (upsert_work_from_openalex db w).2 = e.id) ∧
    (DoiUnique db → DoiUnique (upsert_work_from_openalex db w).1) ∧
    (UidUnique db → UidUnique (upsert_work_from_openalex db w).1) := by
  have hvw := upsert_venue_step_works db w
  refine ⟨?_, ?_, ?_⟩
  · intro d e hd hfind
    unfold upsert_work_from_openalex
    simp only
    have hex : findExistingWork (if pyStr (hostVenueFields w).1 = true then
        get_or_create_venue db (hostVenueFields w).1 (hostVenueFields w).2.1
          (hostVenueFields w).2.2.1 (hostVenueFields w).2.2.2
      else (db, none)).1 w = some e := by
      apply findExistingWork_some_of_doi hd
      rw [hvw]
      exact hfind
    split
    · next e' heq =>
      rw [hex] at heq
      cases heq
      rfl
    · next heq =>
      rw [hex] at heq
      cases heq
  · intro hDU
    unfold DoiUnique at hDU ⊢
    unfold upsert_work_from_openalex
    simp only
    split
    · next e heq =>
      rw [(addConcepts_nonent _ _ _).works, (addAuthorships_nonent _ _ _ _ _).works]
      simp only [hvw]
      have hmem : e ∈ db.works := by
        have := mem_of_findExistingWork heq
        rwa [hvw] at this
      rw [List.pairwise_map]
      refine hDU.imp_of_mem ?_
      intro w1 w2 hw1 hw2 hR d hd1 hd2
      have hd1' : w1.doi = some d := by
        by_cases h1 : w1.id = e.id
        · have hw1e := eq_of_mem_id_nodup hids hmem hw1 h1
          rw [if_pos h1] at hd1
          rw [hw1e]
          exact hd1
        · rwa [if_neg h1] at hd1
      have hd2' : w2.doi = some d := by
        by_cases h2 : w2.id = e.id
        · have hw2e := eq_of_mem_id_nodup hids hmem hw2 h2
          rw [if_pos h2] at hd2
          rw [hw2e]
          exact hd2
        · rwa [if_neg h2] at hd2
      exact hR d hd1' hd2'
    · next heq =>
      rw [(addConcepts_nonent _ _ _).works, (addAuthorships_nonent _ _ _ _ _).works]
      simp only [hvw]
      rw [List.pairwise_append]
      refine ⟨hDU, List.pairwise_singleton _ _, ?_⟩
      intro w1 hw1 w2 hw2 d hd1 hd2
      rw [List.mem_singleton] at hw2
      subst hw2
      have hnone : findExistingWork db w = none := by
        rw [findExistingWork_congr w hvw] at heq
        exact heq
      have hdw : doiOf w = some d := hd2
      exact findExistingWork_none_doi hnone d hdw w1 hw1 hd1
  · intro hUU
    unfold UidUnique at hUU ⊢
    unfold upsert_work_from_openalex
    simp only
    split
    · next e heq =>
      rw [(addConcepts_nonent _ _ _).works, (addAuthorships_nonent _ _ _ _ _).works]
      simp only [hvw]
      have hmem : e ∈ db.works := by
        have := mem_of_findExistingWork heq
        rwa [hvw] at this
      rw [List.pairwise_map]
      refine hUU.imp_of_mem ?_
      intro w1 w2 hw1 hw2 hR u s hu hu1 hs1 hcon
      have hu1' : w1.source_uid = some u := by
        by_cases h1 : w1.id = e.id
        · have hw1e := eq_of_mem_id_nodup hids hmem hw1 h1
          rw [if_pos h1] at hu1
          rw [hw1e]
          exact hu1
        · rwa [if_neg h1] at hu1
      have hs1' : w1.source = some s := by
        by_cases h1 : w1.id = e.id
        · have hw1e := eq_of_mem_id_nodup hids hmem hw1 h1
          rw [if_pos h1] at hs1
          rw [hw1e]
          exact hs1
        · rwa [if_neg h1] at hs1
      have hcon' : w2.source_uid = some u ∧ w2.source = some s := by
        by_cases h2 : w2.id = e.id
        · have hw2e := eq_of_mem_id_nodup hids hmem hw2 h2
          rw [if_pos h2] at hcon
          rw [hw2e]
          exact ⟨hcon.1, hcon.2⟩
        · rwa [if_neg h2] at hcon
      exact hR u s hu hu1' hs1' hcon'
    · next heq =>
      rw [(addConcepts_nonent _ _ _).works, (addAuthorships_nonent _ _ _ _ _).works]
      simp only [hvw]
      rw [List.pairwise_append]
      refine ⟨hUU, List.pairwise_singleton _ _, ?_⟩
      intro w1 hw1 w2 hw2 u s hu hu1 hs1 hcon
      rw [List.mem_singleton] at hw2
      subst hw2
      have hnone : findExistingWork db w = none := by
        rw [findExistingWork_congr w hvw] at heq
        exact heq
      have hu2 : w.id = some u := hcon.1
      have hs2 : (some "OpenAlex" : Option String) = some s := hcon.2
      have hpy : pyStr w.id = true := by
        rw [hu2]
        simpa [pyStr] using hu
      exact findExistingWork_none_uid hnone hpy w1 hw1
        ⟨by rw [hu1, hu2], by rw [hs1]; exact hs2.symm⟩

/-- C8 counterexample to the unamended uniqueness reading: a record whose doi
and source id are both null inserts a fresh Work on every upsert, so two Works
end up sharing the `(source_uid, source)` pair `(null, "OpenAlex")`. -/
theorem upsert_match_key_cex :
    ((upsert_work_from_openalex (upsert_work_from_openalex emptyDB emptyOAWork).1
        emptyOAWork).1.works.map (fun wk => (wk.source_uid, wk.source))) =
      [(none, some "OpenAlex"), (none, some "OpenAlex")] := by
  decide

theorem upsert_match_key_witness :
    (dbC8.works.map (fun wk => wk.id)).Nodup ∧
      (upsert_work_from_openalex dbC8 recC8).2 = 1 := by
  refine ⟨by decide, ?_⟩
  exact (upsert_match_key dbC8 recC8 (by decide)).1 "10.1/x"
    ⟨1, some "10.1/x", some "https://openalex.org/WA", "t1", none, none, none,
      none, none, none, some "OpenAlex"⟩ (by decide) (by decide)

/-! ## Highlight-mode node sets (C4) -/

lemma mem_sortStr {l : List String} {x : String} : x ∈ sortStr l ↔ x ∈ l :=
  (List.perm_insertionSort (fun a b => strLe a b = true) l).mem_iff

lemma mkAuthorNode_eq_some {db : DB} {fl : List FocusId} {a_id : Nat} {nd : GNode}
    (h : mkAuthorNode db fl a_id = some nd) :
    ∃ a ∈ db.authors, a.id = a_id ∧ nd.id = "A" ++ toString a.id := by
  unfold mkAuthorNode at h
  rcases hf : db.authors.find? (fun a => decide (a.id = a_id)) with - | a
  · rw [hf] at h
    cases h
  · rw [hf, Option.map_some'] at h
    injection h with h
    subst h
    refine ⟨a, List.mem_of_find?_eq_some hf, ?_, rfl⟩
    simpa using List.find?_some hf

lemma mkAuthorNode_exists {db : DB} (fl : List FocusId) {a : Author} (ha : a ∈ db.authors) :
    ∃ nd, mkAuthorNode db fl a.id = some nd ∧ nd.id = "A" ++ toString a.id := by
  unfold mkAuthorNode
  rcases hf : db.authors.find? (fun x => decide (x.id = a.id)) with - | a'
  · exact absurd (by simp) (List.find?_eq_none.mp hf a ha)
  · have hid : a'.id = a.id := by simpa using List.find?_some hf
    rw [hf]
    exact ⟨_, rfl, by simp [hid]⟩

lemma mkOrgNode_eq_some {db : DB} {fl : List FocusId} {oid : Nat} {nd : GNode}
    (h : mkOrgNode db fl oid = some nd) :
    ∃ o ∈ db.organizations, o.id = oid ∧ nd.id = "O" ++ toString oid := by
  unfold mkOrgNode at h
  rcases hf : db.organizations.find? (fun o => decide (o.id = oid)) with - | o
  · rw [hf] at h
    cases h
  · rw [hf, Option.map_some'] at h
    injection h with h
    subst h
    refine ⟨o, List.mem_of_find?_eq_some hf, ?_, rfl⟩
    simpa using List.find?_some hf

lemma mkOrgNode_exists {db : DB} (fl : List FocusId) {o : Organization}
    (ho : o ∈ db.organizations) :
    ∃ nd, mkOrgNode db fl o.id = some nd ∧ nd.id = "O" ++ toString o.id := by
  unfold mkOrgNode
  rcases hf : db.organizations.find? (fun x => decide (x.id = o.id)) with - | o'
  · exact absurd (by simp) (List.find?_eq_none.mp hf o ho)
  · rw [hf]
    exact ⟨_, rfl, rfl⟩

lemma buildAuthors_highlight (db : DB) (ymin ymax : Option Int) (emw : ℚ)
    (fl : List FocusId) (hv : validAuthorFocus db fl ≠ []) (s : String) :
    (∃ nd ∈ (buildAuthors db ymin ymax emw fl false).nodes, nd.id = s) ↔
    (∃ a ∈ db.authors, s = "A" ++ toString a.id ∧
      (a.id ∈ yearAuthorIds db ymin ymax ∨ a.id ∈ validAuthorFocus db fl)) := by
  have hfl : fl ≠ [] := by
    intro h
    apply hv
    rw [h]
    rfl
  have hnodes : (buildAuthors db ymin ymax emw fl false).nodes =
      ((yearAuthorIds db ymin ymax ++ validAuthorFocus db fl).dedup).filterMap
        (mkAuthorNode db fl) := by
    simp only [buildAuthors]
    rw [if_pos hfl, if_neg hv, if_neg Bool.false_ne_true]
  rw [hnodes]
  constructor
  · rintro ⟨nd, hnd, rfl⟩
    rcases List.mem_filterMap.mp hnd with ⟨a_id, hmem, hmk⟩
    rcases mkAuthorNode_eq_some hmk with ⟨a, ha, hid, hnid⟩
    refine ⟨a, ha, hnid, ?_⟩
    rw [hid]
    exact List.mem_append.mp (List.mem_dedup.mp hmem)
  · rintro ⟨a, ha, rfl, hor⟩
    rcases mkAuthorNode_exists fl ha with ⟨nd, hmk, hnid⟩
    exact ⟨nd, List.mem_filterMap.mpr ⟨a.id,
      List.mem_dedup.mpr (List.mem_append.mpr hor), hmk⟩, hnid⟩

lemma buildOrgs_highlight (db : DB) (ymin ymax : Option Int) (emw : ℚ)
    (fl : List FocusId) (hv : validOrgFocus db fl ≠ []) (s : String) :
    (∃ nd ∈ (buildOrgs db ymin ymax emw fl false).nodes, nd.id = s) ↔
    (∃ o ∈ db.organizations, s = "O" ++ toString o.id ∧
      (o.id ∈ yearOrgIds db ymin ymax ∨ o.id ∈ validOrgFocus db fl)) := by
  have hfl : fl ≠ [] := by
    intro h
    apply hv
    rw [h]
    rfl
  have hnodes : (buildOrgs db ymin ymax emw fl false).nodes =
      (sortNat ((yearOrgIds db ymin ymax ++ validOrgFocus db fl).dedup).dedup).filterMap
        (mkOrgNode db fl) := by
    simp only [buildOrgs]
    rw [if_pos hfl, if_neg hv, if_neg Bool.false_ne_true]
  rw [hnodes]
  constructor
  · rintro ⟨nd, hnd, rfl⟩
    rcases List.mem_filterMap.mp hnd with ⟨oid, hmem, hmk⟩
    rcases mkOrgNode_eq_some hmk with ⟨o, ho, hid, hnid⟩
    refine ⟨o, ho, by rw [hnid, hid], ?_⟩
    rw [hid]
    exact List.mem_append.mp (List.mem_dedup.mp (List.mem_dedup.mp (mem_sortNat.mp hmem)))
  · rintro ⟨o, ho, rfl, hor⟩
    rcases mkOrgNode_exists fl ho with ⟨nd, hmk, hnid⟩
    exact ⟨nd, List.mem_filterMap.mpr ⟨o.id, mem_sortNat.mpr (List.mem_dedup.mpr
      (List.mem_dedup.mpr (List.mem_append.mpr hor))), hmk⟩, hnid⟩

lemma buildNations_highlight (db : DB) (ymin ymax : Option Int) (emw : ℚ)
    (fl : List FocusId) (hv : validNationFocus fl ≠ []) (s : String) :
    (∃ nd ∈ (buildNations db ymin ymax emw fl false).nodes, nd.id = s) ↔
    (∃ n, s = "N" ++ n ∧ (n ∈ yearNations db ymin ymax ∨ n ∈ validNationFocus fl)) := by
  have hfl : fl ≠ [] := by
    intro h
    apply hv
    rw [h]
    rfl
  have hnodes : (buildNations db ymin ymax emw fl false).nodes =
      (sortStr ((yearNations db ymin ymax ++ validNationFocus fl).dedup).dedup).map
        (mkNationNode fl) := by
    simp only [buildNations]
    rw [if_pos hfl, if_neg hv, if_neg Bool.false_ne_true]
  rw [hnodes]
  constructor
  · rintro ⟨nd, hnd, rfl⟩
    rcases List.mem_map.mp hnd with ⟨n, hn, rfl⟩
    exact ⟨n, rfl,
      List.mem_append.mp (List.mem_dedup.mp (List.mem_dedup.mp (mem_sortStr.mp hn)))⟩
  · rintro ⟨n, rfl, hor⟩
    exact ⟨mkNationNode fl n, List.mem_map_of_mem _ (mem_sortStr.mpr (List.mem_dedup.mpr
      (List.mem_dedup.mpr (List.mem_append.mpr hor)))), rfl⟩

/-- C4 (amended): with focus_only = false and a non-empty resolved focus, the
authors, orgs and nations layers return exactly the nodes of (entities passing
the year filter) ∪ (the resolved focus ids): focus ids are retained even when
none of their Works pass the year filter, and nothing else is added.  The
keywords layer does not obey this rule — it never force-includes focus
keywords (see the counterexample). -/
theorem graph_highlight_nodes (db : DB) (ymin ymax : Option Int) (emw : ℚ)
    (fl : List FocusId) :
    (validAuthorFocus db fl ≠ [] → ∀ s,
      (∃ nd ∈ (build_graph db "authors" ymin ymax emw (some fl) false).nodes, nd.id = s) ↔
      (∃ a ∈ db.authors, s = "A" ++ toString a.id ∧
        (a.id ∈ yearAuthorIds db ymin ymax ∨ a.id ∈ validAuthorFocus db fl))) ∧
    (validOrgFocus db fl ≠ [] → ∀ s,
      (∃ nd ∈ (build_graph db "orgs" ymin ymax emw (some fl) false).nodes, nd.id = s) ↔
      (∃ o ∈ db.organizations, s = "O" ++ toString o.id ∧
        (o.id ∈ yearOrgIds db ymin ymax ∨ o.id ∈ validOrgFocus db fl))) ∧
    (validNationFocus fl ≠ [] → ∀ s,
      (∃ nd ∈ (build_graph db "nations" ymin ymax emw (some fl) false).nodes, nd.id = s) ↔
      (∃ n, s = "N" ++ n ∧ (n ∈ yearNations db ymin ymax ∨ n ∈ validNationFocus fl))) := by
  have hga : build_graph db "authors" ymin ymax emw (some fl) false =
      buildAuthors db ymin ymax emw fl false := by
    simp [build_graph]
  have hgo : build_graph db "orgs" ymin ymax emw (some fl) false =
      buildOrgs db ymin ymax emw fl false := by
    simp [build_graph]
  have hgn : build_graph db "nations" ymin ymax emw (some fl) false =
      buildNations db ymin ymax emw fl false := by
    simp [build_graph]
  refine ⟨?_, ?_, ?_⟩
  · intro hv s
    rw [hga]
    exact buildAuthors_highlight db ymin ymax emw fl hv s
  · intro hv s
    rw [hgo]
    exact buildOrgs_highlight db ymin ymax emw fl hv s
  · intro hv s
    rw [hgn]
    exact buildNations_highlight db ymin ymax emw fl hv s

/-- C4 counterexample: keyword 1 exists and is a resolved focus id, yet the
keywords layer in highlight mode returns no node for it — the keyword branch
builds nodes only from keywords of year-passing Works. -/
theorem graph_highlight_nodes_cex :
    validKeywordFocus dbC4 [FocusId.nat 1] ≠ [] ∧
    (build_graph dbC4 "keywords" none none 0 (some [FocusId.nat 1]) false).nodes = [] := by
  exact ⟨by decide, by decide⟩

theorem graph_highlight_nodes_witness :
    validAuthorFocus dbC4w [FocusId.nat 1] ≠ [] ∧
    (∃ nd ∈ (build_graph dbC4w "authors" none none 0 (some [FocusId.nat 1]) false).nodes,
      nd.id = "A1") :=
  ⟨by decide, ((graph_highlight_nodes dbC4w none none 0 [FocusId.nat 1]).1 (by decide) "A1").mpr
    ⟨⟨1, "Ada", "ada", none⟩, by decide, by decide, Or.inr (by decide)⟩⟩

/-! ## Focus validation (C5) -/

lemma validAuthorFocus_mem_iff {db : DB} {fl : List FocusId} {n : Nat} :
    n ∈ validAuthorFocus db fl ↔
      FocusId.nat n ∈ fl ∧ db.authors.any (fun a => decide (a.id = n)) = true := by
  constructor
  · intro h
    rcases List.mem_filterMap.mp h with ⟨f, hf, hyf⟩
    cases f with
    | nat m =>
      have hyf' : (if db.authors.any (fun a => decide (a.id = m)) = true
          then some m else (none : Option Nat)) = some n := hyf
      by_cases hm : db.authors.any (fun a => decide (a.id = m)) = true
      · rw [if_pos hm] at hyf'
        injection hyf' with hyf'
        subst hyf'
        exact ⟨hf, hm⟩
      · rw [if_neg hm] at hyf'
        cases hyf'
    | str s =>
      have hyf' : (none : Option Nat) = some n := hyf
      cases hyf'
  · rintro ⟨hf, ha⟩
    refine List.mem_filterMap.mpr ⟨FocusId.nat n, hf, ?_⟩
    show (if db.authors.any (fun a => decide (a.id = n)) = true
        then some n else (none : Option Nat)) = some n
    rw [if_pos ha]

lemma validKeywordFocus_mem_iff {db : DB} {fl : List FocusId} {n : Nat} :
    n ∈ validKeywordFocus db fl ↔
      FocusId.nat n ∈ fl ∧ db.keywords.any (fun k => decide (k.id = n)) = true := by
  constructor
  · intro h
    rcases List.mem_filterMap.mp h with ⟨f, hf, hyf⟩
    cases f with
    | nat m =>
      have hyf' : (if db.keywords.any (fun k => decide (k.id = m)) = true
          then some m else (none : Option Nat)) = some n := hyf
      by_cases hm : db.keywords.any (fun k => decide (k.id = m)) = true
      · rw [if_pos hm] at hyf'
        injection hyf' with hyf'
        subst hyf'
        exact ⟨hf, hm⟩
      · rw [if_neg hm] at hyf'
        cases hyf'
    | str s =>
      have hyf' : (none : Option Nat) = some n := hyf
      cases hyf'
  · rintro ⟨hf, ha⟩
    refine List.mem_filterMap.mpr ⟨FocusId.nat n, hf, ?_⟩
    show (if db.keywords.any (fun k => decide (k.id = n)) = true
        then some n else (none : Option Nat)) = some n
    rw [if_pos ha]

lemma validOrgFocus_mem_iff {db : DB} {fl : List FocusId} {n : Nat} :
    n ∈ validOrgFocus db fl ↔
      FocusId.nat n ∈ fl ∧ db.organizations.any (fun o => decide (o.id = n)) = true := by
  constructor
  · intro h
    rcases List.mem_filterMap.mp h with ⟨f, hf, hyf⟩
    cases f with
    | nat m =>
      have hyf' : (if db.organizations.any (fun o => decide (o.id = m)) = true
          then some m else (none : Option Nat)) = some n := hyf
      by_cases hm : db.organizations.any (fun o => decide (o.id = m)) = true
      · rw [if_pos hm] at hyf'
        injection hyf' with hyf'
        subst hyf'
        exact ⟨hf, hm⟩
      · rw [if_neg hm] at hyf'
        cases hyf'
    | str s =>
      have hyf' : (none : Option Nat) = some n := hyf
      cases hyf'
  · rintro ⟨hf, ha⟩
    refine List.mem_filterMap.mpr ⟨FocusId.nat n, hf, ?_⟩
    show (if db.organizations.any (fun o => decide (o.id = n)) = true
        then some n else (none : Option Nat)) = some n
    rw [if_pos ha]

lemma validAuthorFocus_cons_nat (db : DB) (n : Nat) (t : List FocusId)
    (h : db.authors.any (fun a => decide (a.id = n)) = true) :
    validAuthorFocus db (FocusId.nat n :: t) = n :: validAuthorFocus db t := by
  have hex : ∃ x ∈ db.authors, x.id = n := by simpa using h
  simp [validAuthorFocus, hex]

lemma validKeywordFocus_cons_nat (db : DB) (n : Nat) (t : List FocusId)
    (h : db.keywords.any (fun k => decide (k.id = n)) = true) :
    validKeywordFocus db (FocusId.nat n :: t) = n :: validKeywordFocus db t := by
  have hex : ∃ x ∈ db.keywords, x.id = n := by simpa using h
  simp [validKeywordFocus, hex]

lemma validOrgFocus_cons_nat (db : DB) (n : Nat) (t : List FocusId)
    (h : db.organizations.any (fun o => decide (o.id = n)) = true) :
    validOrgFocus db (FocusId.nat n :: t) = n :: validOrgFocus db t := by
  have hex : ∃ x ∈ db.organizations, x.id = n := by simpa using h
  simp [validOrgFocus, hex]

lemma validAuthorFocus_map_nat (db : DB) : ∀ l : List Nat,
    (∀ n ∈ l, db.authors.any (fun a => decide (a.id = n)) = true) →
    validAuthorFocus db (l.map FocusId.nat) = l
  | [], _ => rfl
  | a :: t, h => by
    rw [List.map_cons, validAuthorFocus_cons_nat db a _ (h a (List.mem_cons_self a t)),
      validAuthorFocus_map_nat db t (fun n hn => h n (List.mem_cons_of_mem a hn))]

lemma validKeywordFocus_map_nat (db : DB) : ∀ l : List Nat,
    (∀ n ∈ l, db.keywords.any (fun k => decide (k.id = n)) = true) →
    validKeywordFocus db (l.map FocusId.nat) = l
  | [], _ => rfl
  | a :: t, h => by
    rw [List.map_cons, validKeywordFocus_cons_nat db a _ (h a (List.mem_cons_self a t)),
      validKeywordFocus_map_nat db t (fun n hn => h n (List.mem_cons_of_mem a hn))]

lemma validOrgFocus_map_nat (db : DB) : ∀ l : List Nat,
    (∀ n ∈ l, db.organizations.any (fun o => decide (o.id = n)) = true) →
    validOrgFocus db (l.map FocusId.nat) = l
  | [], _ => rfl
  | a :: t, h => by
    rw [List.map_cons, validOrgFocus_cons_nat db a _ (h a (List.mem_cons_self a t)),
      validOrgFocus_map_nat db t (fun n hn => h n (List.mem_cons_of_mem a hn))]

lemma mkAuthorNode_congr (db : DB) {fl fl' : List FocusId}
    (hne : (fl' ≠ []) ↔ (fl ≠ []))
    (hmem : ∀ a ∈ db.authors, ((FocusId.nat a.id ∈ fl') ↔ (FocusId.nat a.id ∈ fl)))
    (a_id : Nat) : mkAuthorNode db fl' a_id = mkAuthorNode db fl a_id := by
  unfold mkAuthorNode
  rcases hf : db.authors.find? (fun a => decide (a.id = a_id)) with - | a
  · rw [hf]
    rfl
  · have ha := List.mem_of_find?_eq_some hf
    have hid : a.id = a_id := by simpa using List.find?_some hf
    have hm : (FocusId.nat a_id ∈ fl') ↔ (FocusId.nat a_id ∈ fl) := by
      rw [← hid]
      exact hmem a ha
    rw [hf]
    simp only [Option.map_some']
    rw [if_congr (and_congr hne hm) rfl rfl, decide_eq_decide.mpr hm]

lemma mkKeywordNode_congr (db : DB) {fl fl' : List FocusId}
    (hne : (fl' ≠ []) ↔ (fl ≠ []))
    (hmem : ∀ k ∈ db.keywords, ((FocusId.nat k.id ∈ fl') ↔ (FocusId.nat k.id ∈ fl)))
    (counts : List (Nat × Nat)) (kid : Nat) :
    mkKeywordNode db fl' counts kid = mkKeywordNode db fl counts kid := by
  unfold mkKeywordNode
  rcases hf : db.keywords.find? (fun k => decide (k.id = kid)) with - | k
  · rw [hf]
    rfl
  · have hk := List.mem_of_find?_eq_some hf
    have hid : k.id = kid := by simpa using List.find?_some hf
    have hm : (FocusId.nat kid ∈ fl') ↔ (FocusId.nat kid ∈ fl) := by
      rw [← hid]
      exact hmem k hk
    rw [hf]
    simp only [Option.map_some']
    rw [if_congr (and_congr hne hm) rfl rfl, decide_eq_decide.mpr hm]

lemma mkOrgNode_congr (db : DB) {fl fl' : List FocusId}
    (hne : (fl' ≠ []) ↔ (fl ≠ []))
    (hmem : ∀ o ∈ db.organizations, ((FocusId.nat o.id ∈ fl') ↔ (FocusId.nat o.id ∈ fl)))
    (oid : Nat) : mkOrgNode db fl' oid = mkOrgNode db fl oid := by
  unfold mkOrgNode
  rcases hf : db.organizations.find? (fun o => decide (o.id = oid)) with - | o
  · rw [hf]
    rfl
  · have ho := List.mem_of_find?_eq_some hf
    have hid : o.id = oid := by simpa using List.find?_some hf
    have hm : (FocusId.nat oid ∈ fl') ↔ (FocusId.nat oid ∈ fl) := by
      rw [← hid]
      exact hmem o ho
    rw [hf]
    simp only [Option.map_some']
    rw [if_congr (and_congr hne hm) rfl rfl, decide_eq_decide.mpr hm]

lemma buildAuthors_drop (db : DB) (ymin ymax : Option Int) (emw : ℚ) (fo : Bool)
    (fl : List FocusId) (hv : validAuthorFocus db fl ≠ []) :
    buildAuthors db ymin ymax emw ((validAuthorFocus db fl).map FocusId.nat) fo =
      buildAuthors db ymin ymax emw fl fo := by
  have hfl : fl ≠ [] := by
    intro h
    apply hv
    rw [h]
    rfl
  have hfl' : (validAuthorFocus db fl).map FocusId.nat ≠ [] := by
    intro h
    exact hv (by simpa using h)
  have hva : validAuthorFocus db ((validAuthorFocus db fl).map FocusId.nat) =
      validAuthorFocus db fl :=
    validAuthorFocus_map_nat db _ (fun n hn => (validAuthorFocus_mem_iff.mp hn).2)
  have hmk : mkAuthorNode db ((validAuthorFocus db fl).map FocusId.nat) =
      mkAuthorNode db fl := by
    funext a_id
    refine mkAuthorNode_congr db (iff_of_true hfl' hfl) ?_ a_id
    intro a ha
    constructor
    · intro h
      rcases List.mem_map.mp h with ⟨n, hn, he⟩
      have hna : n = a.id := by injection he
      subst hna
      exact (validAuthorFocus_mem_iff.mp hn).1
    · intro h
      refine List.mem_map.mpr ⟨a.id, ?_, rfl⟩
      exact validAuthorFocus_mem_iff.mpr ⟨h, List.any_eq_true.mpr ⟨a, ha, by simp⟩⟩
  simp only [buildAuthors]
  rw [hva, hmk, if_pos hfl', if_pos hfl]

lemma buildKeywords_drop (db : DB) (ymin ymax : Option Int) (emw : ℚ) (fo : Bool)
    (fl : List FocusId) (hv : validKeywordFocus db fl ≠ []) :
    buildKeywords db ymin ymax emw ((validKeywordFocus db fl).map FocusId.nat) fo =
      buildKeywords db ymin ymax emw fl fo := by
  have hfl : fl ≠ [] := by
    intro h
    apply hv
    rw [h]
    rfl
  have hfl' : (validKeywordFocus db fl).map FocusId.nat ≠ [] := by
    intro h
    exact hv (by simpa using h)
  have hva : validKeywordFocus db ((validKeywordFocus db fl).map FocusId.nat) =
      validKeywordFocus db fl :=
    validKeywordFocus_map_nat db _ (fun n hn => (validKeywordFocus_mem_iff.mp hn).2)
  have hmk : mkKeywordNode db ((validKeywordFocus db fl).map FocusId.nat) =
      mkKeywordNode db fl := by
    funext counts kid
    refine mkKeywordNode_congr db (iff_of_true hfl' hfl) ?_ counts kid
    intro k hk
    constructor
    · intro h
      rcases List.mem_map.mp h with ⟨n, hn, he⟩
      have hnk : n = k.id := by injection he
      subst hnk
      exact (validKeywordFocus_mem_iff.mp hn).1
    · intro h
      refine List.mem_map.mpr ⟨k.id, ?_, rfl⟩
      exact validKeywordFocus_mem_iff.mpr ⟨h, List.any_eq_true.mpr ⟨k, hk, by simp⟩⟩
  simp only [buildKeywords]
  rw [hva, hmk, if_pos hfl', if_pos hfl]

lemma buildOrgs_drop (db : DB) (ymin ymax : Option Int) (emw : ℚ) (fo : Bool)
    (fl : List FocusId) (hv : validOrgFocus db fl ≠ []) :
    buildOrgs db ymin ymax emw ((validOrgFocus db fl).map FocusId.nat) fo =
      buildOrgs db ymin ymax emw fl fo := by
  have hfl : fl ≠ [] := by
    intro h
    apply hv
    rw [h]
    rfl
  have hfl' : (validOrgFocus db fl).map FocusId.nat ≠ [] := by
    intro h
    exact hv (by simpa using h)
  have hva : validOrgFocus db ((validOrgFocus db fl).map FocusId.nat) =
      validOrgFocus db fl :=
    validOrgFocus_map_nat db _ (fun n hn => (validOrgFocus_mem_iff.mp hn).2)
  have hmk : mkOrgNode db ((validOrgFocus db fl).map FocusId.nat) =
      mkOrgNode db fl := by
    funext oid
    refine mkOrgNode_congr db (iff_of_true hfl' hfl) ?_ oid
    intro o ho
    constructor
    · intro h
      rcases List.mem_map.mp h with ⟨n, hn, he⟩
      have hno : n = o.id := by injection he
      subst hno
      exact (validOrgFocus_mem_iff.mp hn).1
    · intro h
      refine List.mem_map.mpr ⟨o.id, ?_, rfl⟩
      exact validOrgFocus_mem_iff.mpr ⟨h, List.any_eq_true.mpr ⟨o, ho, by simp⟩⟩
  simp only [buildOrgs]
  rw [hva, hmk, if_pos hfl', if_pos hfl]

lemma build_graph_authors (db : DB) (ymin ymax : Option Int) (emw : ℚ)
    (fx : List FocusId) (fo : Bool) :
    build_graph db "authors" ymin ymax emw (some fx) fo =
      buildAuthors db ymin ymax emw fx fo := by
  simp [build_graph]

lemma build_graph_keywords (db : DB) (ymin ymax : Option Int) (emw : ℚ)
    (fx : List FocusId) (fo : Bool) :
    build_graph db "keywords" ymin ymax emw (some fx) fo =
      buildKeywords db ymin ymax emw fx fo := by
  simp [build_graph]

lemma build_graph_orgs (db : DB) (ymin ymax : Option Int) (emw : ℚ)
    (fx : List FocusId) (fo : Bool) :
    build_graph db "orgs" ymin ymax emw (some fx) fo =
      buildOrgs db ymin ymax emw fx fo := by
  simp [build_graph]

lemma build_graph_nations (db : DB) (ymin ymax : Option Int) (emw : ℚ)
    (fx : List FocusId) (fo : Bool) :
    build_graph db "nations" ymin ymax emw (some fx) fo =
      buildNations db ymin ymax emw fx fo := by
  simp [build_graph]

lemma buildAuthors_invalid (db : DB) (ymin ymax : Option Int) (emw : ℚ) (fo : Bool)
    (fl : List FocusId) (hfl : fl ≠ []) (hv : validAuthorFocus db fl = []) :
    buildAuthors db ymin ymax emw fl fo = ⟨[], []⟩ := by
  simp only [buildAuthors]
  rw [if_pos hfl, if_pos hv]

lemma buildKeywords_invalid (db : DB) (ymin ymax : Option Int) (emw : ℚ) (fo : Bool)
    (fl : List FocusId) (hfl : fl ≠ []) (hv : validKeywordFocus db fl = []) :
    buildKeywords db ymin ymax emw fl fo = ⟨[], []⟩ := by
  simp only [buildKeywords]
  rw [if_pos hfl, if_pos hv]

lemma buildOrgs_invalid (db : DB) (ymin ymax : Option Int) (emw : ℚ) (fo : Bool)
    (fl : List FocusId) (hfl : fl ≠ []) (hv : validOrgFocus db fl = []) :
    buildOrgs db ymin ymax emw fl fo = ⟨[], []⟩ := by
  simp only [buildOrgs]
  rw [if_pos hfl, if_pos hv]

lemma buildNations_invalid (db : DB) (ymin ymax : Option Int) (emw : ℚ) (fo : Bool)
    (fl : List FocusId) (hfl : fl ≠ []) (hv : validNationFocus fl = []) :
    buildNations db ymin ymax emw fl fo = ⟨[], []⟩ := by
  simp only [buildNations]
  rw [if_pos hfl, if_pos hv]

/-- C5 (amended): the authors, keywords and orgs layers silently drop every
supplied focus id that does not resolve to an existing entity — the graph
equals the one built from just the resolved ids — and return the empty graph
when none resolves.  The nations layer validates focus entries by format only
(two-character strings, uppercased), returning the empty graph when no entry
has that format; a well-formed code matching no stored data still yields a
node (see the counterexample).  No unresolved focus ever raises. -/
theorem graph_focus_validation (db : DB) (ymin ymax : Option Int) (emw : ℚ)
    (fl : List FocusId) (fo : Bool) :
    (fl ≠ [] → validAuthorFocus db fl = [] →
      build_graph db "authors" ymin ymax emw (some fl) fo = ⟨[], []⟩) ∧
    (fl ≠ [] → validKeywordFocus db fl = [] →
      build_graph db "keywords" ymin ymax emw (some fl) fo = ⟨[], []⟩) ∧
    (fl ≠ [] → validOrgFocus db fl = [] →
      build_graph db "orgs" ymin ymax emw (some fl) fo = ⟨[], []⟩) ∧
    (fl ≠ [] → validNationFocus fl = [] →
      build_graph db "nations" ymin ymax emw (some fl) fo = ⟨[], []⟩) ∧
    (validAuthorFocus db fl ≠ [] →
      build_graph db "authors" ymin ymax emw (some fl) fo =
        build_graph db "authors" ymin ymax emw
          (some ((validAuthorFocus db fl).map FocusId.nat)) fo) ∧
    (validKeywordFocus db fl ≠ [] →
      build_graph db "keywords" ymin ymax emw (some fl) fo =
        build_graph db "keywords" ymin ymax emw
          (some ((validKeywordFocus db fl).map FocusId.nat)) fo) ∧
    (validOrgFocus db fl ≠ [] →
      build_graph db "orgs" ymin ymax emw (some fl) fo =
        build_graph db "orgs" ymin ymax emw
          (some ((validOrgFocus db fl).map FocusId.nat)) fo) := by
  refine ⟨?_, ?_, ?_, ?_, ?_, ?_, ?_⟩
  · intro hfl hv
    rw [build_graph_authors]
    exact buildAuthors_invalid db ymin ymax emw fo fl hfl hv
  · intro hfl hv
    rw [build_graph_keywords]
    exact buildKeywords_invalid db ymin ymax emw fo fl hfl hv
  · intro hfl hv
    rw [build_graph_orgs]
    exact buildOrgs_invalid db ymin ymax emw fo fl hfl hv
  · intro hfl hv
    rw [build_graph_nations]
    exact buildNations_invalid db ymin ymax emw fo fl hfl hv
  · intro hv
    rw [build_graph_authors, build_graph_authors]
    exact (buildAuthors_drop db ymin ymax emw fo fl hv).symm
  · intro hv
    rw [build_graph_keywords, build_graph_keywords]
    exact (buildKeywords_drop db ymin ymax emw fo fl hv).symm
  · intro hv
    rw [build_graph_orgs, build_graph_orgs]
    exact (buildOrgs_drop db ymin ymax emw fo fl hv).symm

/-- C5 counterexample: on the nations layer a focus code that resolves to no
stored entity is not dropped — the empty store still yields a focus node for
the well-formed code "ZZ". -/
theorem graph_focus_validation_cex :
    emptyDB.work_affiliations = [] ∧
    (build_graph emptyDB "nations" none none 0 (some [FocusId.str "ZZ"]) false).nodes =
      [{ id := "NZZ", label := "ZZ", ntype := "focus_nation", focus := true,
         count := none, country := none }] := by
  exact ⟨rfl, by decide⟩

theorem graph_focus_validation_witness :
    validAuthorFocus dbC4w [FocusId.nat 1, FocusId.nat 99] ≠ [] ∧
    build_graph dbC4w "authors" none none 0
        (some [FocusId.nat 1, FocusId.nat 99]) false =
      build_graph dbC4w "authors" none none 0
        (some ((validAuthorFocus dbC4w [FocusId.nat 1, FocusId.nat 99]).map FocusId.nat))
        false :=
  ⟨by decide, (graph_focus_validation dbC4w none none 0
    [FocusId.nat 1, FocusId.nat 99] false).2.2.2.2.1 (by decide)⟩

/-! ## Prefix-stability of lookups, and entity-table growth -/

lemma find?_append_some {α : Type} {p : α → Bool} {l1 : List α} {a : α}
    (h : l1.find? p = some a) (l2 : List α) : (l1 ++ l2).find? p = some a := by
  induction l1 with
  | nil => cases h
  | cons x t ih =>
    rw [List.cons_append]
    by_cases hx : p x = true
    · rw [List.find?_cons_of_pos _ hx] at h
      rw [List.find?_cons_of_pos _ hx]
      exact h
    · rw [List.find?_cons_of_neg _ hx] at h
      rw [List.find?_cons_of_neg _ hx]
      exact ih h

lemma find?_append_none {α : Type} {p : α → Bool} {l1 : List α}
    (h : l1.find? p = none) (l2 : List α) : (l1 ++ l2).find? p = l2.find? p := by
  induction l1 with
  | nil => rfl
  | cons x t ih =>
    rw [List.cons_append]
    by_cases hx : p x = true
    · rw [List.find?_cons_of_pos _ hx] at h
      cases h
    · rw [List.find?_cons_of_neg _ hx] at h
      rw [List.find?_cons_of_neg _ hx]
      exact ih h

lemma find?_of_prefix {α : Type} {p : α → Bool} {l1 l2 : List α} {a : α}
    (hp : l1 <+: l2) (h : l1.find? p = some a) : l2.find? p = some a := by
  rcases hp with ⟨t, rfl⟩
  exact find?_append_some h t

lemma find?_of_prefix_none_cons {α : Type} {p : α → Bool} {l1 l2 : List α} {a : α}
    (hp : l1 ++ [a] <+: l2) (h : l1.find? p = none) (ha : p a = true) :
    l2.find? p = some a := by
  rcases hp with ⟨t, rfl⟩
  rw [List.append_assoc, find?_append_none h, List.singleton_append,
    List.find?_cons_of_pos _ ha]

lemma entExt_self (db : DB) : EntExt db db :=
  ⟨List.prefix_refl _, List.prefix_refl _, List.prefix_refl _, List.prefix_refl _⟩

lemma entExt_trans {d1 d2 d3 : DB} (h1 : EntExt d1 d2) (h2 : EntExt d2 d3) : EntExt d1 d3 :=
  ⟨h1.authors.trans h2.authors, h1.organizations.trans h2.organizations,
   h1.keywords.trans h2.keywords, h1.venues.trans h2.venues⟩

lemma get_or_create_venue_entext (db : DB) (name vtype issn publisher : Option String) :
    EntExt db (get_or_create_venue db name vtype issn publisher).1 := by
  simp only [get_or_create_venue]
  split
  · exact entExt_self db
  · split
    · exact entExt_self db
    · exact ⟨List.prefix_refl _, List.prefix_refl _, List.prefix_refl _, ⟨_, rfl⟩⟩

lemma get_or_create_author_entext (db : DB) (d : String) (n o : Option String) :
    EntExt db (get_or_create_author db d n o).1 := by
  simp only [get_or_create_author]
  split
  · exact entExt_self db
  · exact ⟨⟨_, rfl⟩, List.prefix_refl _, List.prefix_refl _, List.prefix_refl _⟩

lemma get_or_create_keyword_entext (db : DB) (term : String) (disp vocab : Option String) :
    EntExt db (get_or_create_keyword db term disp vocab).1 := by
  simp only [get_or_create_keyword]
  split
  · exact entExt_self db
  · exact ⟨List.prefix_refl _, List.prefix_refl _, ⟨_, rfl⟩, List.prefix_refl _⟩

lemma get_or_create_org_entext (db : DB) (name : String) (c ci : Option String) :
    EntExt db (get_or_create_org db name c ci).1 := by
  simp only [get_or_create_org]
  split
  · exact entExt_self db
  · exact ⟨List.prefix_refl _, ⟨_, rfl⟩, List.prefix_refl _, List.prefix_refl _⟩

lemma addAffiliations_entext : ∀ (insts : List OAInstitution) (db : DB) (wid aid : Nat)
    (yr : Option Int), EntExt db (addAffiliations db wid aid yr insts).1
  | [], db, _, _, _ => entExt_self db
  | inst :: rest, db, wid, aid, yr => by
    simp only [addAffiliations]
    refine entExt_trans ?_ (addAffiliations_entext rest _ wid aid yr)
    split
    · exact get_or_create_org_entext db _ _ _
    · exact entExt_self db

lemma addAuthorships_entext : ∀ (entries : List OAAuthorship) (db : DB) (wid : Nat)
    (yr : Option Int) (idx : Nat), EntExt db (addAuthorships db wid yr idx entries).1
  | [], db, _, _, _ => entExt_self db
  | auth :: rest, db, wid, yr, idx => by
    simp only [addAuthorships]
    refine entExt_trans ?_ (addAuthorships_entext rest _ wid yr (idx + 1))
    refine entExt_trans ?_ (addAffiliations_entext _ _ wid _ yr)
    exact get_or_create_author_entext db _ none _

lemma addConcepts_entext : ∀ (cs : List OAConcept) (db : DB) (wid : Nat),
    EntExt db (addConcepts db wid cs).1
  | [], db, _ => entExt_self db
  | c :: rest, db, wid => by
    simp only [addConcepts]
    exact entExt_trans (get_or_create_keyword_entext db _ _ _) (addConcepts_entext rest _ wid)

/-! ## The authors table through the non-author operations -/

lemma get_or_create_venue_authors (db : DB) (nm vt i p : Option String) :
    (get_or_create_venue db nm vt i p).1.authors = db.authors := by
  simp only [get_or_create_venue]
  split
  · rfl
  · split
    · rfl
    · rfl

lemma get_or_create_org_authors (db : DB) (name : String) (c ci : Option String) :
    (get_or_create_org db name c ci).1.authors = db.authors := by
  simp only [get_or_create_org]
  split
  · rfl
  · rfl

lemma get_or_create_keyword_authors (db : DB) (term : String) (disp vocab : Option String) :
    (get_or_create_keyword db term disp vocab).1.authors = db.authors := by
  simp only [get_or_create_keyword]
  split
  · rfl
  · rfl

lemma addAffiliations_authors : ∀ (insts : List OAInstitution) (db : DB) (wid aid : Nat)
    (yr : Option Int), (addAffiliations db wid aid yr insts).1.authors = db.authors
  | [], _, _, _, _ => rfl
  | inst :: rest, db, wid, aid, yr => by
    simp only [addAffiliations]
    rw [addAffiliations_authors rest _ wid aid yr]
    split
    · exact get_or_create_org_authors db _ _ _
    · rfl

lemma addConcepts_authors : ∀ (cs : List OAConcept) (db : DB) (wid : Nat),
    (addConcepts db wid cs).1.authors = db.authors
  | [], _, _ => rfl
  | c :: rest, db, wid => by
    simp only [addConcepts]
    rw [addConcepts_authors rest _ wid]
    exact get_or_create_keyword_authors db _ _ _

lemma upsert_venue_step_authors (db : DB) (w : OAWork) :
    (if pyStr (hostVenueFields w).1 = true then
        get_or_create_venue db (hostVenueFields w).1 (hostVenueFields w).2.1
          (hostVenueFields w).2.2.1 (hostVenueFields w).2.2.2
      else (db, none)).1.authors = db.authors := by
  split
  · exact get_or_create_venue_authors _ _ _ _ _
  · rfl

/-! ## Author identity through the authorship loop -/

lemma get_or_create_author_norm (db : DB) (d : String) (n o : Option String) :
    (get_or_create_author db d n o).2.normalized_name = authorNorm d n ∧
    (get_or_create_author db d n o).2 ∈ (get_or_create_author db d n o).1.authors := by
  simp only [get_or_create_author]
  rcases hf : db.authors.find? (fun a => decide (a.normalized_name = authorNorm d n)) with - | a
  · rw [hf]
    exact ⟨rfl, List.mem_append.mpr (Or.inr (List.mem_singleton.mpr rfl))⟩
  · rw [hf]
    refine ⟨?_, List.mem_of_find?_eq_some hf⟩
    simpa using List.find?_some hf

lemma get_or_create_author_norms_nodup (db : DB) (d : String) (n o : Option String)
    (h : (db.authors.map (fun a => a.normalized_name)).Nodup) :
    ((get_or_create_author db d n o).1.authors.map (fun a => a.normalized_name)).Nodup := by
  simp only [get_or_create_author]
  rcases hf : db.authors.find? (fun a => decide (a.normalized_name = authorNorm d n)) with - | a
  · rw [hf]
    rw [List.map_append]
    refine List.nodup_append.mpr ⟨h, List.nodup_singleton _, ?_⟩
    intro x hx hx2
    rcases List.mem_map.mp hx with ⟨a', ha', rfl⟩
    have hx2' : a'.normalized_name = authorNorm d n := by
      simpa using hx2
    have := List.find?_eq_none.mp hf a' ha'
    rw [decide_eq_true_eq] at this
    exact this hx2'
  · rw [hf]
    exact h

lemma addAuthorships_norms_nodup : ∀ (entries : List OAAuthorship) (db : DB) (wid : Nat)
    (yr : Option Int) (idx : Nat),
    (db.authors.map (fun a => a.normalized_name)).Nodup →
    ((addAuthorships db wid yr idx entries).1.authors.map (fun a => a.normalized_name)).Nodup
  | [], _, _, _, _, h => h
  | auth :: rest, db, wid, yr, idx, h => by
    simp only [addAuthorships]
    refine addAuthorships_norms_nodup rest _ wid yr (idx + 1) ?_
    rw [addAffiliations_authors]
    exact get_or_create_author_norms_nodup db _ none _ h

lemma upsert_norms_nodup (db : DB) (w : OAWork)
    (h : (db.authors.map (fun a => a.normalized_name)).Nodup) :
    ((upsert_work_from_openalex db w).1.authors.map (fun a => a.normalized_name)).Nodup := by
  have hva := upsert_venue_step_authors db w
  unfold upsert_work_from_openalex
  simp only
  split
  · next e heq =>
    rw [addConcepts_authors]
    refine addAuthorships_norms_nodup _ _ _ _ _ ?_
    rw [hva]
    exact h
  · next heq =>
    rw [addConcepts_authors]
    refine addAuthorships_norms_nodup _ _ _ _ _ ?_
    rw [hva]
    exact h

lemma anon_display {auth : OAAuthorship} (h : anonAuthorship auth) :
    orElseStr (auth.author.bind (fun a => a.display_name)) "Unknown" = "Unknown" := by
  unfold anonAuthorship at h
  rcases ha : auth.author with - | a
  · rfl
  · rw [ha] at h
    have h' : a.display_name = none ∨ a.display_name = some "" := h
    show orElseStr a.display_name "Unknown" = "Unknown"
    rcases h' with h' | h'
    · rw [h']
      rfl
    · rw [h']
      rfl

lemma addAuthorships_anon : ∀ (entries : List OAAuthorship) (db : DB) (wid : Nat)
    (yr : Option Int) (idx : Nat) (k : Nat) (hk : k < entries.length),
    anonAuthorship (entries.get ⟨k, hk⟩) →
    ∃ wa ∈ (addAuthorships db wid yr idx entries).2.1,
      wa.work_id = wid ∧ wa.position = idx + k ∧
      ∃ a ∈ (addAuthorships db wid yr idx entries).1.authors,
        a.id = wa.author_id ∧ a.normalized_name = "unknown"
  | [], _, _, _, _, k, hk, _ => absurd hk (by simp)
  | auth :: rest, db, wid, yr, idx, 0, hk, hanon => by
    have hdisp : orElseStr (auth.author.bind (fun a => a.display_name)) "Unknown" =
        "Unknown" := anon_display hanon
    simp only [addAuthorships]
    rw [hdisp]
    refine ⟨⟨wid, (get_or_create_author db "Unknown" none
        (auth.author.bind (fun a => a.orcid))).2.id, idx, false⟩,
      List.mem_cons_self _ _, rfl, rfl,
      (get_or_create_author db "Unknown" none (auth.author.bind (fun a => a.orcid))).2,
      ?_, rfl, ?_⟩
    · refine (addAuthorships_entext rest _ wid yr (idx + 1)).authors.subset ?_
      refine (addAffiliations_entext _ _ wid _ yr).authors.subset ?_
      exact (get_or_create_author_norm db "Unknown" none _).2
    · rw [(get_or_create_author_norm db "Unknown" none
        (auth.author.bind (fun a => a.orcid))).1]
      decide
  | auth :: rest, db, wid, yr, idx, k + 1, hk, hanon => by
    simp only [addAuthorships]
    have hk' : k < rest.length := Nat.lt_of_succ_lt_succ hk
    have hanon' : anonAuthorship (rest.get ⟨k, hk'⟩) := hanon
    rcases addAuthorships_anon rest
      (addAffiliations (get_or_create_author db
        (orElseStr (auth.author.bind (fun a => a.display_name)) "Unknown") none
        (auth.author.bind (fun a => a.orcid))).1 wid
        (get_or_create_author db
          (orElseStr (auth.author.bind (fun a => a.display_name)) "Unknown") none
          (auth.author.bind (fun a => a.orcid))).2.id yr (auth.institutions.getD [])).1
      wid yr (idx + 1) k hk' hanon' with ⟨wa, hmemw, hwid, hpos, a, hmema, hid, hnn⟩
    refine ⟨wa, List.mem_cons_of_mem _ hmemw, hwid, ?_, a, hmema, hid, hnn⟩
    rw [hpos]
    omega

lemma anon_link_generic (db2 : DB) (wid : Nat) (yr : Option Int)
    (entries : List OAAuthorship) (k : Nat) (hk : k < entries.length)
    (hanon : anonAuthorship (entries.get ⟨k, hk⟩))
    (L1 : List WorkAuthor) (L2 : List WorkAuthor) (A : List Author)
    (hL : L2 = L1 ++ (addAuthorships db2 wid yr 0 entries).2.1)
    (hA : A = (addAuthorships db2 wid yr 0 entries).1.authors) :
    ∃ wa ∈ L2, wa.work_id = wid ∧ wa.position = k ∧
      ∃ a ∈ A, a.id = wa.author_id ∧ a.normalized_name = "unknown" := by
  subst hL hA
  rcases addAuthorships_anon entries db2 wid yr 0 k hk hanon with
    ⟨wa, hmemw, hwid, hpos, a, hmema, hid, hnn⟩
  refine ⟨wa, List.mem_append_right _ hmemw, hwid, ?_, a, hmema, hid, hnn⟩
  rw [hpos]
  exact Nat.zero_add k

/-- C10 (amended): every anonymous authorship entry (author object missing or
without a truthy display name) is linked, at its position, to an Author whose
normalized name is "unknown"; and when author normalized names are unique
(the schema's unique constraint), at most one such Author exists, so all
anonymous authorships across all Works collapse onto that single Author.  Its
display name is whatever spelling first created it ("Unknown" when the
anonymous path created it, but e.g. "UNKNOWN" if such an author existed
already — see the counterexample). -/
theorem anonymous_author_unknown (db : DB) (w : OAWork) (k : Nat)
    (hk : k < (w.authorships.getD []).length)
    (hanon : anonAuthorship ((w.authorships.getD []).get ⟨k, hk⟩)) :
    (∃ wa ∈ (upsert_work_from_openalex db w).1.work_authors,
      wa.work_id = (upsert_work_from_openalex db w).2 ∧ wa.position = k ∧
      ∃ a ∈ (upsert_work_from_openalex db w).1.authors,
        a.id = wa.author_id ∧ a.normalized_name = "unknown") ∧
    ((db.authors.map (fun a => a.normalized_name)).Nodup →
      ((upsert_work_from_openalex db w).1.authors.filter
        (fun a => decide (a.normalized_name = "unknown"))).length ≤ 1) := by
  constructor
  · unfold upsert_work_from_openalex
    simp only
    split
    · next e heq =>
      rw [(addConcepts_nonent _ _ _).work_authors, addConcepts_authors]
      exact anon_link_generic _ _ _ _ _ hk hanon _ _ _ rfl rfl
    · next heq =>
      rw [(addConcepts_nonent _ _ _).work_authors, addConcepts_authors]
      exact anon_link_generic _ _ _ _ _ hk hanon _ _ _ rfl rfl
  · intro h
    exact length_filter_le_one _ _ _ (upsert_norms_nodup db w h)

/-- C10 counterexample: when an author displayed "UNKNOWN" (normalized
"unknown") already exists, a later anonymous authorship links to it — the
shared Author's display name is "UNKNOWN", not "Unknown". -/
theorem anonymous_author_unknown_cex :
    ((upsert_work_from_openalex (upsert_work_from_openalex emptyDB recU1).1 recU2).1.authors.map
      (fun a => (a.display_name, a.normalized_name))) = [("UNKNOWN", "unknown")] := by
  decide

theorem anonymous_author_unknown_witness :
    0 < (recU2.authorships.getD []).length ∧
    (∃ wa ∈ (upsert_work_from_openalex emptyDB recU2).1.work_authors,
      wa.work_id = (upsert_work_from_openalex emptyDB recU2).2 ∧ wa.position = 0 ∧
      ∃ a ∈ (upsert_work_from_openalex emptyDB recU2).1.authors,
        a.id = wa.author_id ∧ a.normalized_name = "unknown") :=
  ⟨by decide, (anonymous_author_unknown emptyDB recU2 0 (by decide) trivial).1⟩

/-! ## Upsert through the staged pipeline (C3) -/

lemma upsert_eq_update {db0 : DB} {w : OAWork} {e : Work}
    (hex : findExistingWork (upsertVenueStep db0 w).1 w = some e) :
    upsert_work_from_openalex db0 w =
      (mkFinal (updateBase (upsertVenueStep db0 w).1 w (upsertVenueStep db0 w).2 e) e.id w,
       e.id) := by
  unfold upsert_work_from_openalex
  simp only
  have hex' : findExistingWork (if pyStr (hostVenueFields w).1 = true then
      get_or_create_venue db0 (hostVenueFields w).1 (hostVenueFields w).2.1
        (hostVenueFields w).2.2.1 (hostVenueFields w).2.2.2
    else (db0, none)).1 w = some e := hex
  split
  · next e' heq =>
    rw [hex'] at heq
    injection heq with heq
    subst heq
    rfl
  · next heq =>
    rw [hex'] at heq
    cases heq

lemma upsert_eq_insert {db0 : DB} {w : OAWork}
    (hex : findExistingWork (upsertVenueStep db0 w).1 w = none) :
    upsert_work_from_openalex db0 w =
      (mkFinal (insertBase (upsertVenueStep db0 w).1 w (upsertVenueStep db0 w).2).1
        (insertBase (upsertVenueStep db0 w).1 w (upsertVenueStep db0 w).2).2.id w,
       (insertBase (upsertVenueStep db0 w).1 w (upsertVenueStep db0 w).2).2.id) := by
  unfold upsert_work_from_openalex
  simp only
  have hex' : findExistingWork (if pyStr (hostVenueFields w).1 = true then
      get_or_create_venue db0 (hostVenueFields w).1 (hostVenueFields w).2.1
        (hostVenueFields w).2.2.1 (hostVenueFields w).2.2.2
    else (db0, none)).1 w = none := hex
  split
  · next e' heq =>
    rw [hex'] at heq
    cases heq
  · next heq =>
    rfl

lemma get_or_create_keyword_organizations (db : DB) (term : String)
    (disp vocab : Option String) :
    (get_or_create_keyword db term disp vocab).1.organizations = db.organizations := by
  simp only [get_or_create_keyword]
  split
  · rfl
  · rfl

lemma get_or_create_keyword_venues (db : DB) (term : String) (disp vocab : Option String) :
    (get_or_create_keyword db term disp vocab).1.venues = db.venues := by
  simp only [get_or_create_keyword]
  split
  · rfl
  · rfl

lemma addConcepts_organizations : ∀ (cs : List OAConcept) (db : DB) (wid : Nat),
    (addConcepts db wid cs).1.organizations = db.organizations
  | [], _, _ => rfl
  | c :: rest, db, wid => by
    simp only [addConcepts]
    rw [addConcepts_organizations rest _ wid]
    exact get_or_create_keyword_organizations db _ _ _

lemma addConcepts_venues : ∀ (cs : List OAConcept) (db : DB) (wid : Nat),
    (addConcepts db wid cs).1.venues = db.venues
  | [], _, _ => rfl
  | c :: rest, db, wid => by
    simp only [addConcepts]
    rw [addConcepts_venues rest _ wid]
    exact get_or_create_keyword_venues db _ _ _

lemma mkFinal_works (db : DB) (wid : Nat) (w : OAWork) :
    (mkFinal db wid w).works = db.works := by
  simp only [mkFinal, kwStep, midDB, authStep]
  rw [(addConcepts_nonent _ _ _).works, (addAuthorships_nonent _ _ _ _ _).works]

lemma mkFinal_work_authors (db : DB) (wid : Nat) (w : OAWork) :
    (mkFinal db wid w).work_authors = db.work_authors ++ (authStep db wid w).2.1 := by
  simp only [mkFinal, kwStep, midDB, authStep]
  rw [(addConcepts_nonent _ _ _).work_authors, (addAuthorships_nonent _ _ _ _ _).work_authors]

lemma mkFinal_work_affiliations (db : DB) (wid : Nat) (w : OAWork) :
    (mkFinal db wid w).work_affiliations =
      db.work_affiliations ++ (authStep db wid w).2.2 := by
  simp only [mkFinal, kwStep, midDB, authStep]
  rw [(addConcepts_nonent _ _ _).work_affiliations,
    (addAuthorships_nonent _ _ _ _ _).work_affiliations]

lemma mkFinal_work_keywords (db : DB) (wid : Nat) (w : OAWork) :
    (mkFinal db wid w).work_keywords = db.work_keywords ++ (kwStep db wid w).2 := by
  simp only [mkFinal, kwStep, midDB, authStep]
  rw [(addConcepts_nonent _ _ _).work_keywords, (addAuthorships_nonent _ _ _ _ _).work_keywords]

lemma mkFinal_edges (db : DB) (wid : Nat) (w : OAWork) :
    (mkFinal db wid w).coauthor_edges = db.coauthor_edges ∧
    (mkFinal db wid w).org_edges = db.org_edges ∧
    (mkFinal db wid w).nation_edges = db.nation_edges ∧
    (mkFinal db wid w).merge_log = db.merge_log ∧
    (mkFinal db wid w).next_work_id = db.next_work_id := by
  simp only [mkFinal, kwStep, midDB, authStep]
  refine ⟨?_, ?_, ?_, ?_, ?_⟩
  · rw [(addConcepts_nonent _ _ _).coauthor_edges, (addAuthorships_nonent _ _ _ _ _).coauthor_edges]
  · rw [(addConcepts_nonent _ _ _).org_edges, (addAuthorships_nonent _ _ _ _ _).org_edges]
  · rw [(addConcepts_nonent _ _ _).nation_edges, (addAuthorships_nonent _ _ _ _ _).nation_edges]
  · rw [(addConcepts_nonent _ _ _).merge_log, (addAuthorships_nonent _ _ _ _ _).merge_log]
  · rw [(addConcepts_nonent _ _ _).next_work_id, (addAuthorships_nonent _ _ _ _ _).next_work_id]

lemma mkFinal_authors (db : DB) (wid : Nat) (w : OAWork) :
    (mkFinal db wid w).authors = (authStep db wid w).1.authors := by
  simp only [mkFinal, kwStep, midDB, authStep]
  rw [addConcepts_authors]

lemma mkFinal_organizations (db : DB) (wid : Nat) (w : OAWork) :
    (mkFinal db wid w).organizations = (authStep db wid w).1.organizations := by
  simp only [mkFinal, kwStep, midDB, authStep]
  rw [addConcepts_organizations]

lemma mkFinal_venues (db : DB) (wid : Nat) (w : OAWork) :
    (mkFinal db wid w).venues = (authStep db wid w).1.venues := by
  simp only [mkFinal, kwStep, midDB, authStep]
  rw [addConcepts_venues]

lemma mkFinal_entext (db : DB) (wid : Nat) (w : OAWork) : EntExt db (mkFinal db wid w) := by
  refine ⟨?_, ?_, ?_, ?_⟩
  · exact ((addAuthorships_entext (w.authorships.getD []) db wid (yearOf w) 0).authors).trans
      ((addConcepts_entext (w.concepts.getD []) (midDB db wid w) wid).authors)
  · exact ((addAuthorships_entext (w.authorships.getD []) db wid
      (yearOf w) 0).organizations).trans
      ((addConcepts_entext (w.concepts.getD []) (midDB db wid w) wid).organizations)
  · exact ((addAuthorships_entext (w.authorships.getD []) db wid (yearOf w) 0).keywords).trans
      ((addConcepts_entext (w.concepts.getD []) (midDB db wid w) wid).keywords)
  · exact ((addAuthorships_entext (w.authorships.getD []) db wid (yearOf w) 0).venues).trans
      ((addConcepts_entext (w.concepts.getD []) (midDB db wid w) wid).venues)

lemma upsertVenueStep_nonent (db : DB) (w : OAWork) :
    NonEntEq db (upsertVenueStep db w).1 := by
  unfold upsertVenueStep
  split
  · exact get_or_create_venue_nonent db _ _ _ _
  · exact nonEntEq_self

lemma get_or_create_author_replay (S T : DB) (d : String) (n o : Option String)
    (hpre : (get_or_create_author S d n o).1.authors <+: T.authors) :
    get_or_create_author T d n o = (T, (get_or_create_author S d n o).2) := by
  simp only [get_or_create_author] at hpre ⊢
  rcases hf : S.authors.find? (fun a => decide (a.normalized_name = authorNorm d n)) with - | a
  · rw [hf] at hpre
    have hpre' : S.authors ++ [(⟨S.next_author_id, d, authorNorm d n, o⟩ : Author)] <+:
        T.authors := hpre
    have hfT : T.authors.find? (fun a => decide (a.normalized_name = authorNorm d n)) =
        some ⟨S.next_author_id, d, authorNorm d n, o⟩ :=
      find?_of_prefix_none_cons hpre' hf (by simp)
    rw [hf, hfT]
  · rw [hf] at hpre
    have hpre' : S.authors <+: T.authors := hpre
    have hfT : T.authors.find? (fun a => decide (a.normalized_name = authorNorm d n)) =
        some a := find?_of_prefix hpre' hf
    rw [hf, hfT]

lemma get_or_create_org_replay (S T : DB) (name : String) (c ci : Option String)
    (hpre : (get_or_create_org S name c ci).1.organizations <+: T.organizations) :
    get_or_create_org T name c ci = (T, (get_or_create_org S name c ci).2) := by
  simp only [get_or_create_org] at hpre ⊢
  rcases hf : S.organizations.find? (fun x => decide (x.name = name)) with - | og
  · rw [hf] at hpre
    have hpre' : S.organizations ++ [(⟨S.next_org_id, name, c, ci⟩ : Organization)] <+:
        T.organizations := hpre
    have hfT : T.organizations.find? (fun x => decide (x.name = name)) =
        some ⟨S.next_org_id, name, c, ci⟩ :=
      find?_of_prefix_none_cons hpre' hf (by simp)
    rw [hf, hfT]
  · rw [hf] at hpre
    have hpre' : S.organizations <+: T.organizations := hpre
    have hfT : T.organizations.find? (fun x => decide (x.name = name)) = some og :=
      find?_of_prefix hpre' hf
    rw [hf, hfT]

lemma get_or_create_keyword_replay (S T : DB) (term : String) (disp vocab : Option String)
    (hpre : (get_or_create_keyword S term disp vocab).1.keywords <+: T.keywords) :
    get_or_create_keyword T term disp vocab =
      (T, (get_or_create_keyword S term disp vocab).2) := by
  simp only [get_or_create_keyword] at hpre ⊢
  rcases hf : S.keywords.find? (fun k => decide (k.term_norm = pyLower (pyStrip term)))
    with - | kw
  · rw [hf] at hpre
    have hpre' : S.keywords ++ [(⟨S.next_keyword_id, pyLower (pyStrip term),
        orElseStr disp term, vocab⟩ : Keyword)] <+: T.keywords := hpre
    have hfT : T.keywords.find? (fun k => decide (k.term_norm = pyLower (pyStrip term))) =
        some ⟨S.next_keyword_id, pyLower (pyStrip term), orElseStr disp term, vocab⟩ :=
      find?_of_prefix_none_cons hpre' hf (by simp)
    rw [hf, hfT]
  · rw [hf] at hpre
    have hpre' : S.keywords <+: T.keywords := hpre
    have hfT : T.keywords.find? (fun k => decide (k.term_norm = pyLower (pyStrip term))) =
        some kw := find?_of_prefix hpre' hf
    rw [hf, hfT]

lemma get_or_create_venue_replay (S T : DB) (name vtype issn publisher : Option String)
    (hpre : (get_or_create_venue S name vtype issn publisher).1.venues <+: T.venues) :
    get_or_create_venue T name vtype issn publisher =
      (T, (get_or_create_venue S name vtype issn publisher).2) := by
  simp only [get_or_create_venue] at hpre ⊢
  by_cases hn : pyStr name = false
  · rw [if_pos hn, if_pos hn]
  · rw [if_neg hn] at hpre
    rw [if_neg hn, if_neg hn]
    rcases hf : S.venues.find? (fun v => decide (v.name = name.getD "")) with - | v
    · rw [hf] at hpre
      have hpre' : S.venues ++ [(⟨S.next_venue_id, name.getD "", vtype, issn,
          publisher⟩ : Venue)] <+: T.venues := hpre
      have hfT : T.venues.find? (fun v => decide (v.name = name.getD "")) =
          some ⟨S.next_venue_id, name.getD "", vtype, issn, publisher⟩ :=
        find?_of_prefix_none_cons hpre' hf (by simp)
      rw [hf, hfT]
    · rw [hf] at hpre
      have hpre' : S.venues <+: T.venues := hpre
      have hfT : T.venues.find? (fun v => decide (v.name = name.getD "")) = some v :=
        find?_of_prefix hpre' hf
      rw [hf, hfT]

lemma upsertVenueStep_replay (db0 db1 : DB) (w : OAWork)
    (hpre : (upsertVenueStep db0 w).1.venues <+: db1.venues) :
    upsertVenueStep db1 w = (db1, (upsertVenueStep db0 w).2) := by
  unfold upsertVenueStep at hpre ⊢
  by_cases hn : pyStr (hostVenueFields w).1 = true
  · rw [if_pos hn] at hpre
    rw [if_pos hn, if_pos hn]
    exact get_or_create_venue_replay _ _ _ _ _ _ hpre
  · rw [if_neg hn, if_neg hn]

lemma addAffiliations_replay : ∀ (insts : List OAInstitution) (S T : DB) (wid aid : Nat)
    (yr : Option Int), EntExt (addAffiliations S wid aid yr insts).1 T →
    addAffiliations T wid aid yr insts = (T, (addAffiliations S wid aid yr insts).2)
  | [], _, _, _, _, _, _ => rfl
  | inst :: rest, S, T, wid, aid, yr, hext => by
    simp only [addAffiliations] at hext ⊢
    by_cases hn : pyStr inst.display_name = true
    · rw [if_pos hn] at hext
      rw [if_pos hn, if_pos hn]
      simp only [] at hext ⊢
      have hpre : (get_or_create_org S (inst.display_name.getD "")
          (some (inst.country_code.getD "")) none).1.organizations <+: T.organizations :=
        (entExt_trans (addAffiliations_entext rest _ wid aid yr) hext).organizations
      have horg := get_or_create_org_replay S T (inst.display_name.getD "")
        (some (inst.country_code.getD "")) none hpre
      have horg1 : (get_or_create_org T (inst.display_name.getD "")
          (some (inst.country_code.getD "")) none).1 = T := by rw [horg]
      have horg2 : (get_or_create_org T (inst.display_name.getD "")
          (some (inst.country_code.getD "")) none).2 =
          (get_or_create_org S (inst.display_name.getD "")
            (some (inst.country_code.getD "")) none).2 := by rw [horg]
      have htail := addAffiliations_replay rest (get_or_create_org S
        (inst.display_name.getD "") (some (inst.country_code.getD "")) none).1 T
        wid aid yr hext
      have htail1 : (addAffiliations T wid aid yr rest).1 = T := by rw [htail]
      have htail2 : (addAffiliations T wid aid yr rest).2 =
          (addAffiliations (get_or_create_org S (inst.display_name.getD "")
            (some (inst.country_code.getD "")) none).1 wid aid yr rest).2 := by
        rw [htail]
      rw [horg1, horg2, htail1, htail2]
    · rw [if_neg hn] at hext
      rw [if_neg hn, if_neg hn]
      simp only [] at hext ⊢
      have htail := addAffiliations_replay rest S T wid aid yr hext
      have htail1 : (addAffiliations T wid aid yr rest).1 = T := by rw [htail]
      have htail2 : (addAffiliations T wid aid yr rest).2 =
          (addAffiliations S wid aid yr rest).2 := by rw [htail]
      rw [htail1, htail2]

lemma addAuthorships_replay : ∀ (entries : List OAAuthorship) (S T : DB) (wid : Nat)
    (yr : Option Int) (idx : Nat), EntExt (addAuthorships S wid yr idx entries).1 T →
    addAuthorships T wid yr idx entries = (T, (addAuthorships S wid yr idx entries).2)
  | [], _, _, _, _, _, _ => rfl
  | auth :: rest, S, T, wid, yr, idx, hext => by
    simp only [addAuthorships] at hext ⊢
    have hpreA : (get_or_create_author S
        (orElseStr (auth.author.bind (fun a => a.display_name)) "Unknown") none
        (auth.author.bind (fun a => a.orcid))).1.authors <+: T.authors :=
      (entExt_trans (addAffiliations_entext _ _ wid _ yr)
        (entExt_trans (addAuthorships_entext rest _ wid yr (idx + 1)) hext)).authors
    have hauth := get_or_create_author_replay S T
      (orElseStr (auth.author.bind (fun a => a.display_name)) "Unknown") none
      (auth.author.bind (fun a => a.orcid)) hpreA
    have haff := addAffiliations_replay (auth.institutions.getD [])
      (get_or_create_author S
        (orElseStr (auth.author.bind (fun a => a.display_name)) "Unknown") none
        (auth.author.bind (fun a => a.orcid))).1 T wid
      (get_or_create_author S
        (orElseStr (auth.author.bind (fun a => a.display_name)) "Unknown") none
        (auth.author.bind (fun a => a.orcid))).2.id yr
      (entExt_trans (addAuthorships_entext rest _ wid yr (idx + 1)) hext)
    have htail := addAuthorships_replay rest
      (addAffiliations (get_or_create_author S
          (orElseStr (auth.author.bind (fun a => a.display_name)) "Unknown") none
          (auth.author.bind (fun a => a.orcid))).1 wid
        (get_or_create_author S
          (orElseStr (auth.author.bind (fun a => a.display_name)) "Unknown") none
          (auth.author.bind (fun a => a.orcid))).2.id yr (auth.institutions.getD [])).1
      T wid yr (idx + 1) hext
    have hauth1 : (get_or_create_author T
        (orElseStr (auth.author.bind (fun a => a.display_name)) "Unknown") none
        (auth.author.bind (fun a => a.orcid))).1 = T := by rw [hauth]
    have hauth2 : (get_or_create_author T
        (orElseStr (auth.author.bind (fun a => a.display_name)) "Unknown") none
        (auth.author.bind (fun a => a.orcid))).2 =
        (get_or_create_author S
          (orElseStr (auth.author.bind (fun a => a.display_name)) "Unknown") none
          (auth.author.bind (fun a => a.orcid))).2 := by rw [hauth]
    rw [hauth1, hauth2]
    have haff1 : (addAffiliations T wid (get_or_create_author S
        (orElseStr (auth.author.bind (fun a => a.display_name)) "Unknown") none
        (auth.author.bind (fun a => a.orcid))).2.id yr (auth.institutions.getD [])).1 = T := by
      rw [haff]
    have haff2 : (addAffiliations T wid (get_or_create_author S
        (orElseStr (auth.author.bind (fun a => a.display_name)) "Unknown") none
        (auth.author.bind (fun a => a.orcid))).2.id yr (auth.institutions.getD [])).2 =
        (addAffiliations (get_or_create_author S
          (orElseStr (auth.author.bind (fun a => a.display_name)) "Unknown") none
          (auth.author.bind (fun a => a.orcid))).1 wid
          (get_or_create_author S
            (orElseStr (auth.author.bind (fun a => a.display_name)) "Unknown") none
            (auth.author.bind (fun a => a.orcid))).2.id yr
          (auth.institutions.getD [])).2 := by rw [haff]
    rw [haff1, haff2]
    have htail1 : (addAuthorships T wid yr (idx + 1) rest).1 = T := by rw [htail]
    have htail2 : (addAuthorships T wid yr (idx + 1) rest).2 =
        (addAuthorships (addAffiliations (get_or_create_author S
            (orElseStr (auth.author.bind (fun a => a.display_name)) "Unknown") none
            (auth.author.bind (fun a => a.orcid))).1 wid
          (get_or_create_author S
            (orElseStr (auth.author.bind (fun a => a.display_name)) "Unknown") none
            (auth.author.bind (fun a => a.orcid))).2.id yr
          (auth.institutions.getD [])).1 wid yr (idx + 1) rest).2 := by
      rw [htail]
    rw [htail1, htail2]

lemma addConcepts_replay : ∀ (cs : List OAConcept) (S T : DB) (wid : Nat),
    EntExt (addConcepts S wid cs).1 T →
    addConcepts T wid cs = (T, (addConcepts S wid cs).2)
  | [], _, _, _, _ => rfl
  | c :: rest, S, T, wid, hext => by
    simp only [addConcepts] at hext ⊢
    have hpre : (get_or_create_keyword S (c.display_name.getD "") c.display_name
        (some "openalex_concept")).1.keywords <+: T.keywords :=
      (entExt_trans (addConcepts_entext rest _ wid) hext).keywords
    have hkw := get_or_create_keyword_replay S T (c.display_name.getD "") c.display_name
      (some "openalex_concept") hpre
    have htail := addConcepts_replay rest
      (get_or_create_keyword S (c.display_name.getD "") c.display_name
        (some "openalex_concept")).1 T wid hext
    have hkw1 : (get_or_create_keyword T (c.display_name.getD "") c.display_name
        (some "openalex_concept")).1 = T := by rw [hkw]
    have hkw2 : (get_or_create_keyword T (c.display_name.getD "") c.display_name
        (some "openalex_concept")).2 =
        (get_or_create_keyword S (c.display_name.getD "") c.display_name
          (some "openalex_concept")).2 := by rw [hkw]
    have htail1 : (addConcepts T wid rest).1 = T := by rw [htail]
    have htail2 : (addConcepts T wid rest).2 =
        (addConcepts (get_or_create_keyword S (c.display_name.getD "") c.display_name
          (some "openalex_concept")).1 wid rest).2 := by rw [htail]
    rw [hkw1, hkw2, htail1, htail2]

lemma mkFinal_replay (dbS db2 : DB) (wid : Nat) (w : OAWork)
    (hEa : (authStep dbS wid w).1.authors <+: db2.authors)
    (hEo : (authStep dbS wid w).1.organizations <+: db2.organizations)
    (hEk : (kwStep dbS wid w).1.keywords <+: db2.keywords)
    (hEv : (authStep dbS wid w).1.venues <+: db2.venues) :
    mkFinal db2 wid w =
      { db2 with
        work_authors := db2.work_authors ++ (authStep dbS wid w).2.1,
        work_affiliations := db2.work_affiliations ++ (authStep dbS wid w).2.2,
        work_keywords := db2.work_keywords ++ (kwStep dbS wid w).2 } := by
  have hEkw : (authStep dbS wid w).1.keywords <+: db2.keywords := by
    refine List.IsPrefix.trans ?_ hEk
    have h := (addConcepts_entext (w.concepts.getD []) (midDB dbS wid w) wid).keywords
    exact h
  have hE : EntExt (addAuthorships dbS wid (yearOf w) 0 (w.authorships.getD [])).1 db2 :=
    ⟨hEa, hEo, hEkw, hEv⟩
  have hrep1 : authStep db2 wid w = (db2, (authStep dbS wid w).2) :=
    addAuthorships_replay (w.authorships.getD []) dbS db2 wid (yearOf w) 0 hE
  have hmid : midDB db2 wid w =
      { db2 with
        work_authors := db2.work_authors ++ (authStep dbS wid w).2.1,
        work_affiliations := db2.work_affiliations ++ (authStep dbS wid w).2.2 } := by
    simp only [midDB]
    rw [hrep1]
  have hEc : EntExt (addConcepts (midDB dbS wid w) wid (w.concepts.getD [])).1
      (midDB db2 wid w) := by
    refine ⟨?_, ?_, ?_, ?_⟩
    · rw [addConcepts_authors]
      show (authStep dbS wid w).1.authors <+: (authStep db2 wid w).1.authors
      rw [hrep1]
      exact hEa
    · rw [addConcepts_organizations]
      show (authStep dbS wid w).1.organizations <+: (authStep db2 wid w).1.organizations
      rw [hrep1]
      exact hEo
    · show (kwStep dbS wid w).1.keywords <+: (authStep db2 wid w).1.keywords
      rw [hrep1]
      exact hEk
    · rw [addConcepts_venues]
      show (authStep dbS wid w).1.venues <+: (authStep db2 wid w).1.venues
      rw [hrep1]
      exact hEv
  have hrep2 : kwStep db2 wid w = (midDB db2 wid w, (kwStep dbS wid w).2) :=
    addConcepts_replay (w.concepts.getD []) (midDB dbS wid w) (midDB db2 wid w) wid hEc
  show mkFinal db2 wid w = _
  rw [mkFinal, hrep2, hmid]

lemma find?_map_pred {α : Type} {p : α → Bool} {f : α → α} {l : List α}
    (h : ∀ x ∈ l, p (f x) = p x) : (l.map f).find? p = (l.find? p).map f := by
  induction l with
  | nil => rfl
  | cons x t ih =>
    rw [List.map_cons]
    by_cases hx : p x = true
    · rw [List.find?_cons_of_pos _ hx,
        List.find?_cons_of_pos _ (by rw [h x (List.mem_cons_self x t)]; exact hx)]
      rfl
    · rw [List.find?_cons_of_neg _ hx,
        List.find?_cons_of_neg _ (by rw [h x (List.mem_cons_self x t)]; exact hx)]
      exact ih (fun y hy => h y (List.mem_cons_of_mem x hy))

lemma find?_cons_pos {α : Type} (p : α → Bool) (a : α) (l : List α) (h : p a = true) :
    (a :: l).find? p = some a := List.find?_cons_of_pos l h

lemma findExistingWork_insert {dbv db1 : DB} {w : OAWork} {wk : Work}
    (hnone : findExistingWork dbv w = none)
    (hkey : pyStr w.doi = true ∨ pyStr w.id = true)
    (hworks : db1.works = dbv.works ++ [wk])
    (hdoi : wk.doi = doiOf w) (huid : wk.source_uid = w.id)
    (hsrc : wk.source = some "OpenAlex") :
    findExistingWork db1 w = some wk := by
  unfold findExistingWork
  rcases hd : doiOf w with - | d
  · have hid : pyStr w.id = true := by
      rcases hkey with hkey | hkey
      · exfalso
        unfold doiOf at hd
        rw [if_pos hkey] at hd
        cases hd
      · exact hkey
    simp only
    rw [if_pos hid]
    have h0 : dbv.works.find?
        (fun x => decide (x.source_uid = w.id ∧ x.source = some "OpenAlex")) = none := by
      refine List.find?_eq_none.mpr ?_
      intro x hx
      simp only [decide_eq_true_eq]
      exact findExistingWork_none_uid hnone hid x hx
    have hp : (fun x : Work => decide (x.source_uid = w.id ∧ x.source = some "OpenAlex")) wk
        = true := by
      simp only [decide_eq_true_eq]
      exact ⟨huid, hsrc⟩
    rw [hworks, find?_append_none h0, find?_cons_pos
      (fun x : Work => decide (x.source_uid = w.id ∧ x.source = some "OpenAlex")) wk [] hp]
  · simp only
    have h0 : dbv.works.find? (fun x => decide (x.doi = some d)) = none := by
      refine List.find?_eq_none.mpr ?_
      intro x hx
      simp only [decide_eq_true_eq]
      exact findExistingWork_none_doi hnone d hd x hx
    have hp : (fun x : Work => decide (x.doi = some d)) wk = true := by
      simp only [decide_eq_true_eq]
      rw [hdoi, hd]
    rw [hworks, find?_append_none h0, find?_cons_pos
      (fun x : Work => decide (x.doi = some d)) wk [] hp]

lemma findExistingWork_update {dbv db1 : DB} {w : OAWork} {e e' : Work}
    (heq : findExistingWork dbv w = some e)
    (hids : (dbv.works.map (fun x => x.id)).Nodup)
    (hworks : db1.works = dbv.works.map (fun x => if x.id = e.id then e' else x))
    (hid' : e'.id = e.id) (hdoi : e'.doi = e.doi) (huid : e'.source_uid = e.source_uid)
    (hsrc : e'.source = e.source) :
    findExistingWork db1 w = some e' := by
  have hmem : e ∈ dbv.works := mem_of_findExistingWork heq
  have hfe : (fun x => if x.id = e.id then e' else x) e = e' := by
    simp
  have hptD : ∀ d : String, ∀ x ∈ dbv.works,
      (fun y : Work => decide (y.doi = some d)) ((fun x => if x.id = e.id then e' else x) x) =
      (fun y : Work => decide (y.doi = some d)) x := by
    intro d x hx
    by_cases hxe : x.id = e.id
    · have hxeq : x = e := eq_of_mem_id_nodup hids hmem hx hxe
      subst hxeq
      simp [hdoi]
    · simp [hxe]
  have hptU : ∀ x ∈ dbv.works,
      (fun y : Work => decide (y.source_uid = w.id ∧ y.source = some "OpenAlex"))
        ((fun x => if x.id = e.id then e' else x) x) =
      (fun y : Work => decide (y.source_uid = w.id ∧ y.source = some "OpenAlex")) x := by
    intro x hx
    by_cases hxe : x.id = e.id
    · have hxeq : x = e := eq_of_mem_id_nodup hids hmem hx hxe
      subst hxeq
      simp [huid, hsrc]
    · simp [hxe]
  unfold findExistingWork at heq ⊢
  rcases hd : doiOf w with - | d
  · rw [hd] at heq
    simp only at heq ⊢
    rcases hpy : pyStr w.id with - | -
    · rw [if_neg (by rw [hpy]; exact Bool.false_ne_true)] at heq
      cases heq
    · rw [if_pos hpy] at heq
      rw [if_pos rfl, hworks, find?_map_pred (hptU), heq, Option.map_some']
      simp
  · rw [hd] at heq
    simp only at heq ⊢
    rcases hf : dbv.works.find? (fun y : Work => decide (y.doi = some d)) with - | e0
    · rw [hf] at heq
      simp only at heq
      rw [hworks, find?_map_pred (hptD d), hf]
      simp only [Option.map_none']
      rcases hpy : pyStr w.id with - | -
      · rw [if_neg (by rw [hpy]; exact Bool.false_ne_true)] at heq
        cases heq
      · rw [if_pos hpy] at heq
        rw [if_pos rfl, find?_map_pred (hptU), heq, Option.map_some']
        simp
    · rw [hf] at heq
      simp only at heq
      injection heq with heq
      subst heq
      rw [hworks, find?_map_pred (hptD d), hf, Option.map_some']
      simp

lemma addAffiliations_wid : ∀ (insts : List OAInstitution) (db : DB) (wid aid : Nat)
    (yr : Option Int), ∀ r ∈ (addAffiliations db wid aid yr insts).2, r.work_id = wid
  | [], _, _, _, _, r, hr => absurd hr (List.not_mem_nil r)
  | inst :: rest, db, wid, aid, yr, r, hr => by
    simp only [addAffiliations] at hr
    rcases List.mem_cons.mp hr with rfl | hr'
    · rfl
    · exact addAffiliations_wid rest _ wid aid yr r hr'

lemma addAuthorships_wa_wid : ∀ (entries : List OAAuthorship) (db : DB) (wid : Nat)
    (yr : Option Int) (idx : Nat),
    ∀ r ∈ (addAuthorships db wid yr idx entries).2.1, r.work_id = wid
  | [], _, _, _, _, r, hr => absurd hr (List.not_mem_nil r)
  | auth :: rest, db, wid, yr, idx, r, hr => by
    simp only [addAuthorships] at hr
    rcases List.mem_cons.mp hr with rfl | hr'
    · rfl
    · exact addAuthorships_wa_wid rest _ wid yr (idx + 1) r hr'

lemma addAuthorships_aff_wid : ∀ (entries : List OAAuthorship) (db : DB) (wid : Nat)
    (yr : Option Int) (idx : Nat),
    ∀ r ∈ (addAuthorships db wid yr idx entries).2.2, r.work_id = wid
  | [], _, _, _, _, r, hr => absurd hr (List.not_mem_nil r)
  | auth :: rest, db, wid, yr, idx, r, hr => by
    simp only [addAuthorships] at hr
    rcases List.mem_append.mp hr with hr' | hr'
    · exact addAffiliations_wid _ _ wid _ yr r hr'
    · exact addAuthorships_aff_wid rest _ wid yr (idx + 1) r hr'

lemma addConcepts_wid : ∀ (cs : List OAConcept) (db : DB) (wid : Nat),
    ∀ r ∈ (addConcepts db wid cs).2, r.work_id = wid
  | [], _, _, r, hr => absurd hr (List.not_mem_nil r)
  | c :: rest, db, wid, r, hr => by
    simp only [addConcepts] at hr
    rcases List.mem_cons.mp hr with rfl | hr'
    · rfl
    · exact addConcepts_wid rest _ wid r hr'

lemma nodup_ids_append_fresh {l : List Work} {wk : Work}
    (h : (l.map (fun x => x.id)).Nodup) (hfresh : ∀ x ∈ l, x.id ≠ wk.id) :
    ((l ++ [wk]).map (fun x => x.id)).Nodup := by
  rw [List.map_append]
  refine List.nodup_append.mpr ⟨h, List.nodup_singleton _, ?_⟩
  intro y hy hy2
  rcases List.mem_map.mp hy with ⟨x, hx, rfl⟩
  have : x.id = wk.id := by simpa using hy2
  exact hfresh x hx this

lemma map_update_self {l : List Work} {e : Work} (hids : (l.map (fun x => x.id)).Nodup)
    (hmem : e ∈ l) : l.map (fun x => if x.id = e.id then e else x) = l := by
  have h : ∀ x ∈ l, (if x.id = e.id then e else x) = x := by
    intro x hx
    by_cases hxe : x.id = e.id
    · rw [if_pos hxe, eq_of_mem_id_nodup hids hmem hx hxe]
    · rw [if_neg hxe]
  calc l.map (fun x => if x.id = e.id then e else x) = l.map id := List.map_congr_left h
    _ = l := List.map_id l

lemma filter_map_length {α : Type} (f : α → α) (p : α → Bool) (l : List α)
    (h : ∀ x ∈ l, p (f x) = p x) :
    ((l.map f).filter p).length = (l.filter p).length := by
  induction l with
  | nil => rfl
  | cons x t ih =>
    rw [List.map_cons, List.filter_cons, List.filter_cons, h x (List.mem_cons_self x t)]
    by_cases hx : p x = true
    · rw [if_pos hx, if_pos hx]
      simp only [List.length_cons]
      rw [ih (fun y hy => h y (List.mem_cons_of_mem x hy))]
    · rw [if_neg hx, if_neg hx]
      exact ih (fun y hy => h y (List.mem_cons_of_mem x hy))

lemma length_filter_id_eq_one {l : List Work} {i : Nat}
    (hnd : (l.map (fun x => x.id)).Nodup) (hmem : ∃ x ∈ l, x.id = i) :
    (l.filter (fun x => decide (x.id = i))).length = 1 := by
  have hle : (l.filter (fun x => decide (x.id = i))).length ≤ 1 :=
    length_filter_le_one l (fun x => x.id) i hnd
  rcases hmem with ⟨x, hx, hxi⟩
  have hpos : 0 < (l.filter (fun x => decide (x.id = i))).length :=
    List.length_pos_of_mem (List.mem_filter.mpr ⟨hx, by simp [hxi]⟩)
  omega

lemma db_ext {d1 d2 : DB}
    (h1 : d1.authors = d2.authors) (h2 : d1.author_aliases = d2.author_aliases)
    (h3 : d1.organizations = d2.organizations) (h4 : d1.venues = d2.venues)
    (h5 : d1.keywords = d2.keywords) (h6 : d1.works = d2.works)
    (h7 : d1.work_authors = d2.work_authors)
    (h8 : d1.work_affiliations = d2.work_affiliations)
    (h9 : d1.work_keywords = d2.work_keywords)
    (h10 : d1.coauthor_edges = d2.coauthor_edges) (h11 : d1.org_edges = d2.org_edges)
    (h12 : d1.nation_edges = d2.nation_edges) (h13 : d1.merge_log = d2.merge_log)
    (h14 : d1.next_author_id = d2.next_author_id) (h15 : d1.next_org_id = d2.next_org_id)
    (h16 : d1.next_venue_id = d2.next_venue_id)
    (h17 : d1.next_keyword_id = d2.next_keyword_id)
    (h18 : d1.next_work_id = d2.next_work_id) : d1 = d2 := by
  cases d1
  cases d2
  simp only [DB.mk.injEq]
  exact ⟨h1, h2, h3, h4, h5, h6, h7, h8, h9, h10, h11, h12, h13, h14, h15, h16, h17, h18⟩

/-- C3 (amended): for every record carrying a truthy doi or a truthy source
id, upsert is idempotent on a well-formed store: the second call with the
identical record returns the same Work id and leaves the store exactly as the
first call left it (in particular the Work's author/affiliation/keyword link
sets are unchanged), and the store holds exactly one Work with that id.  A
record whose doi and source id are both falsy never matches and inserts a
fresh Work on every call (see the counterexample). -/
theorem upsert_idempotent (db0 : DB) (w : OAWork) (hwf : WF db0)
    (hkey : pyStr w.doi = true ∨ pyStr w.id = true) :
    upsert_work_from_openalex (upsert_work_from_openalex db0 w).1 w =
      upsert_work_from_openalex db0 w ∧
    ((upsert_work_from_openalex db0 w).1.works.filter (fun wk =>
      decide (wk.id = (upsert_work_from_openalex db0 w).2))).length = 1 := by
  set dbv := (upsertVenueStep db0 w).1 with hdbv
  set ven0 := (upsertVenueStep db0 w).2 with hven0
  have hvw : dbv.works = db0.works := (upsertVenueStep_nonent db0 w).works
  have hvnw : dbv.next_work_id = db0.next_work_id :=
    (upsertVenueStep_nonent db0 w).next_work_id
  have hvwa : dbv.work_authors = db0.work_authors :=
    (upsertVenueStep_nonent db0 w).work_authors
  have hvaff : dbv.work_affiliations = db0.work_affiliations :=
    (upsertVenueStep_nonent db0 w).work_affiliations
  have hvwk : dbv.work_keywords = db0.work_keywords :=
    (upsertVenueStep_nonent db0 w).work_keywords
  have hidsv : (dbv.works.map (fun x => x.id)).Nodup := by
    rw [hvw]
    exact hwf.works_ids
  rcases hex : findExistingWork dbv w with - | e
  · -- first run inserts a fresh Work
    set wkI := (insertBase dbv w ven0).2 with hwkI
    set insDB := (insertBase dbv w ven0).1 with hinsDB
    set db1 := mkFinal insDB wkI.id w with hdb1def
    have h1 : upsert_work_from_openalex db0 w = (db1, wkI.id) := upsert_eq_insert hex
    have hdb1works : db1.works = dbv.works ++ [wkI] := by
      show (mkFinal insDB wkI.id w).works = _
      rw [mkFinal_works]
      rfl
    have hfreshI : ∀ x ∈ dbv.works, x.id ≠ wkI.id := by
      intro x hx
      rw [hvw] at hx
      have hlt := hwf.works_fresh x hx
      show x.id ≠ dbv.next_work_id
      rw [hvnw]
      omega
    have hids1 : (db1.works.map (fun x => x.id)).Nodup := by
      rw [hdb1works]
      exact nodup_ids_append_fresh hidsv hfreshI
    have hmemI : wkI ∈ db1.works := by
      rw [hdb1works]
      exact List.mem_append_right _ (List.mem_cons_self _ _)
    have hfind1 : findExistingWork db1 w = some wkI :=
      findExistingWork_insert hex hkey hdb1works rfl rfl rfl
    have hpreV : (upsertVenueStep db0 w).1.venues <+: db1.venues :=
      (mkFinal_entext insDB wkI.id w).venues
    have hv2 : upsertVenueStep db1 w = (db1, ven0) := upsertVenueStep_replay db0 db1 w hpreV
    have hex2 : findExistingWork (upsertVenueStep db1 w).1 w = some wkI := by
      rw [hv2]
      exact hfind1
    have h2 := upsert_eq_update hex2
    rw [hv2] at h2
    have hupd : updateBase db1 w ven0 wkI =
        { db1 with
          work_authors := dbv.work_authors,
          work_affiliations := dbv.work_affiliations,
          work_keywords := dbv.work_keywords } := by
      refine db_ext rfl rfl rfl rfl rfl ?_ ?_ ?_ ?_ rfl rfl rfl rfl rfl rfl rfl rfl rfl
      · exact map_update_self hids1 hmemI
      · show db1.work_authors.filter (fun l => decide (l.work_id ≠ wkI.id)) =
          dbv.work_authors
        have hdb1wa : db1.work_authors =
            dbv.work_authors ++ (authStep insDB wkI.id w).2.1 :=
          mkFinal_work_authors insDB wkI.id w
        rw [hdb1wa, List.filter_append]
        have hA : dbv.work_authors.filter (fun l => decide (l.work_id ≠ wkI.id)) =
            dbv.work_authors := by
          refine List.filter_eq_self.mpr ?_
          intro r hr
          rw [hvwa] at hr
          rcases hwf.wa_work_ref r hr with ⟨wk', hwk', hwkid⟩
          have hlt := hwf.works_fresh wk' hwk'
          simp only [decide_eq_true_eq]
          show r.work_id ≠ dbv.next_work_id
          rw [hvnw]
          omega
        have hB : ((authStep insDB wkI.id w).2.1).filter
            (fun l => decide (l.work_id ≠ wkI.id)) = [] := by
          refine List.filter_eq_nil_iff.mpr ?_
          intro r hr
          simp only [decide_eq_true_eq, not_not]
          exact addAuthorships_wa_wid _ _ _ _ _ r hr
        rw [hA, hB, List.append_nil]
      · show db1.work_affiliations.filter (fun l => decide (l.work_id ≠ wkI.id)) =
          dbv.work_affiliations
        have hdb1aff : db1.work_affiliations =
            dbv.work_affiliations ++ (authStep insDB wkI.id w).2.2 :=
          mkFinal_work_affiliations insDB wkI.id w
        rw [hdb1aff, List.filter_append]
        have hA : dbv.work_affiliations.filter (fun l => decide (l.work_id ≠ wkI.id)) =
            dbv.work_affiliations := by
          refine List.filter_eq_self.mpr ?_
          intro r hr
          rw [hvaff] at hr
          rcases hwf.waff_work_ref r hr with ⟨wk', hwk', hwkid⟩
          have hlt := hwf.works_fresh wk' hwk'
          simp only [decide_eq_true_eq]
          show r.work_id ≠ dbv.next_work_id
          rw [hvnw]
          omega
        have hB : ((authStep insDB wkI.id w).2.2).filter
            (fun l => decide (l.work_id ≠ wkI.id)) = [] := by
          refine List.filter_eq_nil_iff.mpr ?_
          intro r hr
          simp only [decide_eq_true_eq, not_not]
          exact addAuthorships_aff_wid _ _ _ _ _ r hr
        rw [hA, hB, List.append_nil]
      · show db1.work_keywords.filter (fun l => decide (l.work_id ≠ wkI.id)) =
          dbv.work_keywords
        have hdb1kw : db1.work_keywords =
            dbv.work_keywords ++ (kwStep insDB wkI.id w).2 :=
          mkFinal_work_keywords insDB wkI.id w
        rw [hdb1kw, List.filter_append]
        have hA : dbv.work_keywords.filter (fun l => decide (l.work_id ≠ wkI.id)) =
            dbv.work_keywords := by
          refine List.filter_eq_self.mpr ?_
          intro r hr
          rw [hvwk] at hr
          rcases hwf.wk_work_ref r hr with ⟨wk', hwk', hwkid⟩
          have hlt := hwf.works_fresh wk' hwk'
          simp only [decide_eq_true_eq]
          show r.work_id ≠ dbv.next_work_id
          rw [hvnw]
          omega
        have hB : ((kwStep insDB wkI.id w).2).filter
            (fun l => decide (l.work_id ≠ wkI.id)) = [] := by
          refine List.filter_eq_nil_iff.mpr ?_
          intro r hr
          simp only [decide_eq_true_eq, not_not]
          exact addConcepts_wid _ _ _ r hr
        rw [hA, hB, List.append_nil]
    have hEa : (authStep insDB wkI.id w).1.authors <+:
        ({ db1 with
          work_authors := dbv.work_authors,
          work_affiliations := dbv.work_affiliations,
          work_keywords := dbv.work_keywords } : DB).authors := by
      show (authStep insDB wkI.id w).1.authors <+: (mkFinal insDB wkI.id w).authors
      rw [mkFinal_authors]
    have hEo : (authStep insDB wkI.id w).1.organizations <+:
        ({ db1 with
          work_authors := dbv.work_authors,
          work_affiliations := dbv.work_affiliations,
          work_keywords := dbv.work_keywords } : DB).organizations := by
      show (authStep insDB wkI.id w).1.organizations <+:
        (mkFinal insDB wkI.id w).organizations
      rw [mkFinal_organizations]
    have hEk : (kwStep insDB wkI.id w).1.keywords <+:
        ({ db1 with
          work_authors := dbv.work_authors,
          work_affiliations := dbv.work_affiliations,
          work_keywords := dbv.work_keywords } : DB).keywords := List.prefix_refl _
    have hEv : (authStep insDB wkI.id w).1.venues <+:
        ({ db1 with
          work_authors := dbv.work_authors,
          work_affiliations := dbv.work_affiliations,
          work_keywords := dbv.work_keywords } : DB).venues := by
      show (authStep insDB wkI.id w).1.venues <+: (mkFinal insDB wkI.id w).venues
      rw [mkFinal_venues]
    have hrep := mkFinal_replay insDB
      ({ db1 with
        work_authors := dbv.work_authors,
        work_affiliations := dbv.work_affiliations,
        work_keywords := dbv.work_keywords } : DB) wkI.id w hEa hEo hEk hEv
    have hfin : ({ ({ db1 with
          work_authors := dbv.work_authors,
          work_affiliations := dbv.work_affiliations,
          work_keywords := dbv.work_keywords } : DB) with
        work_authors := dbv.work_authors ++ (authStep insDB wkI.id w).2.1,
        work_affiliations := dbv.work_affiliations ++ (authStep insDB wkI.id w).2.2,
        work_keywords := dbv.work_keywords ++ (kwStep insDB wkI.id w).2 } : DB) = db1 := by
      refine db_ext rfl rfl rfl rfl rfl rfl ?_ ?_ ?_ rfl rfl rfl rfl rfl rfl rfl rfl rfl
      · exact (mkFinal_work_authors insDB wkI.id w).symm
      · exact (mkFinal_work_affiliations insDB wkI.id w).symm
      · exact (mkFinal_work_keywords insDB wkI.id w).symm
    constructor
    · rw [h1]
      show upsert_work_from_openalex db1 w = (db1, wkI.id)
      rw [h2]
      have hfix : mkFinal (updateBase (db1, ven0).1 w (db1, ven0).2 wkI) wkI.id w = db1 := by
        show mkFinal (updateBase db1 w ven0 wkI) wkI.id w = db1
        rw [hupd, hrep]
        exact hfin
      rw [hfix]
    · rw [h1]
      show (db1.works.filter (fun wk => decide (wk.id = wkI.id))).length = 1
      rw [hdb1works]
      exact length_filter_id_eq_one (nodup_ids_append_fresh hidsv hfreshI)
        ⟨wkI, List.mem_append_right _ (List.mem_cons_self _ _), rfl⟩
  · -- first run updates a matched Work
    set e1 := ({ e with
          title := orElseStr w.title "(untitled)",
          abstract := abstractOf w,
          year := yearOf w,
          venue_id := ven0.map (fun v => v.id),
          url := urlOf w,
          wtype := w.wtype,
          language := w.language } : Work) with he1
    set updDB := updateBase dbv w ven0 e with hupdDB
    set db1 := mkFinal updDB e.id w with hdb1def
    have h1 : upsert_work_from_openalex db0 w = (db1, e.id) := upsert_eq_update hex
    have hmemE : e ∈ dbv.works := mem_of_findExistingWork hex
    have hdb1works : db1.works = dbv.works.map (fun x => if x.id = e.id then e1 else x) := by
      show (mkFinal updDB e.id w).works = _
      rw [mkFinal_works]
      rfl
    have hfind1 : findExistingWork db1 w = some e1 :=
      findExistingWork_update hex hidsv hdb1works rfl rfl rfl rfl
    have hids1 : (db1.works.map (fun x => x.id)).Nodup := by
      rw [hdb1works, List.map_map]
      have hcomp : dbv.works.map
          ((fun x : Work => x.id) ∘ (fun x => if x.id = e.id then e1 else x)) =
          dbv.works.map (fun x => x.id) := by
        refine List.map_congr_left ?_
        intro x hx
        show (if x.id = e.id then e1 else x).id = x.id
        by_cases hxe : x.id = e.id
        · rw [if_pos hxe]
          show e.id = x.id
          exact hxe.symm
        · rw [if_neg hxe]
      rw [hcomp]
      exact hidsv
    have hmemE1 : e1 ∈ db1.works := by
      rw [hdb1works]
      refine List.mem_map.mpr ⟨e, hmemE, ?_⟩
      simp
    have hpreV : (upsertVenueStep db0 w).1.venues <+: db1.venues :=
      (mkFinal_entext updDB e.id w).venues
    have hv2 : upsertVenueStep db1 w = (db1, ven0) := upsertVenueStep_replay db0 db1 w hpreV
    have hex2 : findExistingWork (upsertVenueStep db1 w).1 w = some e1 := by
      rw [hv2]
      exact hfind1
    have h2 := upsert_eq_update hex2
    rw [hv2] at h2
    have hupd2 : updateBase db1 w ven0 e1 =
        { db1 with
          work_authors := updDB.work_authors,
          work_affiliations := updDB.work_affiliations,
          work_keywords := updDB.work_keywords } := by
      refine db_ext rfl rfl rfl rfl rfl ?_ ?_ ?_ ?_ rfl rfl rfl rfl rfl rfl rfl rfl rfl
      · exact map_update_self hids1 hmemE1
      · show db1.work_authors.filter (fun l => decide (l.work_id ≠ e1.id)) =
          updDB.work_authors
        have hdb1wa : db1.work_authors =
            updDB.work_authors ++ (authStep updDB e.id w).2.1 :=
          mkFinal_work_authors updDB e.id w
        rw [hdb1wa, List.filter_append]
        have hA : updDB.work_authors.filter (fun l => decide (l.work_id ≠ e1.id)) =
            updDB.work_authors := by
          refine List.filter_eq_self.mpr ?_
          intro r hr
          have hr' : r ∈ dbv.work_authors.filter
              (fun l => decide (l.work_id ≠ e.id)) := hr
          have hq := List.of_mem_filter hr'
          rw [decide_eq_true_eq] at hq
          exact decide_eq_true hq
        have hB : ((authStep updDB e.id w).2.1).filter
            (fun l => decide (l.work_id ≠ e1.id)) = [] := by
          refine List.filter_eq_nil_iff.mpr ?_
          intro r hr
          simp only [decide_eq_true_eq, not_not]
          show r.work_id = e.id
          exact addAuthorships_wa_wid _ _ _ _ _ r hr
        rw [hA, hB, List.append_nil]
      · show db1.work_affiliations.filter (fun l => decide (l.work_id ≠ e1.id)) =
          updDB.work_affiliations
        have hdb1aff : db1.work_affiliations =
            updDB.work_affiliations ++ (authStep updDB e.id w).2.2 :=
          mkFinal_work_affiliations updDB e.id w
        rw [hdb1aff, List.filter_append]
        have hA : updDB.work_affiliations.filter (fun l => decide (l.work_id ≠ e1.id)) =
            updDB.work_affiliations := by
          refine List.filter_eq_self.mpr ?_
          intro r hr
          have hr' : r ∈ dbv.work_affiliations.filter
              (fun l => decide (l.work_id ≠ e.id)) := hr
          have hq := List.of_mem_filter hr'
          rw [decide_eq_true_eq] at hq
          exact decide_eq_true hq
        have hB : ((authStep updDB e.id w).2.2).filter
            (fun l => decide (l.work_id ≠ e1.id)) = [] := by
          refine List.filter_eq_nil_iff.mpr ?_
          intro r hr
          simp only [decide_eq_true_eq, not_not]
          show r.work_id = e.id
          exact addAuthorships_aff_wid _ _ _ _ _ r hr
        rw [hA, hB, List.append_nil]
      · show db1.work_keywords.filter (fun l => decide (l.work_id ≠ e1.id)) =
          updDB.work_keywords
        have hdb1kw : db1.work_keywords =
            updDB.work_keywords ++ (kwStep updDB e.id w).2 :=
          mkFinal_work_keywords updDB e.id w
        rw [hdb1kw, List.filter_append]
        have hA : updDB.work_keywords.filter (fun l => decide (l.work_id ≠ e1.id)) =
            updDB.work_keywords := by
          refine List.filter_eq_self.mpr ?_
          intro r hr
          have hr' : r ∈ dbv.work_keywords.filter
              (fun l => decide (l.work_id ≠ e.id)) := hr
          have hq := List.of_mem_filter hr'
          rw [decide_eq_true_eq] at hq
          exact decide_eq_true hq
        have hB : ((kwStep updDB e.id w).2).filter
            (fun l => decide (l.work_id ≠ e1.id)) = [] := by
          refine List.filter_eq_nil_iff.mpr ?_
          intro r hr
          simp only [decide_eq_true_eq, not_not]
          show r.work_id = e.id
          exact addConcepts_wid _ _ _ r hr
        rw [hA, hB, List.append_nil]
    have hEa : (authStep updDB e.id w).1.authors <+:
        ({ db1 with
          work_authors := updDB.work_authors,
          work_affiliations := updDB.work_affiliations,
          work_keywords := updDB.work_keywords } : DB).authors := by
      show (authStep updDB e.id w).1.authors <+: (mkFinal updDB e.id w).authors
      rw [mkFinal_authors]
    have hEo : (authStep updDB e.id w).1.organizations <+:
        ({ db1 with
          work_authors := updDB.work_authors,
          work_affiliations := updDB.work_affiliations,
          work_keywords := updDB.work_keywords } : DB).organizations := by
      show (authStep updDB e.id w).1.organizations <+: (mkFinal updDB e.id w).organizations
      rw [mkFinal_organizations]
    have hEk : (kwStep updDB e.id w).1.keywords <+:
        ({ db1 with
          work_authors := updDB.work_authors,
          work_affiliations := updDB.work_affiliations,
          work_keywords := updDB.work_keywords } : DB).keywords := List.prefix_refl _
    have hEv : (authStep updDB e.id w).1.venues <+:
        ({ db1 with
          work_authors := updDB.work_authors,
          work_affiliations := updDB.work_affiliations,
          work_keywords := updDB.work_keywords } : DB).venues := by
      show (authStep updDB e.id w).1.venues <+: (mkFinal updDB e.id w).venues
      rw [mkFinal_venues]
    have hrep := mkFinal_replay updDB
      ({ db1 with
        work_authors := updDB.work_authors,
        work_affiliations := updDB.work_affiliations,
        work_keywords := updDB.work_keywords } : DB) e.id w hEa hEo hEk hEv
    have hfin : ({ ({ db1 with
          work_authors := updDB.work_authors,
          work_affiliations := updDB.work_affiliations,
          work_keywords := updDB.work_keywords } : DB) with
        work_authors := updDB.work_authors ++ (authStep updDB e.id w).2.1,
        work_affiliations := updDB.work_affiliations ++ (authStep updDB e.id w).2.2,
        work_keywords := updDB.work_keywords ++ (kwStep updDB e.id w).2 } : DB) = db1 := by
      refine db_ext rfl rfl rfl rfl rfl rfl ?_ ?_ ?_ rfl rfl rfl rfl rfl rfl rfl rfl rfl
      · exact (mkFinal_work_authors updDB e.id w).symm
      · exact (mkFinal_work_affiliations updDB e.id w).symm
      · exact (mkFinal_work_keywords updDB e.id w).symm
    constructor
    · rw [h1]
      show upsert_work_from_openalex db1 w = (db1, e.id)
      rw [h2]
      have hfix : mkFinal (updateBase (db1, ven0).1 w (db1, ven0).2 e1) e1.id w = db1 := by
        show mkFinal (updateBase db1 w ven0 e1) e.id w = db1
        rw [hupd2, hrep]
        exact hfin
      rw [hfix]
    · rw [h1]
      show (db1.works.filter (fun wk => decide (wk.id = e.id))).length = 1
      rw [hdb1works]
      have hpt : ∀ x ∈ dbv.works, (fun wk : Work => decide (wk.id = e.id))
          ((fun x => if x.id = e.id then e1 else x) x) =
          (fun wk : Work => decide (wk.id = e.id)) x := by
        intro x hx
        by_cases hxe : x.id = e.id
        · simp [hxe, he1]
        · simp [hxe]
      rw [filter_map_length (fun x => if x.id = e.id then e1 else x)
        (fun wk : Work => decide (wk.id = e.id)) dbv.works hpt]
      exact length_filter_id_eq_one hidsv ⟨e, hmemE, rfl⟩

/-- C3 counterexample to the unamended claim: a record whose doi and source id
are both falsy matches nothing, so each upsert of the identical record inserts
a fresh Work — twice upserting leaves two Works, not one. -/
theorem upsert_idempotent_cex :
    (upsert_work_from_openalex emptyDB emptyOAWork).1.works.length = 1 ∧
    (upsert_work_from_openalex (upsert_work_from_openalex emptyDB emptyOAWork).1
      emptyOAWork).1.works.length = 2 := by
  exact ⟨by decide, by decide⟩

lemma WF_empty : WF emptyDB := by
  constructor <;> decide

theorem upsert_idempotent_witness :
    (pyStr recC3.doi = true ∨ pyStr recC3.id = true) ∧
    upsert_work_from_openalex (upsert_work_from_openalex emptyDB recC3).1 recC3 =
      upsert_work_from_openalex emptyDB recC3 :=
  ⟨Or.inr (by decide),
   (upsert_idempotent emptyDB recC3 WF_empty (Or.inr (by decide))).1⟩

end Relatenta
